import Mathlib

/-!
# Verification of the Lapse time-tracker core (frontmatter codec, cache, query engine)

A shallow embedding, in Lean 4, of the core of the `obsidian-lapse-tracker`
plugin (`main.ts`): the frontmatter time codec (`loadEntriesFromFrontmatter`,
`updateFrontmatter`), the timestamp codec (`parseDatetimeLocal`,
`formatForDatetimeLocal`), the filename timestamp stripper
(`removeTimestampFromFileName`), the glob exclusion matcher
(`patternToRegex` / `isFileExcluded`), the report date-range resolver
(`getDateRange`), and the mtime cache with debounced persistence
(`getCachedOrLoadEntries`, `saveCache`, `onunload`).

Strings are modelled as `List Char`.  JavaScript `Date` is modelled by the
ECMA-262 time arithmetic (local time zone taken as UTC): millisecond counts
are decomposed into civil `(year, month, day, h, m, s)` tuples via the
proleptic Gregorian calendar, and `new Date(y, m, d, h, mi, s).getTime()` is
`MakeDay`/`MakeTime` arithmetic.  All definitions are executable and the
fallible ones return `Option`.
-/

namespace Lapse

/-- Strings as lists of characters. -/
abbrev Str := List Char

/-- Embed a Lean string literal. -/
def S (s : String) : Str := s.toList

/-- JavaScript `\s` (whitespace) on the ASCII range: space, tab, LF, VT, FF, CR. -/
def isWSChar (c : Char) : Bool :=
  c = (' ') || c = (Char.ofNat 9) || c = (Char.ofNat 10) || c = (Char.ofNat 11) ||
    c = (Char.ofNat 12) || c = (Char.ofNat 13)

/-- `String.prototype.trimStart`. -/
def trimStart (s : Str) : Str := s.dropWhile isWSChar

/-- `String.prototype.trimEnd`. -/
def trimEnd (s : Str) : Str := (trimStart s.reverse).reverse

/-- `String.prototype.trim`. -/
def trim (s : Str) : Str := trimEnd (trimStart s)

/-- `a.startsWith(b)`. -/
def startsWith (s pre : Str) : Bool := pre.isPrefixOf s

/-- Leading-whitespace width: `line.length - line.trimStart().length`. -/
def indentOf (line : Str) : Nat := line.length - (trimStart line).length

/-- `s.split('\n')`, accumulator version. -/
def splitLinesAux : Str → Str → List Str
  | [], acc => [acc.reverse]
  | c :: cs, acc =>
    if c = (Char.ofNat 10) then acc.reverse :: splitLinesAux cs []
    else splitLinesAux cs (c :: acc)

/-- `s.split('\n')`. -/
def splitLines (s : Str) : List Str := splitLinesAux s []

/-- `lines.join('\n')`. -/
def joinLines (ls : List Str) : Str := List.intercalate (S ("\n")) ls

/-- Does `sub` occur as a contiguous substring? (`String.prototype.includes`.) -/
def containsSub (s sub : Str) : Bool :=
  match s with
  | [] => sub.isPrefixOf ([] : Str)
  | _ :: cs => sub.isPrefixOf s || containsSub cs sub

/-- Decimal digit character for a value `< 10`. -/
def digitChar (n : Nat) : Char := Char.ofNat (48 + n)

/-- Decimal representation of a natural number (fuel-driven so it reduces). -/
def natReprAux : Nat → Nat → Str
  | 0, _ => []
  | fuel + 1, n =>
    if n < 10 then [digitChar n]
    else natReprAux fuel (n / 10) ++ [digitChar (n % 10)]

/-- `String(n)` for a natural number. -/
def natRepr (n : Nat) : Str := natReprAux (n + 1) n

/-- `String(i)` for an integer. -/
def intRepr (i : Int) : Str :=
  if i < 0 then (Char.ofNat 45) :: natRepr i.natAbs else natRepr i.natAbs

/-- `s.padStart(w, c)`. -/
def padStart (w : Nat) (c : Char) (s : Str) : Str :=
  List.replicate (w - s.length) c ++ s

/-- `String(n).padStart(2, '0')` for the two-digit date fields. -/
def pad2 (n : Int) : Str := padStart 2 (Char.ofNat 48) (intRepr n)

/-- Is `c` a decimal digit? -/
def isDigitChar (c : Char) : Bool := (Char.ofNat 48) ≤ c && c ≤ (Char.ofNat 57)

/-- Value of a digit character. -/
def digitVal (c : Char) : Nat := c.toNat - 48

/-- Leading run of decimal digits, with the rest. -/
def takeDigits : Str → (List Nat × Str)
  | [] => ([], [])
  | c :: cs =>
    if isDigitChar c then
      let (ds, rest) := takeDigits cs
      (digitVal c :: ds, rest)
    else ([], c :: cs)

/-- Fold a digit list (most significant first) to a natural number. -/
def digitsToNat (ds : List Nat) : Nat := ds.foldl (fun a d => 10 * a + d) 0

/-- Is `c` a hexadecimal digit? -/
def isHexDigitChar (c : Char) : Bool :=
  isDigitChar c || ((Char.ofNat 97) ≤ c && c ≤ (Char.ofNat 102)) ||
    ((Char.ofNat 65) ≤ c && c ≤ (Char.ofNat 70))

/-- Value of a hexadecimal digit character. -/
def hexDigitVal (c : Char) : Nat :=
  if isDigitChar c then c.toNat - 48
  else if (Char.ofNat 97) ≤ c && c ≤ (Char.ofNat 102) then c.toNat - 87
  else c.toNat - 55

/-- Leading run of hexadecimal digits, with the rest. -/
def takeHexDigits : Str → (List Nat × Str)
  | [] => ([], [])
  | c :: cs =>
    if isHexDigitChar c then
      let (ds, rest) := takeHexDigits cs
      (hexDigitVal c :: ds, rest)
    else ([], c :: cs)

/-- Fold a hex digit list (most significant first) to a natural number. -/
def hexDigitsToNat (ds : List Nat) : Nat := ds.foldl (fun a d => 16 * a + d) 0

/-- `parseInt(s)` with no radix argument: skip leading whitespace, optional
sign, then either a `0x`/`0X` hexadecimal literal or decimal digits; `NaN`
(here `none`) when no digit follows. -/
def parseIntOpt (s : Str) : Option Int :=
  let s1 := trimStart s
  let (neg, s2) : Bool × Str :=
    match s1 with
    | c :: cs =>
      if c = (Char.ofNat 45) then (true, cs)
      else if c = (Char.ofNat 43) then (false, cs)
      else (false, c :: cs)
    | [] => (false, [])
  match s2 with
  | c0 :: cx :: cs =>
    if c0 = (Char.ofNat 48) && (cx = (Char.ofNat 120) || cx = (Char.ofNat 88)) then
      let (ds, _) := takeHexDigits cs
      if ds = [] then none
      else some (if neg then -(hexDigitsToNat ds : Int) else (hexDigitsToNat ds : Int))
    else
      let (ds, _) := takeDigits s2
      if ds = [] then none
      else some (if neg then -(digitsToNat ds : Int) else (digitsToNat ds : Int))
  | _ =>
    let (ds, _) := takeDigits s2
    if ds = [] then none
    else some (if neg then -(digitsToNat ds : Int) else (digitsToNat ds : Int))

/-! ## The civil (proleptic Gregorian) calendar underlying ECMA-262 `Date`

`ddN y` is the day-of-era of March 1 of year-of-era `y`; `yoeN doe` recovers
the year-of-era from a day-of-era.  These are the standard era-based
conversions (Hinnant's `civil_from_days` / `days_from_civil`), which realise
ECMA-262's `YearFromTime`/`MakeDay` arithmetic. -/

/-- Day-of-era on which year-of-era `y` begins (years starting March 1). -/
def ddN (y : Nat) : Nat := 365 * y + y / 4 - y / 100

/-- Leap-corrected day count used to recover the year-of-era. -/
def fN (doe : Nat) : Nat := doe - doe / 1460 + doe / 36524 - doe / 146096

/-- Year-of-era of day-of-era `doe`. -/
def yoeN (doe : Nat) : Nat := fN doe / 365

/-- Day-of-era (`z + 719468` reduced to one 400-year era). -/
def cfdDoe (z : Int) : Nat := ((z + 719468) % 146097).toNat

/-- Era index of day number `z`. -/
def cfdEra (z : Int) : Int := (z + 719468) / 146097

/-- Day-of-year (March-based) of day number `z`. -/
def cfdDoy (z : Int) : Nat := cfdDoe z - ddN (yoeN (cfdDoe z))

/-- March-based month index (`0` = March) of day number `z`. -/
def cfdMp (z : Int) : Nat := (5 * cfdDoy z + 2) / 153

/-- Day of month of day number `z`. -/
def cfdDay (z : Int) : Nat := cfdDoy z - (153 * cfdMp z + 2) / 5 + 1

/-- Calendar month (`1..12`) of day number `z`. -/
def cfdMonth (z : Int) : Nat := if cfdMp z < 10 then cfdMp z + 3 else cfdMp z - 9

/-- Calendar year of day number `z`. -/
def cfdYear (z : Int) : Int :=
  (yoeN (cfdDoe z) : Int) + cfdEra z * 400 + (if cfdMonth z ≤ 2 then 1 else 0)

/-- Civil triple `(year, month, day)` of a day number (days since 1970-01-01). -/
def civilFromDays (z : Int) : Int × Nat × Nat := (cfdYear z, cfdMonth z, cfdDay z)

/-- Year adjusted to the March-based reckoning. -/
def dfcY2 (y : Int) (m : Nat) : Int := y - (if m ≤ 2 then 1 else 0)

/-- Era index of a civil year/month. -/
def dfcEra (y : Int) (m : Nat) : Int := dfcY2 y m / 400

/-- Year-of-era of a civil year/month. -/
def dfcYoe (y : Int) (m : Nat) : Nat := (dfcY2 y m - dfcEra y m * 400).toNat

/-- March-based day-of-year of a month/day pair. -/
def dfcDoy (m d : Nat) : Nat := (153 * (if m > 2 then m - 3 else m + 9) + 2) / 5 + d - 1

/-- Day number (days since 1970-01-01) of a civil date with month `1..12`. -/
def daysFromCivil (y : Int) (m : Nat) (d : Nat) : Int :=
  dfcEra y m * 146097 + ((ddN (dfcYoe y m) + dfcDoy m d : Nat) : Int) - 719468

/-! Correctness of the year-of-era recovery, established from 400 boundary
facts (checked by `decide`) together with monotonicity of `fN`. -/

theorem fN_le_succ (x : Nat) : fN x ≤ fN (x + 1) := by
  unfold fN; omega

theorem fN_mono {x y : Nat} (h : x ≤ y) : fN x ≤ fN y := by
  induction y with
  | zero =>
    have hx : x = 0 := Nat.le_zero.mp h
    subst hx; exact le_rfl
  | succ n ih =>
    rcases Nat.lt_or_ge x (n + 1) with h' | h'
    · exact le_trans (ih (by omega)) (fN_le_succ n)
    · have hx : x = n + 1 := by omega
      subst hx; exact le_rfl

theorem yoeN_mono {x y : Nat} (h : x ≤ y) : yoeN x ≤ yoeN y :=
  Nat.div_le_div_right (fN_mono h)

/-- Upper end (exclusive) of the day-of-era window of year-of-era `y`;
the last year of the era (`399`) ends the era's `146097` days. -/
def windowTop (y : Nat) : Nat := if y = 399 then 146097 else ddN (y + 1)

/-- The two boundary facts for one year-of-era. -/
def yoeBoundOk (y : Nat) : Bool :=
  decide (yoeN (ddN y) = y) && decide (yoeN (windowTop y - 1) = y)

set_option maxRecDepth 2000 in
theorem yoeBoundOk_all : ∀ y, y < 400 → yoeBoundOk y = true := by decide

theorem yoeN_eq_of_bounds {y doe : Nat} (hy : y < 400)
    (h1 : ddN y ≤ doe) (h2 : doe < windowTop y) : yoeN doe = y := by
  have hb := yoeBoundOk_all y hy
  unfold yoeBoundOk at hb
  simp only [Bool.and_eq_true, decide_eq_true_eq] at hb
  have hlo : y ≤ yoeN doe := hb.1 ▸ yoeN_mono h1
  have hhi : yoeN doe ≤ y := hb.2 ▸ yoeN_mono (by omega)
  omega

theorem ddN_strict (y : Nat) : ddN y < ddN (y + 1) := by
  unfold ddN; omega

/-- Every day-of-era lies in some year-of-era's window. -/
theorem exists_yoe_window : ∀ doe, doe < 146097 →
    ∃ y, y < 400 ∧ ddN y ≤ doe ∧ doe < windowTop y := by
  intro doe
  induction doe with
  | zero =>
    intro _
    refine ⟨0, by norm_num, by norm_num [ddN], ?_⟩
    norm_num [windowTop, ddN]
  | succ n ih =>
    intro hlt
    obtain ⟨y, hy, h1, h2⟩ := ih (by omega)
    rcases Nat.lt_or_ge (n + 1) (windowTop y) with h3 | h3
    · exact ⟨y, hy, by omega, h3⟩
    · have hne : y ≠ 399 := by
        intro hcon
        have hw : windowTop y = 146097 := by unfold windowTop; rw [if_pos hcon]
        omega
      have htop : windowTop y = ddN (y + 1) := by unfold windowTop; rw [if_neg hne]
      have hy' : y + 1 < 400 := by
        rcases Nat.lt_or_ge (y + 1) 400 with h | h
        · exact h
        · exact absurd (by omega : y = 399) hne
      refine ⟨y + 1, hy', by omega, ?_⟩
      by_cases h399 : y + 1 = 399
      · have hw : windowTop (y + 1) = 146097 := by unfold windowTop; rw [if_pos h399]
        omega
      · have hw : windowTop (y + 1) = ddN (y + 1 + 1) := by unfold windowTop; rw [if_neg h399]
        have := ddN_strict (y + 1)
        omega

/-- Window spacing: every year-of-era spans at most 366 days. -/
theorem windowTop_spacing (y : Nat) (hy : y < 400) : windowTop y - ddN y ≤ 366 := by
  unfold windowTop
  by_cases h : y = 399
  · rw [if_pos h]; subst h; unfold ddN; omega
  · rw [if_neg h]; unfold ddN; omega

/-- Main recovery property: `yoeN` picks the right window. -/
theorem yoeN_window (doe : Nat) (h : doe < 146097) :
    ddN (yoeN doe) ≤ doe ∧ doe - ddN (yoeN doe) ≤ 365 ∧ yoeN doe < 400 := by
  obtain ⟨y, hy, h1, h2⟩ := exists_yoe_window doe h
  have hEq : yoeN doe = y := yoeN_eq_of_bounds hy h1 h2
  have hspace := windowTop_spacing y hy
  rw [hEq]
  omega

theorem month_roundtrip (mp : Nat) (h : mp ≤ 11) :
    (if (if mp < 10 then mp + 3 else mp - 9) > 2 then (if mp < 10 then mp + 3 else mp - 9) - 3
      else (if mp < 10 then mp + 3 else mp - 9) + 9) = mp := by
  rcases Nat.lt_or_ge mp 10 with h1 | h1
  · rw [if_pos h1, if_pos (by omega : mp + 3 > 2)]
    omega
  · rw [if_neg (by omega : ¬ mp < 10), if_neg (by omega : ¬ mp - 9 > 2)]
    omega

theorem month_range (mp : Nat) (h : mp ≤ 11) :
    1 ≤ (if mp < 10 then mp + 3 else mp - 9) ∧ (if mp < 10 then mp + 3 else mp - 9) ≤ 12 := by
  split <;> omega

/-- Round trip for the day-number/civil conversion, with component ranges. -/
theorem daysFromCivil_civilFromDays (z : Int) :
    daysFromCivil (cfdYear z) (cfdMonth z) (cfdDay z) = z ∧
      1 ≤ cfdMonth z ∧ cfdMonth z ≤ 12 ∧ 1 ≤ cfdDay z ∧ cfdDay z ≤ 31 := by
  have hdoeInt : (cfdDoe z : Int) = (z + 719468) % 146097 := by
    unfold cfdDoe; omega
  have hdoeLt : cfdDoe z < 146097 := by
    unfold cfdDoe; omega
  obtain ⟨hw1, hw2, hw3⟩ := yoeN_window (cfdDoe z) hdoeLt
  have hdoyLe : cfdDoy z ≤ 365 := by unfold cfdDoy; omega
  have hmpLe : cfdMp z ≤ 11 := by unfold cfdMp; omega
  have hmpDoy : (153 * cfdMp z + 2) / 5 ≤ cfdDoy z := by unfold cfdMp; omega
  have hdayLo : 1 ≤ cfdDay z := by unfold cfdDay; omega
  have hdayHi : cfdDay z ≤ 31 := by unfold cfdDay cfdMp; omega
  have hmRange := month_range (cfdMp z) hmpLe
  have hmBack : (if cfdMonth z > 2 then cfdMonth z - 3 else cfdMonth z + 9) = cfdMp z := by
    unfold cfdMonth; exact month_roundtrip (cfdMp z) hmpLe
  refine ⟨?_, by unfold cfdMonth; exact hmRange.1, by unfold cfdMonth; exact hmRange.2,
    hdayLo, hdayHi⟩
  have hY2 : dfcY2 (cfdYear z) (cfdMonth z) = (yoeN (cfdDoe z) : Int) + cfdEra z * 400 := by
    unfold dfcY2 cfdYear
    by_cases hc : cfdMonth z ≤ 2
    · rw [if_pos hc]; ring
    · rw [if_neg hc]; ring
  have hyoeNN : (0 : Int) ≤ (yoeN (cfdDoe z) : Int) := Int.natCast_nonneg _
  have hyoeLt : (yoeN (cfdDoe z) : Int) < 400 := by exact_mod_cast hw3
  have hEra : dfcEra (cfdYear z) (cfdMonth z) = cfdEra z := by
    unfold dfcEra
    rw [hY2]
    omega
  have hYoe : dfcYoe (cfdYear z) (cfdMonth z) = yoeN (cfdDoe z) := by
    unfold dfcYoe
    rw [hY2, hEra]
    omega
  have hDoy : dfcDoy (cfdMonth z) (cfdDay z) = cfdDoy z := by
    unfold dfcDoy
    rw [hmBack]
    unfold cfdDay
    omega
  unfold daysFromCivil
  rw [hEra, hYoe, hDoy]
  have hdd : ddN (yoeN (cfdDoe z)) + cfdDoy z = cfdDoe z := by
    unfold cfdDoy; omega
  rw [hdd]
  unfold cfdEra
  omega
/-! ## ECMA-262 time decomposition -/

/-- `Day(t)`: day number containing instant `t` (ms since the epoch). -/
def dayOf (t : Int) : Int := t / 86400000

/-- `TimeWithinDay(t)`. -/
def msOfDay (t : Int) : Int := t % 86400000

/-- `HourFromTime(t)`. -/
def hourOf (t : Int) : Int := msOfDay t / 3600000

/-- `MinFromTime(t)`. -/
def minOf (t : Int) : Int := msOfDay t % 3600000 / 60000

/-- `SecFromTime(t)`. -/
def secOf (t : Int) : Int := msOfDay t % 60000 / 1000

/-- `msFromTime(t)`. -/
def msOf (t : Int) : Int := msOfDay t % 1000

/-- `date.getFullYear()` (local time = UTC in this model). -/
def getFullYear (t : Int) : Int := (civilFromDays (dayOf t)).1

/-- `date.getMonth()` (0-based). -/
def getMonth0 (t : Int) : Int := ((civilFromDays (dayOf t)).2.1 : Int) - 1

/-- `date.getDate()` (day of month, 1-based). -/
def getDate (t : Int) : Int := ((civilFromDays (dayOf t)).2.2 : Int)

/-- `date.getDay()` (day of week, 0 = Sunday; 1970-01-01 was a Thursday). -/
def getDay (t : Int) : Int := (dayOf t + 4) % 7

/-- `new Date(y, m0, d, h, mi, s).getTime()` — ECMA `MakeDay`/`MakeTime`
with a 0-based month that may fall outside `0..11` and a day that may fall
outside the month (both normalise by rolling over). -/
def jsMakeMs (y m0 d h mi s : Int) : Int :=
  let ym : Int := y + m0 / 12
  let mn : Nat := (m0 % 12 + 1).toNat
  (daysFromCivil ym mn 1 + (d - 1)) * 86400000 +
    h * 3600000 + mi * 60000 + s * 1000

/-- `t` with `setHours(0, 0, 0, 0)` applied. -/
def startOfDayMs (t : Int) : Int := dayOf t * 86400000

/-- `t` with `setHours(23, 59, 59, 999)` applied. -/
def endOfDayMs (t : Int) : Int := dayOf t * 86400000 + 86399999

/-! ## The timestamp codec (`formatForDatetimeLocal` / `parseDatetimeLocal`) -/

/-- `formatForDatetimeLocal(t)`: `${year}-${month}-${day}T${h}:${m}:${s}`
with the non-year fields padded to two digits. -/
def formatForDatetimeLocal (t : Int) : Str :=
  intRepr (getFullYear t) ++ [Char.ofNat 45] ++ pad2 (getMonth0 t + 1) ++ [Char.ofNat 45] ++
    pad2 (getDate t) ++ [Char.ofNat 84] ++ pad2 (hourOf t) ++ [Char.ofNat 58] ++
    pad2 (minOf t) ++ [Char.ofNat 58] ++ pad2 (secOf t)

/-- `formatTimestampForFrontmatter(t)`: `null` stays `null`. -/
def formatTimestampForFrontmatter (t : Option Int) : Option Str :=
  t.map formatForDatetimeLocal

/-- Consume exactly `n` decimal digits, returning their value. -/
def takeNDigits : Nat → Str → Option (Nat × Str)
  | 0, s => some (0, s)
  | _ + 1, [] => none
  | n + 1, c :: cs =>
    if isDigitChar c then
      match takeNDigits n cs with
      | some (v, rest) => some (v, rest)
      | none => none
    else none

/-- Value of exactly `n` leading digits (most significant first). -/
def readNDigits : Nat → Str → Option (Nat × Str)
  | 0, s => some (0, s)
  | n + 1, c :: cs =>
    if isDigitChar c then
      match readNDigits n cs with
      | some (v, rest) => some (digitVal c * 10 ^ n + v, rest)
      | none => none
    else none
  | _ + 1, [] => none

/-- The optional seconds group `(?::(\d{2}))?` of the timestamp regex. -/
def dtSeconds (s : Str) : Option (Nat × Str) :=
  match s with
  | c :: cs =>
    if c = (Char.ofNat 58) then
      match readNDigits 2 cs with
      | some (v, rest) => some (v, rest)
      | none => none
    else some (0, c :: cs)
  | [] => some (0, [])

/-- The optional fractional group `(?:\.\d+)?`. -/
def dtFraction (s : Str) : Option Str :=
  match s with
  | c :: cs =>
    if c = (Char.ofNat 46) then
      let (ds, rest) := takeDigits cs
      if ds = [] then none else some rest
    else some (c :: cs)
  | [] => some []

/-- The optional time-zone group `(?:Z|[+-]\d{2}:\d{2})?`. -/
def dtZone (s : Str) : Option Str :=
  match s with
  | c :: cs =>
    if c = (Char.ofNat 90) then some cs
    else if c = (Char.ofNat 43) || c = (Char.ofNat 45) then
      match readNDigits 2 cs with
      | some (_, r1) =>
        match r1 with
        | c2 :: cs2 =>
          if c2 = (Char.ofNat 58) then
            match readNDigits 2 cs2 with
            | some (_, r2) => some r2
            | none => none
          else none
        | [] => none
      | none => none
    else some (c :: cs)
  | [] => some []

/-- The anchored timestamp regex
`^(\d{4})-(\d{2})-(\d{2})[T ](\d{2}):(\d{2})(?::(\d{2}))?(?:\.\d+)?(?:Z|[+-]\d{2}:\d{2})?$`,
returning the six captured numeric fields (seconds default `0`). -/
def dtRegexMatch (s : Str) : Option (Nat × Nat × Nat × Nat × Nat × Nat) :=
  match readNDigits 4 s with
  | none => none
  | some (y, r1) =>
    match r1 with
    | c1 :: r2 =>
      if c1 = (Char.ofNat 45) then
        match readNDigits 2 r2 with
        | none => none
        | some (mo, r3) =>
          match r3 with
          | c2 :: r4 =>
            if c2 = (Char.ofNat 45) then
              match readNDigits 2 r4 with
              | none => none
              | some (d, r5) =>
                match r5 with
                | c3 :: r6 =>
                  if c3 = (Char.ofNat 84) || c3 = (' ') then
                    match readNDigits 2 r6 with
                    | none => none
                    | some (h, r7) =>
                      match r7 with
                      | c4 :: r8 =>
                        if c4 = (Char.ofNat 58) then
                          match readNDigits 2 r8 with
                          | none => none
                          | some (mi, r9) =>
                            match dtSeconds r9 with
                            | none => none
                            | some (sec, r10) =>
                              match dtFraction r10 with
                              | none => none
                              | some r11 =>
                                match dtZone r11 with
                                | none => none
                                | some r12 =>
                                  if r12 = [] then some (y, mo, d, h, mi, sec) else none
                        else none
                      | [] => none
                  else none
                | [] => none
            else none
          | [] => none
      else none
    | [] => none

/-- `parseDatetimeLocal(value)`: empty is `null`; a regex match is rebuilt with
`new Date(y, m-1, d, h, mi, s)`; otherwise the host's generic `new Date(string)`
parser (a parameter `fb` of the model) decides, `NaN` being `none`. -/
def parseDatetimeLocal (fb : Str → Option Int) (value : Str) : Option Int :=
  if value = [] then none
  else
    let normalized := trim value
    match dtRegexMatch normalized with
    | some (y, mo, d, h, mi, sec) =>
      some (jsMakeMs (y : Int) ((mo : Int) - 1) (d : Int) (h : Int) (mi : Int) (sec : Int))
    | none => fb normalized

/-! ## `removeTimestampFromFileName`

Each of the five timestamp patterns is a global regex replace; the shared
engine `replPassR` scans positions left to right, resuming after each match
(the semantics of `String.replace` with a `g` flag). -/

/-- The separator class `[-_\s]`. -/
def isSepChar (c : Char) : Bool :=
  c = (Char.ofNat 45) || c = (Char.ofNat 95) || isWSChar c

/-- Exactly `n` decimal digits. -/
def pExactDigits : Nat → Str → Option Str
  | 0, s => some s
  | n + 1, c :: cs => if isDigitChar c then pExactDigits n cs else none
  | _ + 1, [] => none

/-- `\d{4,6}` followed by a non-digit (greedy with backtracking collapses to:
the whole digit run, which must have length 4 to 6). -/
def pDigitRun46 (s : Str) : Option Str :=
  let k := (s.takeWhile isDigitChar).length
  if 4 ≤ k ∧ k ≤ 6 then some (s.drop k) else none

/-- A single literal character. -/
def pChar (c : Char) : Str → Option Str
  | c2 :: cs => if c2 = c then some cs else none
  | [] => none

/-- One separator character. -/
def pSep : Str → Option Str
  | c :: cs => if isSepChar c then some cs else none
  | [] => none

/-- The trailing boundary `(?:[-_\s]|$)`: consumes a separator or accepts at
the end of the string. -/
def pBoundary : Str → Option Str
  | [] => some []
  | c :: cs => if isSepChar c then some cs else none

/-- An optional group none of whose leading characters can be consumed by the
pattern's continuation (so the greedy attempt commits). -/
def pOpt (p : Str → Option Str) (s : Str) : Str :=
  match p s with
  | some r => r
  | none => s

/-- The timezone alternative `Z|[-+]\d{2}:\d{2}` (case-insensitive `Z`). -/
def tryTz : Str → Option Str
  | c :: cs =>
    if c = (Char.ofNat 90) || c = (Char.ofNat 122) then some cs
    else if c = (Char.ofNat 43) || c = (Char.ofNat 45) then
      match pExactDigits 2 cs with
      | some r => match pChar (Char.ofNat 58) r with
                  | some r2 => pExactDigits 2 r2
                  | none => none
      | none => none
    else none
  | [] => none

/-- `(?:Z|[-+]\d{2}:\d{2})?(?:[-_\s]|$)`: the optional timezone needs true
backtracking because `-` can open a timezone and also be the trailing
separator. -/
def tzThenBoundary (s : Str) : Option Str :=
  match tryTz s with
  | some r =>
    match pBoundary r with
    | some r2 => some r2
    | none => pBoundary s
  | none => pBoundary s

/-- Body of pattern 1: `(\d{8})-(\d{4,6})` plus trailing boundary. -/
def stripBody1 (s : Str) : Option Str :=
  (pExactDigits 8 s).bind fun r1 =>
  (pChar (Char.ofNat 45) r1).bind fun r2 =>
  (pDigitRun46 r2).bind pBoundary

/-- Body of pattern 2 (ISO with `T`, `i` flag):
`(\d{4}-\d{2}-\d{2})T(\d{2}:\d{2}(?::\d{2})?(?:\.\d{3})?)` plus optional
timezone and trailing boundary. -/
def stripBody2 (s : Str) : Option Str :=
  (pExactDigits 4 s).bind fun a =>
  (pChar (Char.ofNat 45) a).bind fun b =>
  (pExactDigits 2 b).bind fun c =>
  (pChar (Char.ofNat 45) c).bind fun d =>
  (pExactDigits 2 d).bind fun e =>
  (match e with
    | c2 :: cs => if c2 = (Char.ofNat 84) || c2 = (Char.ofNat 116) then some cs else none
    | [] => none).bind fun f =>
  (pExactDigits 2 f).bind fun g =>
  (pChar (Char.ofNat 58) g).bind fun h =>
  (pExactDigits 2 h).bind fun i =>
  let j := pOpt (fun x => (pChar (Char.ofNat 58) x).bind (pExactDigits 2)) i
  let k := pOpt (fun x => (pChar (Char.ofNat 46) x).bind (pExactDigits 3)) j
  tzThenBoundary k

/-- Body of pattern 3: `(\d{4}-\d{2}-\d{2})[-_\s](\d{2}:\d{2}(?::\d{2})?)`
plus trailing boundary. -/
def stripBody3 (s : Str) : Option Str :=
  (pExactDigits 4 s).bind fun a =>
  (pChar (Char.ofNat 45) a).bind fun b =>
  (pExactDigits 2 b).bind fun c =>
  (pChar (Char.ofNat 45) c).bind fun d =>
  (pExactDigits 2 d).bind fun e =>
  (pSep e).bind fun f =>
  (pExactDigits 2 f).bind fun g =>
  (pChar (Char.ofNat 58) g).bind fun h =>
  (pExactDigits 2 h).bind fun i =>
  pBoundary (pOpt (fun x => (pChar (Char.ofNat 58) x).bind (pExactDigits 2)) i)

/-- Body of pattern 4: four digits, an optional dash or slash, two digits, an
optional dash or slash, two digits; plus trailing boundary. -/
def stripBody4 (s : Str) : Option Str :=
  (pExactDigits 4 s).bind fun a =>
  (pExactDigits 2 (pOpt (fun x =>
    match x with
    | c :: cs => if c = (Char.ofNat 45) || c = (Char.ofNat 47) then some cs else none
    | [] => none) a)).bind fun b =>
  (pExactDigits 2 (pOpt (fun x =>
    match x with
    | c :: cs => if c = (Char.ofNat 45) || c = (Char.ofNat 47) then some cs else none
    | [] => none) b)).bind pBoundary

/-- Body of pattern 5: `(\d{2}:\d{2}(?::\d{2})?)` plus trailing boundary. -/
def stripBody5 (s : Str) : Option Str :=
  (pExactDigits 2 s).bind fun a =>
  (pChar (Char.ofNat 58) a).bind fun b =>
  (pExactDigits 2 b).bind fun c =>
  pBoundary (pOpt (fun x => (pChar (Char.ofNat 58) x).bind (pExactDigits 2)) c)

/-- A pattern body with the leading `(?:^|[-_\s])` boundary (the alternation
tries `^` first, then the consuming separator class). -/
def withLead (body : Str → Option Str) (atStart : Bool) (s : Str) : Option Str :=
  match (if atStart then body s else none) with
  | some r => some r
  | none =>
    match s with
    | c :: cs => if isSepChar c then body cs else none
    | [] => none

/-- The collapse pattern `[-_\s]{2,}` (greedy maximal run of length at least
two); position-independent. -/
def collapseM (_ : Bool) (s : Str) : Option Str :=
  match s with
  | c1 :: c2 :: cs =>
    if isSepChar c1 ∧ isSepChar c2 then some ((c2 :: cs).dropWhile isSepChar) else none
  | _ => none

/-- `String.replace(/re/g, emit)`: scan left to right, resuming after each
match; fuel-driven so it computes by reduction. -/
def replPassR (m : Bool → Str → Option Str) (emit : Str) : Nat → Bool → Str → Str
  | 0, _, s => s
  | _ + 1, _, [] => []
  | fuel + 1, atStart, c :: cs =>
    match m atStart (c :: cs) with
    | some rest => emit ++ replPassR m emit fuel false rest
    | none => c :: replPassR m emit fuel false cs

/-- One global replace pass with empty replacement. -/
def stripPass (body : Str → Option Str) (s : Str) : Str :=
  replPassR (withLead body) [] (s.length + 1) true s

/-- `^[-_\s]+|[-_\s]+$` with empty replacement: strips the leading and the
trailing separator runs. -/
def stripSepEnds (s : Str) : Str :=
  ((s.dropWhile isSepChar).reverse.dropWhile isSepChar).reverse

/-- `removeTimestampFromFileName`. -/
def removeTimestampFromFileName (fileName : Str) : Str :=
  let r1 := stripPass stripBody1 fileName
  let r2 := stripPass stripBody2 r1
  let r3 := stripPass stripBody3 r2
  let r4 := stripPass stripBody4 r3
  let r5 := stripPass stripBody5 r4
  let r6 := replPassR collapseM [(' ')] (r5.length + 1) true r5
  let r7 := stripSepEnds r6
  let r8 := trim r7
  if r8 = [] then fileName else r8

/-! ## Settings and the data model -/

/-- The subset of `LapseSettings` the core consumes. -/
structure LapseSettings where
  startTimeKey : Str
  endTimeKey : Str
  entriesKey : Str
  totalTimeKey : Str
  projectKey : Str
  removeTimestampFromFileName : Bool
  hideTimestampsInViews : Bool
  firstDayOfWeek : Int
  excludedFolders : List Str

/-- `DEFAULT_SETTINGS` (the fields this core consumes). -/
def DEFAULT_SETTINGS : LapseSettings where
  startTimeKey := S ("startTime")
  endTimeKey := S ("endTime")
  entriesKey := S ("lapseEntries")
  totalTimeKey := S ("totalTimeTracked")
  projectKey := S ("project")
  removeTimestampFromFileName := false
  hideTimestampsInViews := true
  firstDayOfWeek := 0
  excludedFolders := []

/-- `TimeEntry`. -/
structure TimeEntry where
  id : Str
  label : Str
  startTime : Option Int
  endTime : Option Int
  duration : Int
  isPaused : Bool
  tags : List Str
deriving DecidableEq

/-- `PageTimeData` (the per-document `DocumentTimeData`). -/
structure PageTimeData where
  entries : List TimeEntry
  totalTimeTracked : Int
deriving DecidableEq

/-! ## Frontmatter extraction (the anchored pattern `---` NL capture NL `---`) -/

/-- Split at the first occurrence of `"\n---"`: `(before, after-the-match)`. -/
def findFMClose : Str → Option (Str × Str)
  | [] => none
  | c :: cs =>
    if startsWith (c :: cs) (S ("\n---")) then some ([], (c :: cs).drop 4)
    else
      match findFMClose cs with
      | some (pre, post) => some (c :: pre, post)
      | none => none

/-- Match the frontmatter regex (`---`, newline, lazy capture, newline,
`---`, anchored at the start) against the document; returns the captured
frontmatter text and the text after the match. -/
def matchFrontmatter (content : Str) : Option (Str × Str) :=
  if startsWith content (S ("---\n")) then findFMClose (content.drop 4) else none

/-! ## Parse: `loadEntriesFromFrontmatter` -/

/-- The dynamic `currentEntry` accumulator. -/
structure EntryBuilder where
  label : Str := []
  start : Option Str := none
  endv : Option Str := none
  duration : Option Int := none
  tags : Option (List Str) := none
deriving DecidableEq

/-- `parseTimestampValue` (falsy values are `null`). -/
def parseTimestampValue (fb : Str → Option Int) : Option Str → Option Int
  | none => none
  | some s => if s = [] then none else parseDatetimeLocal fb s

/-- Finalize `currentEntry` into a `TimeEntry` (`n` = index used in the id). -/
def mkEntry (fb : Str → Option Int) (filePath : Str) (now : Int) (n : Nat)
    (b : EntryBuilder) : TimeEntry where
  id := filePath ++ (S ("-")) ++ natRepr n ++ (S ("-")) ++ intRepr now
  label := if b.label = [] then S ("Untitled") else b.label
  startTime := parseTimestampValue fb b.start
  endTime := parseTimestampValue fb b.endv
  duration := b.duration.getD 0 * 1000
  isPaused := false
  tags := b.tags.getD []

/-- Capture of `/^- label:\s*"?([^"]*)"?/` (under the `- label:` prefix guard),
then `.trim()`. -/
def extractLabel (trimmed : Str) : Str :=
  let rest := (trimmed.drop 8).dropWhile isWSChar
  let rest2 :=
    match rest with
    | c :: cs => if c = (Char.ofNat 34) then cs else c :: cs
    | [] => []
  trim (rest2.takeWhile (fun c => ¬ c = (Char.ofNat 34)))

/-- `s.replace(/<key>\s*/, '')`: drop the first occurrence of `key` together
with the whitespace run following it. -/
def replaceKeyWs (key : Str) : Str → Str
  | [] => []
  | c :: cs =>
    if key.isPrefixOf (c :: cs) then ((c :: cs).drop key.length).dropWhile isWSChar
    else c :: replaceKeyWs key cs

/-- `s.replace(lit, '')` for a literal pattern: drop its first occurrence. -/
def replaceFirstStr (pat : Str) : Str → Str
  | [] => []
  | c :: cs =>
    if pat.isPrefixOf (c :: cs) then (c :: cs).drop pat.length
    else c :: replaceFirstStr pat cs

/-- Split on a separator character (`s.split(sep)`). -/
def splitChAux (sep : Char) : Str → Str → List Str
  | [], acc => [acc.reverse]
  | c :: cs, acc =>
    if c = sep then acc.reverse :: splitChAux sep cs []
    else splitChAux sep cs (c :: acc)

/-- `s.split(sep)`. -/
def splitCh (sep : Char) (s : Str) : List Str := splitChAux sep s []

/-- `tagsStr.split(',').map(t => t.trim()).filter(t => t)`. -/
def parseTagsSplit (s : Str) : List Str :=
  ((splitCh (Char.ofNat 44) s).map trim).filter (fun t => ¬ t = [])

/-- JSON whitespace. -/
def isJsonWS (c : Char) : Bool :=
  c = (' ') || c = (Char.ofNat 9) || c = (Char.ofNat 10) || c = (Char.ofNat 13)

/-- One JSON string body (after the opening quote): returns content and rest
after the closing quote.  Strings are the only element type this model admits
(the source only ever round-trips arrays of strings). -/
def jsonStringBody : Str → Option (Str × Str)
  | [] => none
  | c :: cs =>
    if c = (Char.ofNat 34) then some ([], cs)
    else if c = (Char.ofNat 92) then
      match cs with
      | e :: cs2 =>
        if e = (Char.ofNat 34) then
          match jsonStringBody cs2 with
          | some (body, rest) => some ((Char.ofNat 34) :: body, rest)
          | none => none
        else if e = (Char.ofNat 92) then
          match jsonStringBody cs2 with
          | some (body, rest) => some ((Char.ofNat 92) :: body, rest)
          | none => none
        else if e = (Char.ofNat 47) then
          match jsonStringBody cs2 with
          | some (body, rest) => some ((Char.ofNat 47) :: body, rest)
          | none => none
        else if e = (Char.ofNat 110) then
          match jsonStringBody cs2 with
          | some (body, rest) => some ((Char.ofNat 10) :: body, rest)
          | none => none
        else if e = (Char.ofNat 116) then
          match jsonStringBody cs2 with
          | some (body, rest) => some ((Char.ofNat 9) :: body, rest)
          | none => none
        else if e = (Char.ofNat 114) then
          match jsonStringBody cs2 with
          | some (body, rest) => some ((Char.ofNat 13) :: body, rest)
          | none => none
        else none
      | [] => none
    else if c.toNat < 32 then none
    else
      match jsonStringBody cs with
      | some (body, rest) => some (c :: body, rest)
      | none => none

/-- Elements of a JSON string array after the first `[ "`; fuel-driven. -/
def jsonArrayElems : Nat → Str → Option (List Str × Str)
  | 0, _ => none
  | fuel + 1, s =>
    match jsonStringBody s with
    | none => none
    | some (elem, rest) =>
      let r := rest.dropWhile isJsonWS
      match r with
      | c :: cs =>
        if c = (Char.ofNat 44) then
          let r2 := cs.dropWhile isJsonWS
          match r2 with
          | c2 :: cs2 =>
            if c2 = (Char.ofNat 34) then
              match jsonArrayElems fuel cs2 with
              | some (elems, rest2) => some (elem :: elems, rest2)
              | none => none
            else none
          | [] => none
        else if c = (Char.ofNat 93) then some ([elem], cs)
        else none
      | [] => none

/-- `JSON.parse(s)` restricted to arrays of strings; `none` models a thrown
`SyntaxError` (and any non-array or non-string-element result). -/
def jsonParseStrArray (s : Str) : Option (List Str) :=
  let s1 := s.dropWhile isJsonWS
  match s1 with
  | c :: cs =>
    if c = (Char.ofNat 91) then
      let r := cs.dropWhile isJsonWS
      match r with
      | c2 :: cs2 =>
        if c2 = (Char.ofNat 93) then
          if cs2.dropWhile isJsonWS = [] then some [] else none
        else if c2 = (Char.ofNat 34) then
          match jsonArrayElems (cs2.length + 1) cs2 with
          | some (elems, rest) =>
            if rest.dropWhile isJsonWS = [] then some elems else none
          | none => none
        else none
      | [] => none
    else none
  | [] => none

/-- The tag value cleanup `/^["'](.*)["']$/` → `$1`. -/
def stripSurroundingQuotes (s : Str) : Str :=
  match s with
  | c :: cs =>
    if cs ≠ [] ∧ (c = (Char.ofNat 34) ∨ c = (Char.ofNat 39)) ∧
        (cs.getLast? = some (Char.ofNat 34) ∨ cs.getLast? = some (Char.ofNat 39)) then
      cs.dropLast
    else s
  | [] => []

/-- State of the line loop in `loadEntriesFromFrontmatter`: `collecting` holds
the indent of a `tags:` line whose multi-line list is being consumed. -/
structure ParseState where
  inEntries : Bool
  current : Option EntryBuilder
  entries : List TimeEntry
  collecting : Option Nat

/-- Push `currentEntry` (if any) into the result list. -/
def flushCurrent (fb : Str → Option Int) (filePath : Str) (now : Int)
    (st : ParseState) : ParseState :=
  match st.current with
  | some b =>
    { st with
      entries := st.entries ++ [mkEntry fb filePath now st.entries.length b]
      current := none }
  | none => st

/-- Update the current builder (a no-op when there is none). -/
def setCurrent (st : ParseState) (f : EntryBuilder → EntryBuilder) : ParseState :=
  { st with current := st.current.map f }

/-- One iteration of the main line loop (ignoring tag collection); the
source's local constants (`trimmed`, `indent`, the extracted values) appear
inline. -/
def parseStepCore (st : LapseSettings) (fb : Str → Option Int) (filePath : Str)
    (now : Int) (ps : ParseState) (line : Str) : ParseState :=
  if startsWith (trim line) (st.entriesKey ++ (S (":"))) then
    { ps with inEntries := true }
  else if ps.inEntries then
    if trim line ≠ [] ∧ indentOf line = 0 ∧ ¬ startsWith (trim line) (S ("-")) then
      { flushCurrent fb filePath now ps with inEntries := false }
    else if startsWith (trim line) (S ("- label:")) then
      { flushCurrent fb filePath now ps with
        current := some { label := extractLabel (trim line) } }
    else if startsWith (trim line) (S ("start:")) ∧ ps.current.isSome then
      setCurrent ps (fun b =>
        { b with start := some (trim (replaceKeyWs (S ("start:")) (trim line))) })
    else if startsWith (trim line) (S ("end:")) ∧ ps.current.isSome then
      setCurrent ps (fun b =>
        { b with endv :=
            if trim (replaceKeyWs (S ("end:")) (trim line)) = [] then none
            else some (trim (replaceKeyWs (S ("end:")) (trim line))) })
    else if startsWith (trim line) (S ("duration:")) ∧ ps.current.isSome then
      setCurrent ps (fun b =>
        { b with duration := some (match parseIntOpt
            (trim (replaceKeyWs (S ("duration:")) (trim line))) with
          | some v => v
          | none => 0) })
    else if startsWith (trim line) (S ("tags:")) ∧ ps.current.isSome then
      if startsWith (trim (replaceKeyWs (S ("tags:")) (trim line))) (S ("[")) then
        setCurrent ps (fun b =>
          let v := some ((jsonParseStrArray (trim (replaceKeyWs (S ("tags:")) (trim line)))).getD [])
          { b with tags := v })
      else if trim (replaceKeyWs (S ("tags:")) (trim line)) ≠ [] then
        setCurrent ps (fun b =>
          { b with tags := some (parseTagsSplit (trim (replaceKeyWs (S ("tags:")) (trim line)))) })
      else
        { setCurrent ps (fun b => { b with tags := some [] }) with
          collecting := some (indentOf line) }
    else ps
  else ps

/-- One iteration of the line loop, tag-collection mode included (the inner
`while` of the source consumed the collected lines ahead of the outer loop;
here they are consumed one per step). -/
def parseStep (st : LapseSettings) (fb : Str → Option Int) (filePath : Str)
    (now : Int) (ps : ParseState) (line : Str) : ParseState :=
  match ps.collecting with
  | some ind =>
    if startsWith (trim line) (S ("-")) ∧ indentOf line > ind then
      if stripSurroundingQuotes (trim ((trim line).drop 1)) ≠ [] then
        setCurrent ps (fun b =>
          let v := some (b.tags.getD [] ++ [stripSurroundingQuotes (trim ((trim line).drop 1))])
          { b with tags := v })
      else ps
    else if trim line = [] then ps
    else parseStepCore st fb filePath now { ps with collecting := none } line
  | none => parseStepCore st fb filePath now ps line

/-- Truthiness of a JS string variable (`undefined`/`''` are falsy). -/
def strTruthy : Option Str → Bool
  | some s => ¬ s = []
  | none => false

/-- Truthiness of a JS number variable (`null`/`0` are falsy). -/
def numTruthy : Option Int → Bool
  | some v => ¬ v = 0
  | none => false

/-- State of the fallback scan for top-level `startTime`/`endTime`/`tags`. -/
structure FallbackState where
  topLevelStart : Option Str := none
  topLevelEnd : Option Str := none
  topLevelTags : List Str := []

/-- One line of the fallback scan. -/
def fallbackStep (st : LapseSettings) (fs : FallbackState) (line : Str) : FallbackState :=
  let trimmed := trim line
  if startsWith trimmed (st.startTimeKey ++ (S (":"))) then
    let v := some (trim (replaceFirstStr (st.startTimeKey ++ (S (":"))) trimmed))
    { fs with topLevelStart := v }
  else if startsWith trimmed (st.endTimeKey ++ (S (":"))) then
    let v := some (trim (replaceFirstStr (st.endTimeKey ++ (S (":"))) trimmed))
    { fs with topLevelEnd := v }
  else if startsWith trimmed (S ("tags:")) then
    let tagsStr := trim (replaceFirstStr (S ("tags:")) trimmed)
    if startsWith tagsStr (S ("[")) then
      { fs with topLevelTags := (jsonParseStrArray tagsStr).getD [] }
    else if tagsStr ≠ [] then
      { fs with topLevelTags := parseTagsSplit tagsStr }
    else fs
  else fs

/-- `loadEntriesFromFrontmatter`, as a pure function of the document text.
`fb` is the host's generic date parser, `now` is `Date.now()`,
`basename` the file's base name.  `none` means the function returned without
touching `timeData` (no frontmatter). -/
def loadEntriesFromFrontmatter (st : LapseSettings) (fb : Str → Option Int)
    (filePath basename : Str) (now : Int) (content : Str) : Option PageTimeData :=
  match matchFrontmatter content with
  | none => none
  | some (fm, _) =>
    let lines := splitLines fm
    let ps0 : ParseState :=
      { inEntries := false, current := none, entries := [], collecting := none }
    let psFinal := lines.foldl (parseStep st fb filePath now) ps0
    let entries1 := (flushCurrent fb filePath now psFinal).entries
    let entries :=
      if entries1.length = 0 then
        let fs := lines.foldl (fallbackStep st) {}
        if strTruthy fs.topLevelStart then
          let parsedStart := parseTimestampValue fb fs.topLevelStart
          let parsedEnd := parseTimestampValue fb fs.topLevelEnd
          let duration : Int :=
            if numTruthy parsedStart ∧ numTruthy parsedEnd then
              max 0 (parsedEnd.getD 0 - parsedStart.getD 0)
            else 0
          let noteName := basename
          let label :=
            if st.removeTimestampFromFileName then removeTimestampFromFileName noteName
            else noteName
          [{ id := filePath ++ (S ("-fallback-")) ++ intRepr now
             label := label
             startTime := parsedStart
             endTime := parsedEnd
             duration := duration
             isPaused := false
             tags := fs.topLevelTags }]
        else []
      else entries1
    some { entries := entries
           totalTimeTracked := entries.foldl (fun sum e => sum + e.duration) 0 }

/-! ## Serialize: `updateFrontmatter` -/

/-- `Math.min(...xs)` over a non-empty list. -/
def listMin : List Int → Int
  | [] => 0
  | x :: xs => xs.foldl min x

/-- `Math.max(...xs)` over a non-empty list. -/
def listMax : List Int → Int
  | [] => 0
  | x :: xs => xs.foldl max x

/-- `label.replace(/\\/g, '\\\\').replace(/"/g, '\\"')`. -/
def escapeLabel (s : Str) : Str :=
  ((s.map fun c =>
      if c = (Char.ofNat 92) then [Char.ofNat 92, Char.ofNat 92] else [c]).flatten.map
    fun c =>
      if c = (Char.ofNat 34) then [Char.ofNat 92, Char.ofNat 34] else [c]).flatten

/-- `[${tags.map(t => `"${t}"`).join(', ')}]`. -/
def renderTags (tags : List Str) : Str :=
  [Char.ofNat 91] ++
    List.intercalate (S (", "))
      (tags.map fun t => [Char.ofNat 34] ++ t ++ [Char.ofNat 34]) ++
  [Char.ofNat 93]

/-- `formatTimeAsHHMMSS(ms)` (the JS `%` is truncated remainder). -/
def formatTimeAsHHMMSS (ms : Int) : Str :=
  let totalSeconds := ms / 1000
  let hours := totalSeconds / 3600
  let minutes := Int.tmod totalSeconds 3600 / 60
  let seconds := Int.tmod totalSeconds 60
  pad2 hours ++ [Char.ofNat 58] ++ pad2 minutes ++ [Char.ofNat 58] ++ pad2 seconds

/-- The YAML lines for one entry in the serialized block. -/
def renderEntryLines (e : TimeEntry) : Str :=
  let escapedLabel := escapeLabel e.label
  let startStr := formatTimestampForFrontmatter e.startTime
  let endStr := formatTimestampForFrontmatter e.endTime
  (S ("  - label: \"")) ++ escapedLabel ++ (S ("\"\n")) ++
  (match startStr with
    | some v => if v ≠ [] then (S ("    start: ")) ++ v ++ (S ("\n")) else []
    | none => []) ++
  (match endStr with
    | some v => if v ≠ [] then (S ("    end: ")) ++ v ++ (S ("\n")) else []
    | none => []) ++
  (S ("    duration: ")) ++ intRepr (e.duration / 1000) ++ (S ("\n")) ++
  (if e.tags ≠ [] then (S ("    tags: ")) ++ renderTags e.tags ++ (S ("\n")) else [])

/-- One optional `key: value` line of the block (empty when the timestamp is
absent or formats to the empty string). -/
def optKeyLine (key : Str) (ov : Option Str) : Str :=
  match ov with
  | some v => if v ≠ [] then key ++ (S (": ")) ++ v ++ (S ("\n")) else []
  | none => []

/-- The freshly rendered Lapse block (`lapseFrontmatter` in the source). -/
def buildLapseFM (st : LapseSettings) (pd : PageTimeData) : Str :=
  let startedEntries := pd.entries.filter fun e => e.startTime ≠ none
  let startTime : Option Int :=
    if startedEntries.length > 0 then
      some (listMin (startedEntries.map fun e => e.startTime.getD 0))
    else none
  let completedEntries := pd.entries.filter fun e => e.endTime ≠ none
  let endTime : Option Int :=
    if completedEntries.length > 0 then
      some (listMax (completedEntries.map fun e => e.endTime.getD 0))
    else none
  let totalTimeTracked :=
    (pd.entries.filter fun e => e.endTime ≠ none).foldl (fun sum e => sum + e.duration) 0
  let totalTimeFormatted := formatTimeAsHHMMSS totalTimeTracked
  let fs := formatTimestampForFrontmatter startTime
  let fe := formatTimestampForFrontmatter endTime
  optKeyLine st.startTimeKey fs ++
  optKeyLine st.endTimeKey fe ++
  (if pd.entries.length > 0 then
      st.entriesKey ++ (S (":\n")) ++ (pd.entries.map renderEntryLines).flatten
    else st.entriesKey ++ (S (": []\n"))) ++
  st.totalTimeKey ++ (S (": \"")) ++ totalTimeFormatted ++ (S ("\"\n"))

/-- The stateful filter removing the old Lapse lines from an existing
header (`inLapseArray` is the fold state). -/
def filterLapseAux (st : LapseSettings) : Bool → List Str → List Str
  | _, [] => []
  | inArr, l :: ls =>
    let trimmed := trim l
    let lineIndent := indentOf l
    if startsWith trimmed (st.entriesKey ++ (S (":"))) then
      filterLapseAux st true ls
    else if inArr ∧ (trimmed = [] ∨ lineIndent > 0) then
      filterLapseAux st inArr ls
    else if startsWith trimmed (st.startTimeKey ++ (S (":"))) ∨
        startsWith trimmed (st.endTimeKey ++ (S (":"))) ∨
        startsWith trimmed (st.totalTimeKey ++ (S (":"))) then
      filterLapseAux st false ls
    else l :: filterLapseAux st false ls

/-- `$`-sequence expansion of a `String.replace` replacement string
(`$$`, `$&`, the before/after sequences; with no capture groups `$n` stays
literal). -/
def dollarExpand (matched pre post : Str) : Str → Str
  | [] => []
  | c :: cs =>
    if c = (Char.ofNat 36) then
      match cs with
      | c2 :: cs2 =>
        if c2 = (Char.ofNat 36) then (Char.ofNat 36) :: dollarExpand matched pre post cs2
        else if c2 = (Char.ofNat 38) then matched ++ dollarExpand matched pre post cs2
        else if c2 = (Char.ofNat 96) then pre ++ dollarExpand matched pre post cs2
        else if c2 = (Char.ofNat 39) then post ++ dollarExpand matched pre post cs2
        else c :: dollarExpand matched pre post (c2 :: cs2)
      | [] => [c]
    else c :: dollarExpand matched pre post cs

/-- `updateFrontmatter`, as a pure function from the current document text
and the in-memory `PageTimeData` to the new document text. -/
def updateFrontmatter (st : LapseSettings) (pd : PageTimeData) (content : Str) : Str :=
  let lapseFrontmatter := buildLapseFM st pd
  match matchFrontmatter content with
  | some (fm, after) =>
    let lines := splitLines fm
    let filteredLines := filterLapseAux st false lines
    let newFM := joinLines filteredLines ++ (S ("\n")) ++ lapseFrontmatter
    let matched := (S ("---\n")) ++ fm ++ (S ("\n---"))
    dollarExpand matched [] after ((S ("---\n")) ++ newFM ++ (S ("---"))) ++ after
  | none =>
    (S ("---\n")) ++ lapseFrontmatter ++ (S ("---\n\n")) ++ content

/-! ## Glob matcher: `patternToRegex` and `isFileExcluded` -/

/-- Tokens of the compiled pattern: an escaped literal, `[^/]*` (from `*`),
or `.*` (from `**`). -/
inductive GlobTok
  | lit (c : Char)
  | starOne
  | starAll
deriving DecidableEq

/-- Tokenize after separator normalization: `**` is substituted before `*`,
every other character is (escaped to) a literal. -/
def globToks : Str → List GlobTok
  | [] => []
  | [c] => if c = (Char.ofNat 42) then [GlobTok.starOne] else [GlobTok.lit c]
  | c :: c2 :: cs =>
    if c = (Char.ofNat 42) then
      if c2 = (Char.ofNat 42) then GlobTok.starAll :: globToks cs
      else GlobTok.starOne :: globToks (c2 :: cs)
    else GlobTok.lit c :: globToks (c2 :: cs)

/-- `patternToRegex`: normalize separators, then tokenize. -/
def patternToRegex (pattern : Str) : List GlobTok :=
  globToks (pattern.map fun c => if c = (Char.ofNat 92) then (Char.ofNat 47) else c)

/-- `regex.test(s)` for the compiled pattern: anchored at the start, free at
the end (`∃`-semantics of backtracking, fuel-driven). -/
def globMatch : Nat → List GlobTok → Str → Bool
  | 0, _, _ => false
  | _ + 1, [], _ => true
  | fuel + 1, GlobTok.lit c :: ts, s =>
    match s with
    | c2 :: cs => c2 = c && globMatch fuel ts cs
    | [] => false
  | fuel + 1, GlobTok.starOne :: ts, s =>
    globMatch fuel ts s ||
      (match s with
        | c2 :: cs => ¬ c2 = (Char.ofNat 47) && globMatch fuel (GlobTok.starOne :: ts) cs
        | [] => false)
  | fuel + 1, GlobTok.starAll :: ts, s =>
    globMatch fuel ts s ||
      (match s with
        | c2 :: cs => globMatch fuel (GlobTok.starAll :: ts) cs
        | [] => false)

/-- `regex.test(path)`. -/
def regexTest (toks : List GlobTok) (s : Str) : Bool :=
  globMatch (toks.length + s.length + 1) toks s

/-- `isFileExcluded(filePath)`. -/
def isFileExcluded (st : LapseSettings) (filePath : Str) : Bool :=
  if st.excludedFolders.length = 0 then false
  else
    let normalizedPath :=
      filePath.map fun c => if c = (Char.ofNat 92) then (Char.ofNat 47) else c
    st.excludedFolders.any fun pattern =>
      if trim pattern = [] then false
      else regexTest (patternToRegex pattern) normalizedPath

/-! ## Query date ranges: `getDateRange` -/

/-- The named report periods. -/
inductive Period
  | today
  | thisWeek
  | thisMonth
  | lastWeek
  | lastMonth
deriving DecidableEq

/-- The fields of `LapseQuery` that `getDateRange` consumes. -/
structure LapseQuery where
  period : Option Period := none
  fromStr : Option Str := none
  toStr : Option Str := none

/-- `getDateRange(query)`.  `hostDate` models `new Date(string)` for the
explicit `from`/`to` strings (assumed parseable); `now` is `new Date()`. -/
def getDateRange (st : LapseSettings) (hostDate : Str → Int) (now : Int)
    (q : LapseQuery) : Int × Int :=
  match q.period with
  | some Period.today => (startOfDayMs now, now)
  | some Period.thisWeek =>
    let dayOfWeek := getDay now
    let daysFromFirstDay := Int.tmod (dayOfWeek - st.firstDayOfWeek + 7) 7
    (startOfDayMs (now - daysFromFirstDay * 86400000), now)
  | some Period.thisMonth =>
    (startOfDayMs (jsMakeMs (getFullYear now) (getMonth0 now) 1 0 0 0), now)
  | some Period.lastWeek =>
    let dayOfWeek := getDay now
    let daysFromFirstDay := Int.tmod (dayOfWeek - st.firstDayOfWeek + 7) 7
    let startTime := startOfDayMs (now - (daysFromFirstDay + 7) * 86400000)
    (startTime, endOfDayMs (startTime + 6 * 86400000))
  | some Period.lastMonth =>
    let lastMonth := jsMakeMs (getFullYear now) (getMonth0 now - 1) 1 0 0 0
    (startOfDayMs lastMonth, endOfDayMs (jsMakeMs (getFullYear now) (getMonth0 now) 0 0 0 0))
  | none =>
    let startTime :=
      match q.fromStr with
      | some f => startOfDayMs (hostDate f)
      | none => startOfDayMs now
    let endTime :=
      match q.toStr with
      | some t2 => endOfDayMs (hostDate t2)
      | none => endOfDayMs now
    (startTime, endTime)

/-- The date-range filter applied to each entry by `getMatchingEntries`
(`!entry.startTime || entry.startTime < startTime || entry.startTime > endTime`
skips the entry). -/
def entryInDateRange (e : TimeEntry) (startTime endTime : Int) : Bool :=
  ¬ (¬ numTruthy e.startTime ∨ e.startTime.getD 0 < startTime ∨ e.startTime.getD 0 > endTime)

/-! ## The mtime cache and the debounced-save scheduler -/

/-- One cached snapshot (`CachedFileData`). -/
structure CachedFileData where
  lastModified : Int
  entries : List TimeEntry
  project : Option Str
  totalTime : Int
deriving DecidableEq

/-- A file as the host exposes it: a modification timestamp that is readable
from the index, and content whose read may fail (`none` models the read
throwing after the timestamp check). -/
structure VFile where
  mtime : Int
  basename : Str
  content : Option Str
deriving DecidableEq

/-- Association-list lookup (JS `Map.get` / object indexing). -/
def lookupA {α : Type} (k : Str) : List (Str × α) → Option α
  | [] => none
  | (k2, v) :: rest => if k2 = k then some v else lookupA k rest

/-- Association-list insert-or-replace (JS `Map.set` / object assignment). -/
def insertA {α : Type} (k : Str) (v : α) : List (Str × α) → List (Str × α)
  | [] => [(k, v)]
  | (k2, v2) :: rest => if k2 = k then (k, v) :: rest else (k2, v2) :: insertA k v rest

/-- State of the debounced-save scheduler: `armed` is the id of the save
operation whose `setTimeout` is currently armed (`cacheSaveTimeout`);
`pending` is `pendingSaves` (ids of unresolved promises). -/
structure SchedState where
  nextId : Nat
  armed : Option Nat
  pending : List Nat
deriving DecidableEq

/-- `saveCache()`: clear any armed timer (its promise never resolves and is
never removed from `pendingSaves`), arm a fresh timer, and push the fresh
promise. -/
def saveCacheStep (s : SchedState) : SchedState where
  nextId := s.nextId + 1
  armed := some s.nextId
  pending := s.pending ++ [s.nextId]

/-- The armed timeout fires: the flush runs, clears `cacheSaveTimeout`,
removes its own promise from `pendingSaves` and resolves it. -/
def timerFire (s : SchedState) : SchedState :=
  match s.armed with
  | some i => { s with armed := none, pending := s.pending.erase i }
  | none => s

/-- Events the scheduler can undergo after a point in time. -/
inductive SchedAct
  | save
  | fire
deriving DecidableEq

/-- Run a sequence of scheduler events. -/
def schedRun (s : SchedState) : List SchedAct → SchedState
  | [] => s
  | SchedAct.save :: rest => schedRun (saveCacheStep s) rest
  | SchedAct.fire :: rest => schedRun (timerFire s) rest

/-- The project resolution (`getProjectFromFrontmatter`): anchored
`^key:\s*` removal. -/
def dropAnchoredKeyWs (key : Str) (s : Str) : Str :=
  if key.isPrefixOf s then (s.drop key.length).dropWhile isWSChar else s

/-- Strip surrounding quote runs (the pattern with quote-run alternatives
anchored at both ends, global). -/
def stripQuoteRuns (s : Str) : Str :=
  let isQ : Char → Bool := fun c => c = (Char.ofNat 34) || c = (Char.ofNat 39)
  ((s.dropWhile isQ).reverse.dropWhile isQ).reverse

/-- Remove every `[[` and `]]`. -/
def removeWikiBrackets : Str → Str
  | [] => []
  | [c] => [c]
  | c :: c2 :: cs =>
    if (c = (Char.ofNat 91) ∧ c2 = (Char.ofNat 91)) ∨
        (c = (Char.ofNat 93) ∧ c2 = (Char.ofNat 93)) then
      removeWikiBrackets cs
    else c :: removeWikiBrackets (c2 :: cs)

/-- Remove one leading bullet (`-`, `*` or `•`) and the whitespace after it. -/
def stripLeadingBullet (s : Str) : Str :=
  match s with
  | c :: cs =>
    if c = (Char.ofNat 45) || c = (Char.ofNat 42) || c = (Char.ofNat 8226) then
      cs.dropWhile isWSChar
    else s
  | [] => []

/-- The per-line search of `getProjectFromFrontmatter` (needs one line of
lookahead for the single-item list form). -/
def findProject (st : LapseSettings) : List Str → Option Str
  | [] => none
  | l :: rest =>
    let line := trim l
    if startsWith line (st.projectKey ++ (S (":"))) then
      let value0 := trim (dropAnchoredKeyWs (st.projectKey ++ (S (":"))) line)
      let value1 :=
        if value0 = [] then
          match rest with
          | nl :: _ =>
            let nextLine := trim nl
            if startsWith nextLine (S ("-")) then
              trim (nextLine.drop 1 |>.dropWhile isWSChar)
            else value0
          | [] => value0
        else value0
      if value1 ≠ [] then
        let v2 := trim (stripLeadingBullet (removeWikiBrackets (stripQuoteRuns value1)))
        if v2 ≠ [] then some v2 else none
      else none
    else findProject st rest

/-- `getProjectFromFrontmatter`: `none` on a failed read, a missing header,
or a missing/empty key. -/
def getProjectFromFrontmatter (st : LapseSettings) (readResult : Option Str) : Option Str :=
  match readResult with
  | none => none
  | some content =>
    match matchFrontmatter content with
    | none => none
    | some (fm, _) => findProject st (splitLines fm)

/-- The in-memory state the cache operations touch. -/
structure CacheState where
  timeData : List (Str × PageTimeData)
  entryCache : List (Str × CachedFileData)
  sched : SchedState
deriving DecidableEq

/-- What `getCachedOrLoadEntries` returns. -/
structure Snapshot where
  entries : List TimeEntry
  project : Option Str
  totalTime : Int
deriving DecidableEq

/-- The empty snapshot. -/
def emptySnapshot : Snapshot where
  entries := []
  project := none
  totalTime := 0

/-- The `timeData` map after the load attempt of a cache miss
(`loadEntriesFromFrontmatter` only stores when the read succeeded and a
header was found). -/
def tdAfterLoad (st : LapseSettings) (fb : Str → Option Int) (now : Int)
    (cs : CacheState) (filePath : Str) (file : VFile) : List (Str × PageTimeData) :=
  let parseRes :=
    match file.content with
    | none => none
    | some content => loadEntriesFromFrontmatter st fb filePath file.basename now content
  match parseRes with
  | some pd => insertA filePath pd cs.timeData
  | none => cs.timeData

/-- The cache record built on a miss. -/
def freshRecord (st : LapseSettings) (fb : Str → Option Int) (now : Int)
    (cs : CacheState) (filePath : Str) (file : VFile) : CachedFileData :=
  let pageData := lookupA filePath (tdAfterLoad st fb now cs filePath file)
  { lastModified := file.mtime
    entries := match pageData with | some pd => pd.entries | none => []
    project := getProjectFromFrontmatter st file.content
    totalTime := match pageData with | some pd => pd.totalTimeTracked | none => 0 }

/-- The miss path of `getCachedOrLoadEntries`: parse, resolve the project,
store a fresh record, schedule a debounced save; one parse performed. -/
def loadFresh (st : LapseSettings) (fb : Str → Option Int) (now : Int)
    (cs : CacheState) (filePath : Str) (file : VFile) : Snapshot × CacheState × Nat :=
  let record := freshRecord st fb now cs filePath file
  ({ entries := record.entries, project := record.project, totalTime := record.totalTime },
    { timeData := tdAfterLoad st fb now cs filePath file
      entryCache := insertA filePath record cs.entryCache
      sched := saveCacheStep cs.sched }, 1)

/-- `getCachedOrLoadEntries(filePath)`.  Returns the snapshot, the new state,
and the number of content parses performed (`loadEntriesFromFrontmatter`
invocations). -/
def getCachedOrLoadEntries (st : LapseSettings) (fb : Str → Option Int)
    (vault : Str → Option VFile) (now : Int) (cs : CacheState) (filePath : Str) :
    Snapshot × CacheState × Nat :=
  match vault filePath with
  | none => (emptySnapshot, cs, 0)
  | some file =>
    match lookupA filePath cs.entryCache with
    | some cached =>
      if cached.lastModified = file.mtime then
        ({ entries := cached.entries, project := cached.project, totalTime := cached.totalTime },
          cs, 0)
      else loadFresh st fb now cs filePath file
    | none => loadFresh st fb now cs filePath file

/-! ## Shared helpers for the claim theorems -/

/-- A host date parser that always fails (enough for documents whose
timestamps match the structured grammar). -/
def fbNone : Str → Option Int := fun _ => none

theorem lookupA_insertA_self {α : Type} (k : Str) (v : α) (l : List (Str × α)) :
    lookupA k (insertA k v l) = some v := by
  induction l with
  | nil => simp [insertA, lookupA]
  | cons h rest ih =>
    by_cases hk : h.1 = k
    · simp [insertA, hk, lookupA]
    · simp [insertA, hk, lookupA, ih]

theorem saveCacheStep_nextId (s : SchedState) : (saveCacheStep s).nextId = s.nextId + 1 := rfl

theorem saveCacheStep_armed (s : SchedState) : (saveCacheStep s).armed = some s.nextId := rfl

theorem saveCacheStep_pending (s : SchedState) :
    (saveCacheStep s).pending = s.pending ++ [s.nextId] := rfl

/-! ## C7: the glob exclusion scenario -/

/-- Settings holding the single pattern of the scenario. -/
def archiveSettings : LapseSettings :=
  { DEFAULT_SETTINGS with excludedFolders := [S ("**/Archive")] }

/-- C7 counterexample: with pattern list `["**/Archive"]`, the path `Archive`
is NOT excluded (the claim asserts it is): the pattern compiles to the
anchored regex `^.*/Archive`, which requires a separator before `Archive`. -/
theorem c7_glob_archive_counterexample :
    isFileExcluded archiveSettings (S ("Archive")) = false := by decide

/-- C7 (amended): with pattern `**/Archive`, `Projects/2020/Archive` is
excluded, while bare `Archive` and `Archived/notes` are not. -/
theorem c7_glob_exclusion_amended :
    isFileExcluded archiveSettings (S ("Projects/2020/Archive")) = true ∧
    isFileExcluded archiveSettings (S ("Archive")) = false ∧
    isFileExcluded archiveSettings (S ("Archived/notes")) = false := by decide

/-! ## C6: shutdown draining -/

theorem sched_pending_invariant (i : Nat) (acts : List SchedAct) :
    ∀ s : SchedState, i ∈ s.pending → i < s.nextId →
      (∀ j, s.armed = some j → i < j) →
      i ∈ (schedRun s acts).pending := by
  induction acts with
  | nil => intro s h1 _ _; exact h1
  | cons a rest ih =>
    intro s h1 h2 h3
    cases a with
    | save =>
      show i ∈ (schedRun (saveCacheStep s) rest).pending
      apply ih
      · rw [saveCacheStep_pending]
        exact List.mem_append_left _ h1
      · rw [saveCacheStep_nextId]; omega
      · intro j hj
        rw [saveCacheStep_armed] at hj
        cases hj
        omega
    | fire =>
      show i ∈ (schedRun (timerFire s) rest).pending
      cases harm : s.armed with
      | none =>
        apply ih
        · simp [timerFire, harm]; exact h1
        · simp [timerFire, harm]; exact h2
        · intro j hj; simp [timerFire, harm] at hj
      | some j =>
        have hij : i ≠ j := Nat.ne_of_lt (h3 j harm)
        apply ih
        · simp only [timerFire, harm]
          exact (List.mem_erase_of_ne hij).mpr h1
        · simp only [timerFire, harm]; exact h2
        · intro j2 hj2; simp [timerFire, harm] at hj2

/-- C6: once `saveCache()` has been called twice inside one debounce window,
the promise registered by the first call can never resolve: its timer was
cleared by the second call, the resolve call sits only inside the timer
callback, and removal from `pendingSaves` happens only there — so under
every further sequence of scheduler events it stays in the pending set, and
`onunload`'s `await Promise.all(this.pendingSaves)` never completes. -/
theorem c6_shutdown_pending_never_drains (s0 : SchedState) (acts : List SchedAct) :
    s0.nextId ∈ (schedRun (saveCacheStep (saveCacheStep s0)) acts).pending := by
  apply sched_pending_invariant
  · rw [saveCacheStep_pending, saveCacheStep_pending]
    exact List.mem_append_left _ (List.mem_append_right _ (List.mem_singleton.mpr rfl))
  · rw [saveCacheStep_nextId, saveCacheStep_nextId]; omega
  · intro j hj
    rw [saveCacheStep_armed, saveCacheStep_nextId] at hj
    cases hj
    omega

/-! ## C4: cache coherence -/

theorem getCached_hit (st : LapseSettings) (fb : Str → Option Int)
    (vault : Str → Option VFile) (now : Int) (cs : CacheState) (p : Str)
    (file : VFile) (cached : CachedFileData)
    (hv : vault p = some file) (hl : lookupA p cs.entryCache = some cached)
    (hm : cached.lastModified = file.mtime) :
    getCachedOrLoadEntries st fb vault now cs p =
      ({ entries := cached.entries, project := cached.project,
         totalTime := cached.totalTime }, cs, 0) := by
  simp [getCachedOrLoadEntries, hv, hl, hm]

/-- C4: with no intervening modification (the vault unchanged), a second
`getCachedOrLoadEntries` call returns the same snapshot as the first,
performs no content parse (the parse count of the second call is `0`), and
leaves the cache state unchanged. -/
theorem c4_cache_coherence (st : LapseSettings) (fb : Str → Option Int)
    (vault : Str → Option VFile) (now1 now2 : Int) (cs : CacheState) (p : Str) :
    (getCachedOrLoadEntries st fb vault now2
        (getCachedOrLoadEntries st fb vault now1 cs p).2.1 p).1 =
      (getCachedOrLoadEntries st fb vault now1 cs p).1 ∧
    (getCachedOrLoadEntries st fb vault now2
        (getCachedOrLoadEntries st fb vault now1 cs p).2.1 p).2.2 = 0 ∧
    (getCachedOrLoadEntries st fb vault now2
        (getCachedOrLoadEntries st fb vault now1 cs p).2.1 p).2.1 =
      (getCachedOrLoadEntries st fb vault now1 cs p).2.1 := by
  cases hv : vault p with
  | none => simp [getCachedOrLoadEntries, hv]
  | some file =>
    have hrec : lookupA p (loadFresh st fb now1 cs p file).2.1.entryCache =
        some (freshRecord st fb now1 cs p file) :=
      lookupA_insertA_self p (freshRecord st fb now1 cs p file) cs.entryCache
    have hfresh : getCachedOrLoadEntries st fb vault now2
        (loadFresh st fb now1 cs p file).2.1 p =
        ((loadFresh st fb now1 cs p file).1,
          (loadFresh st fb now1 cs p file).2.1, 0) := by
      rw [getCached_hit st fb vault now2 (loadFresh st fb now1 cs p file).2.1 p file
        (freshRecord st fb now1 cs p file) hv hrec rfl]
      rfl
    rcases hl : lookupA p cs.entryCache with _ | cached
    · have h1 : getCachedOrLoadEntries st fb vault now1 cs p =
          loadFresh st fb now1 cs p file := by
        simp [getCachedOrLoadEntries, hv, hl]
      rw [h1, hfresh]
      exact ⟨rfl, rfl, rfl⟩
    · by_cases hm : cached.lastModified = file.mtime
      · have h1 := getCached_hit st fb vault now1 cs p file cached hv hl hm
        rw [h1]
        rw [getCached_hit st fb vault now2 cs p file cached hv hl hm]
        exact ⟨rfl, rfl, rfl⟩
      · have h1 : getCachedOrLoadEntries st fb vault now1 cs p =
            loadFresh st fb now1 cs p file := by
          simp [getCachedOrLoadEntries, hv, hl, hm]
        rw [h1, hfresh]
        exact ⟨rfl, rfl, rfl⟩

/-! ## C9: cache-load failure policy -/

/-- C9 counterexample: the file exists in the index with stale in-memory
data, the content read fails — the snapshot returned is the stale
`timeData` record, not the empty snapshot the claim demands. -/
def c9Entry : TimeEntry where
  id := S ("e")
  label := S ("L")
  startTime := some 1000
  endTime := some 2000
  duration := 600000
  isPaused := false
  tags := []

def c9File : VFile where
  mtime := 5
  basename := S ("n")
  content := none

def c9State : CacheState where
  timeData := [(S ("n.md"), { entries := [c9Entry], totalTimeTracked := 600000 })]
  entryCache := []
  sched := { nextId := 0, armed := none, pending := [] }

/-- C9 counterexample: a failed content read with a prior in-memory record
returns that stale record, not the empty snapshot. -/
theorem c9_stale_snapshot_counterexample :
    (getCachedOrLoadEntries DEFAULT_SETTINGS fbNone
        (fun p => if p = S ("n.md") then some c9File else none) 0 c9State
        (S ("n.md"))).1 ≠ emptySnapshot := by decide

/-- C9 (amended): when the file is absent the empty snapshot is returned;
when the content read fails on a cache miss, the empty snapshot is returned
provided the in-memory store holds no record for the path (otherwise the
stale stored record is returned — see the counterexample).  No code path
raises: every failure is caught. -/
theorem c9_read_failure_amended (st : LapseSettings) (fb : Str → Option Int)
    (vault : Str → Option VFile) (now : Int) (cs : CacheState) (p : Str)
    (hstore : lookupA p cs.timeData = none) :
    (vault p = none → (getCachedOrLoadEntries st fb vault now cs p).1 = emptySnapshot) ∧
    (∀ file, vault p = some file → file.content = none →
      (∀ c, lookupA p cs.entryCache = some c → c.lastModified ≠ file.mtime) →
      (getCachedOrLoadEntries st fb vault now cs p).1 = emptySnapshot) := by
  constructor
  · intro hv
    simp [getCachedOrLoadEntries, hv]
  · intro file hv hc hstale
    have hsnap : (loadFresh st fb now cs p file).1 = emptySnapshot := by
      simp [loadFresh, freshRecord, tdAfterLoad, hc, hstore, getProjectFromFrontmatter,
        emptySnapshot]
    rcases hl : lookupA p cs.entryCache with _ | cached
    · simpa [getCachedOrLoadEntries, hv, hl] using hsnap
    · have hne := hstale cached hl
      simpa [getCachedOrLoadEntries, hv, hl, hne] using hsnap

def c9EmptyState : CacheState where
  timeData := []
  entryCache := []
  sched := { nextId := 0, armed := none, pending := [] }

theorem c9_read_failure_amended_witness :
    (getCachedOrLoadEntries DEFAULT_SETTINGS fbNone
        (fun p => if p = S ("gone.md") then some c9File else none) 0 c9EmptyState
        (S ("gone.md"))).1 = emptySnapshot :=
  (c9_read_failure_amended DEFAULT_SETTINGS fbNone
      (fun p => if p = S ("gone.md") then some c9File else none) 0 c9EmptyState
      (S ("gone.md")) rfl).2 c9File (by decide) rfl (by decide)

/-! ## C5: date-range boundaries for `period: today` -/

/-- A minimal entry starting at `t`. -/
def c5Entry (t : Int) : TimeEntry where
  id := []
  label := []
  startTime := some t
  endTime := none
  duration := 0
  isPaused := false
  tags := []

/-- C5 counterexample: at `now` = 2026-01-07T09:30:00 (UTC model), an entry
starting the same day at 23:59:59.999 does NOT match `period: today` — the
resolved range ends at `now`, not at end-of-day (the claim asserts it
matches). -/
theorem c5_today_endofday_counterexample :
    entryInDateRange (c5Entry 1767830399999)
      (getDateRange DEFAULT_SETTINGS (fun _ => 0) 1767778200000
        { period := some Period.today }).1
      (getDateRange DEFAULT_SETTINGS (fun _ => 0) 1767778200000
        { period := some Period.today }).2 = false := by decide

/-- C5 (amended): the range resolved for `period: today` is
`[startOfDay(now), now]`, inclusive at both ends; an entry starting at
midnight matches, an entry starting one millisecond into tomorrow does not,
and an entry starting at 23:59:59.999 matches exactly when `now` has already
reached that instant. -/
theorem c5_today_range_amended (hostDate : Str → Int) (now : Int)
    (h : 0 < startOfDayMs now) :
    getDateRange DEFAULT_SETTINGS hostDate now { period := some Period.today } =
      (startOfDayMs now, now) ∧
    entryInDateRange (c5Entry (startOfDayMs now)) (startOfDayMs now) now = true ∧
    (entryInDateRange (c5Entry (endOfDayMs now)) (startOfDayMs now) now = true ↔
      endOfDayMs now ≤ now) ∧
    entryInDateRange (c5Entry (endOfDayMs now + 1)) (startOfDayMs now) now = false := by
  have hle : startOfDayMs now ≤ now := by unfold startOfDayMs dayOf; omega
  have hlt : now < startOfDayMs now + 86400000 := by unfold startOfDayMs dayOf; omega
  have hend : endOfDayMs now = startOfDayMs now + 86399999 := by
    unfold endOfDayMs startOfDayMs; rfl
  refine ⟨rfl, ?_, ?_, ?_⟩
  · simp only [entryInDateRange, c5Entry, numTruthy, Option.getD_some, decide_eq_true_eq]
    omega
  · simp only [entryInDateRange, c5Entry, numTruthy, Option.getD_some, decide_eq_true_eq]
    omega
  · simp only [entryInDateRange, c5Entry, numTruthy, Option.getD_some,
      decide_eq_false_iff_not]
    omega

theorem c5_today_range_amended_witness :
    getDateRange DEFAULT_SETTINGS (fun _ => 0) 1767778200000
        { period := some Period.today } = (1767744000000, 1767778200000) ∧
    entryInDateRange (c5Entry 1767744000000) 1767744000000 1767778200000 = true := by
  have h := c5_today_range_amended (fun _ => 0) 1767778200000 (by decide)
  have h0 : startOfDayMs 1767778200000 = 1767744000000 := by decide
  exact ⟨by rw [h.1, h0], by rw [← h0]; exact h.2.1⟩

/-! ## C2: totalTimeTracked and active entries -/

/-- The scenario document: one completed entry (duration 600 s) and one
active entry with stored duration 0. -/
def c2ScenarioDoc : Str :=
  S ("---\nlapseEntries:\n  - label: \"Work\"\n    start: 2026-01-07T09:00:00\n    end: 2026-01-07T09:10:00\n    duration: 600\n  - label: \"Live\"\n    start: 2026-01-07T10:00:00\n    duration: 0\ntotalTimeTracked: \"00:10:00\"\n---\n")

/-- The same document except the active entry carries stored duration 300 s
(accumulated before a pause). -/
def c2CounterDoc : Str :=
  S ("---\nlapseEntries:\n  - label: \"Work\"\n    start: 2026-01-07T09:00:00\n    end: 2026-01-07T09:10:00\n    duration: 600\n  - label: \"Live\"\n    start: 2026-01-07T10:00:00\n    duration: 300\ntotalTimeTracked: \"00:10:00\"\n---\n")

theorem foldl_add_duration (l : List TimeEntry) (init : Int) :
    l.foldl (fun s e => s + e.duration) init = init + (l.map TimeEntry.duration).sum := by
  induction l generalizing init with
  | nil => simp
  | cons e tl ih =>
    simp only [List.foldl_cons, List.map_cons, List.sum_cons, ih]
    ring

set_option maxRecDepth 40000 in
/-- C2 counterexample: a document with one completed entry (600 s) and one
active entry whose stored duration is 300 s parses to
`totalTimeTracked = 900000`, while the sum over completed entries alone is
`600000` — the parser's stored total includes active entries' durations. -/
theorem c2_total_includes_active_counterexample :
    (loadEntriesFromFrontmatter DEFAULT_SETTINGS fbNone (S ("note.md")) (S ("note")) 0
        c2CounterDoc).map PageTimeData.totalTimeTracked = some 900000 ∧
    (loadEntriesFromFrontmatter DEFAULT_SETTINGS fbNone (S ("note.md")) (S ("note")) 0
        c2CounterDoc).map (fun pd =>
          (pd.entries.filter fun e => e.endTime ≠ none).foldl
            (fun sum e => sum + e.duration) 0) = some 600000 := by
  constructor
  · decide
  · decide



set_option maxRecDepth 40000 in
/-- C2 (amended): the `totalTimeTracked` produced by Parse is the sum of
`duration` over ALL parsed entries (active ones included, with whatever
duration the document stores for them), not only the completed ones; the
scenario value 600000 holds because the active entry's stored duration is 0. -/
theorem c2_totalTimeTracked_amended (st : LapseSettings) (fb : Str → Option Int)
    (fp bn : Str) (now : Int) (content : Str) (pd : PageTimeData)
    (h : loadEntriesFromFrontmatter st fb fp bn now content = some pd) :
    pd.totalTimeTracked = (pd.entries.map TimeEntry.duration).sum ∧
    (loadEntriesFromFrontmatter DEFAULT_SETTINGS fbNone (S ("note.md")) (S ("note")) 0
        c2ScenarioDoc).map PageTimeData.totalTimeTracked = some 600000 := by
  constructor
  · rcases hm : matchFrontmatter content with _ | ⟨fm, after⟩
    · simp [loadEntriesFromFrontmatter, hm] at h
    · simp only [loadEntriesFromFrontmatter, hm] at h
      rw [Option.some_inj] at h
      subst h
      rw [foldl_add_duration]
      simp
  · decide

set_option maxRecDepth 40000 in
theorem c2_totalTimeTracked_amended_witness :
    ∃ pd, loadEntriesFromFrontmatter DEFAULT_SETTINGS fbNone (S ("note.md")) (S ("note")) 0
        c2ScenarioDoc = some pd ∧
      pd.totalTimeTracked = (pd.entries.map TimeEntry.duration).sum := by
  rcases hp : loadEntriesFromFrontmatter DEFAULT_SETTINGS fbNone (S ("note.md"))
      (S ("note")) 0 c2ScenarioDoc with _ | pd
  · exact absurd hp (by decide)
  · exact ⟨pd, rfl,
      (c2_totalTimeTracked_amended DEFAULT_SETTINGS fbNone (S ("note.md")) (S ("note")) 0
        c2ScenarioDoc pd hp).1⟩

/-! ## C10: pause state never survives the codec -/

theorem parseStepCore_entries (st : LapseSettings) (fb : Str → Option Int)
    (fp : Str) (now : Int) (ps : ParseState) (l : Str) :
    (parseStepCore st fb fp now ps l).entries = ps.entries ∨
    (parseStepCore st fb fp now ps l).entries = (flushCurrent fb fp now ps).entries := by
  unfold parseStepCore
  by_cases c1 : startsWith (trim l) (st.entriesKey ++ (S (":"))) = true
  · rw [if_pos c1]; exact Or.inl rfl
  · rw [if_neg c1]
    by_cases c2 : ps.inEntries = true
    · rw [if_pos c2]
      by_cases c3 : trim l ≠ [] ∧ indentOf l = 0 ∧ ¬ startsWith (trim l) (S ("-")) = true
      · rw [if_pos c3]; exact Or.inr rfl
      · rw [if_neg c3]
        by_cases c4 : startsWith (trim l) (S ("- label:")) = true
        · rw [if_pos c4]; exact Or.inr rfl
        · rw [if_neg c4]
          by_cases c5 : startsWith (trim l) (S ("start:")) = true ∧ ps.current.isSome = true
          · rw [if_pos c5]; exact Or.inl rfl
          · rw [if_neg c5]
            by_cases c6 : startsWith (trim l) (S ("end:")) = true ∧ ps.current.isSome = true
            · rw [if_pos c6]; exact Or.inl rfl
            · rw [if_neg c6]
              by_cases c7 : startsWith (trim l) (S ("duration:")) = true ∧
                  ps.current.isSome = true
              · rw [if_pos c7]; exact Or.inl rfl
              · rw [if_neg c7]
                by_cases c8 : startsWith (trim l) (S ("tags:")) = true ∧
                    ps.current.isSome = true
                · rw [if_pos c8]
                  by_cases c8a : startsWith (trim (replaceKeyWs (S ("tags:")) (trim l)))
                      (S ("[")) = true
                  · rw [if_pos c8a]; exact Or.inl rfl
                  · rw [if_neg c8a]
                    by_cases c8b : trim (replaceKeyWs (S ("tags:")) (trim l)) ≠ []
                    · rw [if_pos c8b]; exact Or.inl rfl
                    · rw [if_neg c8b]; exact Or.inl rfl
                · rw [if_neg c8]; exact Or.inl rfl
    · rw [if_neg c2]; exact Or.inl rfl

theorem parseStep_entries (st : LapseSettings) (fb : Str → Option Int)
    (fp : Str) (now : Int) (ps : ParseState) (l : Str) :
    (parseStep st fb fp now ps l).entries = ps.entries ∨
    (parseStep st fb fp now ps l).entries = (flushCurrent fb fp now ps).entries := by
  unfold parseStep
  rcases hcol : ps.collecting with _ | ind
  · exact parseStepCore_entries st fb fp now ps l
  · dsimp only
    by_cases d1 : startsWith (trim l) (S ("-")) = true ∧ indentOf l > ind
    · rw [if_pos d1]
      by_cases d2 : stripSurroundingQuotes (trim ((trim l).drop 1)) ≠ []
      · rw [if_pos d2]; exact Or.inl rfl
      · rw [if_neg d2]; exact Or.inl rfl
    · rw [if_neg d1]
      by_cases d3 : trim l = []
      · rw [if_pos d3]; exact Or.inl rfl
      · rw [if_neg d3]
        rcases parseStepCore_entries st fb fp now { ps with collecting := none } l with h | h
        · exact Or.inl h
        · refine Or.inr ?_
          rw [h]
          unfold flushCurrent
          rcases ps.current with _ | b <;> rfl

theorem mkEntry_isPaused (fb : Str → Option Int) (fp : Str) (now : Int) (n : Nat)
    (b : EntryBuilder) : (mkEntry fb fp now n b).isPaused = false := rfl

theorem flushCurrent_unpaused (fb : Str → Option Int) (fp : Str) (now : Int)
    (ps : ParseState) (h : ∀ e ∈ ps.entries, e.isPaused = false) :
    ∀ e ∈ (flushCurrent fb fp now ps).entries, e.isPaused = false := by
  cases hc : ps.current with
  | none => simpa [flushCurrent, hc] using h
  | some b =>
    intro e he
    simp only [flushCurrent, hc, List.mem_append, List.mem_singleton] at he
    rcases he with he | he
    · exact h e he
    · rw [he]; rfl

theorem foldl_parseStep_unpaused (st : LapseSettings) (fb : Str → Option Int)
    (fp : Str) (now : Int) (lines : List Str) :
    ∀ ps : ParseState, (∀ e ∈ ps.entries, e.isPaused = false) →
      ∀ e ∈ (lines.foldl (parseStep st fb fp now) ps).entries, e.isPaused = false := by
  induction lines with
  | nil => intro ps h; exact h
  | cons l rest ih =>
    intro ps h
    apply ih
    intro e he
    rcases parseStep_entries st fb fp now ps l with h1 | h1
    · rw [h1] at he; exact h e he
    · rw [h1] at he; exact flushCurrent_unpaused fb fp now ps h e he

/-- `mapPaused g` rewrites each entry's pause flag and nothing else. -/
def mapPaused (g : TimeEntry → Bool) (es : List TimeEntry) : List TimeEntry :=
  es.map fun e => { e with isPaused := g e }

theorem mapPaused_filter_start (g : TimeEntry → Bool) (l : List TimeEntry) :
    (mapPaused g l).filter (fun e => e.startTime ≠ none) =
      mapPaused g (l.filter fun e => e.startTime ≠ none) := by
  induction l with
  | nil => rfl
  | cons e tl ih =>
    by_cases hc : e.startTime = none
    · simp [mapPaused, List.filter_cons, hc] at ih ⊢
      exact ih
    · simp [mapPaused, List.filter_cons, hc] at ih ⊢
      exact ih

theorem mapPaused_filter_end (g : TimeEntry → Bool) (l : List TimeEntry) :
    (mapPaused g l).filter (fun e => e.endTime ≠ none) =
      mapPaused g (l.filter fun e => e.endTime ≠ none) := by
  induction l with
  | nil => rfl
  | cons e tl ih =>
    by_cases hc : e.endTime = none
    · simp [mapPaused, List.filter_cons, hc] at ih ⊢
      exact ih
    · simp [mapPaused, List.filter_cons, hc] at ih ⊢
      exact ih

theorem mapPaused_length (g : TimeEntry → Bool) (l : List TimeEntry) :
    (mapPaused g l).length = l.length := by
  simp [mapPaused]

theorem mapPaused_map_startGetD (g : TimeEntry → Bool) (l : List TimeEntry) :
    (mapPaused g l).map (fun e => e.startTime.getD 0) =
      l.map fun e => e.startTime.getD 0 := by
  induction l with
  | nil => rfl
  | cons e tl ih => simp only [mapPaused, List.map_cons] at ih ⊢; rw [ih]

theorem mapPaused_map_endGetD (g : TimeEntry → Bool) (l : List TimeEntry) :
    (mapPaused g l).map (fun e => e.endTime.getD 0) =
      l.map fun e => e.endTime.getD 0 := by
  induction l with
  | nil => rfl
  | cons e tl ih => simp only [mapPaused, List.map_cons] at ih ⊢; rw [ih]

theorem mapPaused_foldl_duration (g : TimeEntry → Bool) (l : List TimeEntry) (init : Int) :
    (mapPaused g l).foldl (fun sum e => sum + e.duration) init =
      l.foldl (fun sum e => sum + e.duration) init := by
  induction l generalizing init with
  | nil => rfl
  | cons e tl ih => simp only [mapPaused, List.map_cons, List.foldl_cons] at ih ⊢; rw [ih]

theorem mapPaused_map_render (g : TimeEntry → Bool) (l : List TimeEntry) :
    (mapPaused g l).map renderEntryLines = l.map renderEntryLines := by
  induction l with
  | nil => rfl
  | cons e tl ih =>
    simp only [mapPaused, List.map_cons] at ih ⊢
    have hr : renderEntryLines { e with isPaused := g e } = renderEntryLines e := rfl
    rw [hr, ih]

theorem buildLapseFM_paused (st : LapseSettings) (g : TimeEntry → Bool)
    (es : List TimeEntry) (tt : Int) :
    buildLapseFM st { entries := mapPaused g es, totalTimeTracked := tt } =
      buildLapseFM st { entries := es, totalTimeTracked := tt } := by
  unfold buildLapseFM
  simp only [mapPaused_filter_start, mapPaused_filter_end, mapPaused_length,
    mapPaused_map_startGetD, mapPaused_map_endGetD, mapPaused_foldl_duration,
    mapPaused_map_render]

/-- C10: every entry produced by Parse (including the scalar-field fallback)
has `isPaused = false`, and Serialize emits the same text whatever the pause
flags are — so a paused flag never survives a serialize-then-parse cycle. -/
theorem c10_isPaused_never_persisted (st : LapseSettings) (fb : Str → Option Int)
    (fp bn : Str) (now : Int) (content : Str) (pd : PageTimeData)
    (h : loadEntriesFromFrontmatter st fb fp bn now content = some pd) :
    (∀ e ∈ pd.entries, e.isPaused = false) ∧
    (∀ (g : TimeEntry → Bool) (pd2 : PageTimeData) (c2 : Str),
      updateFrontmatter st
          { entries := mapPaused g pd2.entries, totalTimeTracked := pd2.totalTimeTracked }
          c2 =
        updateFrontmatter st pd2 c2) := by
  constructor
  · rcases hm : matchFrontmatter content with _ | ⟨fm, after⟩
    · simp [loadEntriesFromFrontmatter, hm] at h
    · simp only [loadEntriesFromFrontmatter, hm] at h
      rw [Option.some_inj] at h
      subst h
      intro e he
      dsimp only at he
      have hAll : ∀ e2 ∈ (flushCurrent fb fp now ((splitLines fm).foldl
          (parseStep st fb fp now)
          { inEntries := false, current := none, entries := [],
            collecting := none })).entries, e2.isPaused = false := by
        apply flushCurrent_unpaused
        apply foldl_parseStep_unpaused
        intro e3 he3
        simp at he3
      split at he
      · split at he
        · simp only [List.mem_singleton] at he
          subst he
          rfl
        · simp at he
      · exact hAll e he
  · intro g pd2 c2
    unfold updateFrontmatter
    rw [buildLapseFM_paused]

set_option maxRecDepth 40000 in
theorem c10_isPaused_never_persisted_witness :
    ∃ pd, loadEntriesFromFrontmatter DEFAULT_SETTINGS fbNone (S ("note.md")) (S ("note")) 0
        c2ScenarioDoc = some pd ∧
      ((∀ e ∈ pd.entries, e.isPaused = false) ∧
       (∀ (g : TimeEntry → Bool) (pd2 : PageTimeData) (c2 : Str),
        updateFrontmatter DEFAULT_SETTINGS
            { entries := mapPaused g pd2.entries, totalTimeTracked := pd2.totalTimeTracked }
            c2 =
          updateFrontmatter DEFAULT_SETTINGS pd2 c2)) := by
  rcases hp : loadEntriesFromFrontmatter DEFAULT_SETTINGS fbNone (S ("note.md"))
      (S ("note")) 0 c2ScenarioDoc with _ | pd
  · exact absurd hp (by decide)
  · exact ⟨pd, rfl, c10_isPaused_never_persisted DEFAULT_SETTINGS fbNone (S ("note.md"))
      (S ("note")) 0 c2ScenarioDoc pd hp⟩

/-! ## C8: idempotence of timestamp stripping -/

/-- No character of `s` is a decimal digit. -/
def digitFree (s : Str) : Bool := s.all (fun c => !(isDigitChar c))

/-- No two adjacent characters of `s` are both separators. -/
def sepNormal : Str → Bool
  | [] => true
  | [_] => true
  | c1 :: c2 :: cs => (!(isSepChar c1 && isSepChar c2)) && sepNormal (c2 :: cs)

/-- The first character (if any) fails `p`. -/
def headNot (p : Char → Bool) : Str → Bool
  | [] => true
  | c :: _ => !(p c)

theorem pExactDigits_none (n : Nat) :
    ∀ s : Str, (∀ c ∈ s, isDigitChar c = false) → pExactDigits (n + 1) s = none := by
  intro s h
  cases s with
  | nil => rfl
  | cons c cs =>
    unfold pExactDigits
    rw [h c (List.mem_cons_self c cs)]
    rfl

theorem stripBody1_none (s : Str) (h : ∀ c ∈ s, isDigitChar c = false) :
    stripBody1 s = none := by
  unfold stripBody1
  rw [show (8 : Nat) = 7 + 1 from rfl, pExactDigits_none 7 s h]
  rfl

theorem stripBody2_none (s : Str) (h : ∀ c ∈ s, isDigitChar c = false) :
    stripBody2 s = none := by
  unfold stripBody2
  rw [show (4 : Nat) = 3 + 1 from rfl, pExactDigits_none 3 s h]
  rfl

theorem stripBody3_none (s : Str) (h : ∀ c ∈ s, isDigitChar c = false) :
    stripBody3 s = none := by
  unfold stripBody3
  rw [show (4 : Nat) = 3 + 1 from rfl, pExactDigits_none 3 s h]
  rfl

theorem stripBody4_none (s : Str) (h : ∀ c ∈ s, isDigitChar c = false) :
    stripBody4 s = none := by
  unfold stripBody4
  rw [show (4 : Nat) = 3 + 1 from rfl, pExactDigits_none 3 s h]
  rfl

theorem stripBody5_none (s : Str) (h : ∀ c ∈ s, isDigitChar c = false) :
    stripBody5 s = none := by
  unfold stripBody5
  rw [show (2 : Nat) = 1 + 1 from rfl, pExactDigits_none 1 s h]
  rfl

theorem withLead_none (body : Str → Option Str)
    (hb : ∀ t : Str, (∀ c ∈ t, isDigitChar c = false) → body t = none)
    (b : Bool) (s : Str) (h : ∀ c ∈ s, isDigitChar c = false) :
    withLead body b s = none := by
  unfold withLead
  rw [hb s h]
  cases b <;> cases s with
  | nil => rfl
  | cons c cs =>
    by_cases hc : isSepChar c = true
    · simp only [hc, if_pos]
      exact hb cs (fun x hx => h x (List.mem_cons_of_mem c hx))
    · simp only [hc]
      rfl

theorem replPassR_nomatch (m : Bool → Str → Option Str) (emit : Str) (P : Str → Prop)
    (hP : ∀ c cs, P (c :: cs) → P cs)
    (hm : ∀ b s, P s → m b s = none) :
    ∀ (fuel : Nat) (b : Bool) (s : Str), P s → replPassR m emit fuel b s = s := by
  intro fuel
  induction fuel with
  | zero => intro b s _; rfl
  | succ n ih =>
    intro b s hs
    cases s with
    | nil => rfl
    | cons c cs =>
      unfold replPassR
      rw [hm b (c :: cs) hs]
      exact congrArg (List.cons c) (ih false cs (hP c cs hs))

theorem stripPass_id (body : Str → Option Str)
    (hb : ∀ t : Str, (∀ c ∈ t, isDigitChar c = false) → body t = none)
    (s : Str) (h : ∀ c ∈ s, isDigitChar c = false) :
    stripPass body s = s := by
  unfold stripPass
  exact replPassR_nomatch (withLead body) [] (fun t => ∀ c ∈ t, isDigitChar c = false)
    (fun c cs hcs x hx => hcs x (List.mem_cons_of_mem c hx))
    (fun b t ht => withLead_none body hb b t ht)
    (s.length + 1) true s h

theorem sepNormal_tail (c : Char) (cs : Str) (h : sepNormal (c :: cs) = true) :
    sepNormal cs = true := by
  cases cs with
  | nil => rfl
  | cons c2 cs2 =>
    unfold sepNormal at h
    rw [Bool.and_eq_true] at h
    exact h.2

theorem collapseM_none (b : Bool) (s : Str) (h : sepNormal s = true) :
    collapseM b s = none := by
  cases s with
  | nil => rfl
  | cons c1 cs =>
    cases cs with
    | nil => rfl
    | cons c2 cs2 =>
      unfold sepNormal at h
      rw [show collapseM b (c1 :: c2 :: cs2) =
        (if isSepChar c1 = true ∧ isSepChar c2 = true then
          some (List.dropWhile isSepChar (c2 :: cs2)) else none) from rfl, if_neg]
      rintro ⟨ha, hb2⟩
      rw [Bool.and_eq_true] at h
      rw [ha, hb2] at h
      simp at h

theorem collapsePass_id (s : Str) (h : sepNormal s = true) :
    replPassR collapseM [(' ')] (s.length + 1) true s = s :=
  replPassR_nomatch collapseM [(' ')] (fun t => sepNormal t = true)
    sepNormal_tail collapseM_none (s.length + 1) true s h

theorem dropWhile_id_of_headNot (p : Char → Bool) (s : Str)
    (h : headNot p s = true) : s.dropWhile p = s := by
  cases s with
  | nil => rfl
  | cons c cs =>
    unfold headNot at h
    rw [Bool.not_eq_true'] at h
    simp [List.dropWhile_cons, h]

theorem stripSepEnds_id (s : Str) (h1 : headNot isSepChar s = true)
    (h2 : headNot isSepChar s.reverse = true) : stripSepEnds s = s := by
  unfold stripSepEnds
  rw [dropWhile_id_of_headNot isSepChar s h1,
    dropWhile_id_of_headNot isSepChar s.reverse h2, List.reverse_reverse]

theorem headNot_ws_of_sep (s : Str) (h : headNot isSepChar s = true) :
    headNot isWSChar s = true := by
  cases s with
  | nil => rfl
  | cons c cs =>
    unfold headNot at h ⊢
    unfold isSepChar at h
    rw [Bool.not_eq_true'] at h ⊢
    rcases Bool.or_eq_false_iff.mp h with ⟨_, hb⟩
    rcases Bool.or_eq_false_iff.mp ((Bool.or_eq_false_iff.mp h).1) with _
    exact hb

theorem trim_id (s : Str) (h1 : headNot isSepChar s = true)
    (h2 : headNot isSepChar s.reverse = true) : trim s = s := by
  unfold trim trimStart trimEnd trimStart
  rw [dropWhile_id_of_headNot isWSChar s (headNot_ws_of_sep s h1),
    dropWhile_id_of_headNot isWSChar s.reverse (headNot_ws_of_sep s.reverse h2),
    List.reverse_reverse]

theorem digitFree_forall (s : Str) (h : digitFree s = true) :
    ∀ c ∈ s, isDigitChar c = false := by
  intro c hc
  unfold digitFree at h
  rw [List.all_eq_true] at h
  have := h c hc
  rw [Bool.not_eq_true'] at this
  exact this

/-- The stripper is the identity on digit-free, separator-normalized strings
with no separator at either end. -/
theorem removeTimestamp_fixed (s : Str) (hd : digitFree s = true)
    (hn : sepNormal s = true) (h1 : headNot isSepChar s = true)
    (h2 : headNot isSepChar s.reverse = true) :
    removeTimestampFromFileName s = s := by
  have hdf := digitFree_forall s hd
  simp only [removeTimestampFromFileName]
  rw [stripPass_id stripBody1 stripBody1_none s hdf,
    stripPass_id stripBody2 stripBody2_none s hdf,
    stripPass_id stripBody3 stripBody3_none s hdf,
    stripPass_id stripBody4 stripBody4_none s hdf,
    stripPass_id stripBody5 stripBody5_none s hdf,
    collapsePass_id s hn,
    stripSepEnds_id s h1 h2,
    trim_id s h1 h2]
  by_cases he : s = []
  · rw [if_pos he]
  · rw [if_neg he]

/-- C8 counterexample: stripping is not idempotent.  The first pass over
`a_ 12:34 09:15` consumes the space that separated the two times, leaving
`a_09:15`, and only the second pass can then strip `_09:15`. -/
theorem c8_strip_not_idempotent_counterexample :
    removeTimestampFromFileName (removeTimestampFromFileName (S ("a_ 12:34 09:15"))) ≠
      removeTimestampFromFileName (S ("a_ 12:34 09:15")) ∧
    removeTimestampFromFileName (S ("a_ 12:34 09:15")) = S ("a_09:15") ∧
    removeTimestampFromFileName (S ("a_09:15")) = S ("a") := by
  refine ⟨?_, by decide, by decide⟩
  decide

/-- C8 (amended): stripping is not idempotent in general, but on any string
with no decimal digit, no two adjacent separators, and no separator at either
end it is the identity, and therefore idempotent there. -/
theorem c8_strip_idempotent_amended (s : Str) (hd : digitFree s = true)
    (hn : sepNormal s = true) (h1 : headNot isSepChar s = true)
    (h2 : headNot isSepChar s.reverse = true) :
    removeTimestampFromFileName s = s ∧
    removeTimestampFromFileName (removeTimestampFromFileName s) =
      removeTimestampFromFileName s := by
  have hfix := removeTimestamp_fixed s hd hn h1 h2
  exact ⟨hfix, by rw [hfix]; exact hfix⟩

theorem c8_strip_idempotent_amended_witness :
    removeTimestampFromFileName (S ("hello world")) = S ("hello world") ∧
    removeTimestampFromFileName (removeTimestampFromFileName (S ("hello world"))) =
      removeTimestampFromFileName (S ("hello world")) :=
  c8_strip_idempotent_amended (S ("hello world")) (by decide) (by decide) (by decide)
    (by decide)

/-! ## C3: header preservation under serialize cycles -/

/-- No character of `s` equals `c0`. -/
def charFree (c0 : Char) (s : Str) : Bool := s.all (fun c => decide (c ≠ c0))

theorem charFree_iff (c0 : Char) (s : Str) :
    charFree c0 s = true ↔ ∀ c ∈ s, c ≠ c0 := by
  unfold charFree
  rw [List.all_eq_true]
  constructor
  · intro h c hc
    exact of_decide_eq_true (h c hc)
  · intro h c hc
    exact decide_eq_true (h c hc)

theorem charFree_append (c0 : Char) (a b : Str) :
    charFree c0 (a ++ b) = (charFree c0 a && charFree c0 b) := by
  unfold charFree
  exact List.all_append

theorem charFree_cons (c0 : Char) (c : Char) (s : Str) :
    charFree c0 (c :: s) = (decide (c ≠ c0) && charFree c0 s) := rfl

/-- `dollarExpand` is the identity on `$`-free replacement strings. -/
theorem dollarExpand_id (m pre post : Str) :
    ∀ s : Str, charFree (Char.ofNat 36) s = true → dollarExpand m pre post s = s := by
  intro s
  induction s with
  | nil => intro _; rfl
  | cons c cs ih =>
    intro h
    rw [charFree_cons, Bool.and_eq_true] at h
    have hc : c ≠ Char.ofNat 36 := of_decide_eq_true h.1
    unfold dollarExpand
    rw [if_neg hc]
    exact congrArg (List.cons c) (ih h.2)

theorem joinLines_cons (l l2 : Str) (ls : List Str) :
    joinLines (l :: l2 :: ls) = l ++ (Char.ofNat 10) :: joinLines (l2 :: ls) := by
  simp only [joinLines, List.intercalate, List.intersperse]
  rfl

theorem splitLinesAux_cons_ne (c : Char) (cs acc : Str) (hc : c ≠ Char.ofNat 10) :
    splitLinesAux (c :: cs) acc = splitLinesAux cs (c :: acc) := by
  show (if c = Char.ofNat 10 then acc.reverse :: splitLinesAux cs []
    else splitLinesAux cs (c :: acc)) = splitLinesAux cs (c :: acc)
  rw [if_neg hc]

theorem splitLinesAux_cons_nl (cs acc : Str) :
    splitLinesAux ((Char.ofNat 10) :: cs) acc = acc.reverse :: splitLinesAux cs [] := by
  show (if Char.ofNat 10 = Char.ofNat 10 then acc.reverse :: splitLinesAux cs []
    else splitLinesAux cs (Char.ofNat 10 :: acc)) = acc.reverse :: splitLinesAux cs []
  rw [if_pos rfl]

theorem splitLinesAux_nl (l : Str) (hl : charFree (Char.ofNat 10) l = true) :
    ∀ (rest : Str) (acc : Str),
      splitLinesAux (l ++ (Char.ofNat 10) :: rest) acc =
        (acc.reverse ++ l) :: splitLinesAux rest [] := by
  induction l with
  | nil =>
    intro rest acc
    show splitLinesAux ((Char.ofNat 10) :: rest) acc = _
    rw [splitLinesAux_cons_nl]
    simp
  | cons c cs ih =>
    intro rest acc
    rw [charFree_cons, Bool.and_eq_true] at hl
    have hc : c ≠ Char.ofNat 10 := of_decide_eq_true hl.1
    show splitLinesAux (c :: (cs ++ (Char.ofNat 10) :: rest)) acc = _
    rw [splitLinesAux_cons_ne c _ _ hc, ih hl.2 rest (c :: acc)]
    exact congrArg (fun z => z :: splitLinesAux rest []) (by simp)

theorem splitLinesAux_last (l : Str) (hl : charFree (Char.ofNat 10) l = true) :
    ∀ acc : Str, splitLinesAux l acc = [acc.reverse ++ l] := by
  induction l with
  | nil => intro acc; simp [splitLinesAux]
  | cons c cs ih =>
    intro acc
    rw [charFree_cons, Bool.and_eq_true] at hl
    have hc : c ≠ Char.ofNat 10 := of_decide_eq_true hl.1
    rw [splitLinesAux_cons_ne c _ _ hc, ih hl.2 (c :: acc)]
    exact congrArg (fun z => [z]) (by simp)

theorem splitLines_joinLines (ls : List Str) (hne : ls ≠ [])
    (hl : ∀ x ∈ ls, charFree (Char.ofNat 10) x = true) :
    splitLines (joinLines ls) = ls := by
  induction ls with
  | nil => exact absurd rfl hne
  | cons l rest ih =>
    cases rest with
    | nil =>
      show splitLinesAux (joinLines [l]) [] = [l]
      rw [show joinLines [l] = l from by simp [joinLines, List.intercalate]]
      rw [splitLinesAux_last l (hl l (List.mem_cons_self l [])) []]
      simp
    | cons l2 rest2 =>
      show splitLinesAux (joinLines (l :: l2 :: rest2)) [] = l :: l2 :: rest2
      rw [joinLines_cons, splitLinesAux_nl l (hl l (List.mem_cons_self l _)) _ []]
      have := ih (by simp) (fun x hx => hl x (List.mem_cons_of_mem l hx))
      show ([].reverse ++ l) :: splitLines (joinLines (l2 :: rest2)) = _
      rw [this]
      simp

theorem startsWith_append_self (p r : Str) : startsWith (p ++ r) p = true := by
  unfold startsWith
  rw [List.isPrefixOf_iff_prefix]
  exact List.prefix_append p r

theorem startsWith_cons (c d : Char) (s pre : Str) :
    startsWith (c :: s) (d :: pre) = ((d == c) && startsWith s pre) := rfl

theorem findFMClose_cons (c : Char) (cs : Str) :
    findFMClose (c :: cs) =
      if startsWith (c :: cs) (S ("\n---")) = true then some ([], (c :: cs).drop 4)
      else
        match findFMClose cs with
        | some (pre, post) => some (c :: pre, post)
        | none => none := rfl

theorem findFMClose_line (l : Str) (hl : charFree (Char.ofNat 10) l = true) (after : Str) :
    findFMClose (l ++ (S ("\n---")) ++ after) = some (l, after) := by
  induction l with
  | nil =>
    show findFMClose ((Char.ofNat 10) :: ((S ("---")) ++ after)) = some ([], after)
    rw [findFMClose_cons,
      if_pos (by exact startsWith_append_self (S ("\n---")) after)]
    rfl
  | cons c cs ih =>
    rw [charFree_cons, Bool.and_eq_true] at hl
    have hc : c ≠ Char.ofNat 10 := of_decide_eq_true hl.1
    show findFMClose (c :: (cs ++ (S ("\n---")) ++ after)) = some (c :: cs, after)
    rw [findFMClose_cons, if_neg ?hnp]
    case hnp =>
      rw [show (S ("\n---")) = (Char.ofNat 10) :: (S ("---")) from rfl,
        startsWith_cons]
      intro hcon
      rw [Bool.and_eq_true, beq_iff_eq] at hcon
      exact hc hcon.1.symm
    rw [ih hl.2]

theorem findFMClose_skipLine (l : Str) (hl : charFree (Char.ofNat 10) l = true)
    (t : Str) (ht : startsWith t (S ("---")) = false) :
    findFMClose (l ++ (Char.ofNat 10) :: t) =
      (findFMClose t).map (fun p => (l ++ (Char.ofNat 10) :: p.1, p.2)) := by
  induction l with
  | nil =>
    show findFMClose ((Char.ofNat 10) :: t) = _
    rw [findFMClose_cons, if_neg ?hq]
    case hq =>
      rw [show (S ("\n---")) = (Char.ofNat 10) :: (S ("---")) from rfl,
        startsWith_cons]
      intro hcon
      rw [Bool.and_eq_true] at hcon
      rw [hcon.2] at ht
      exact absurd ht (by decide)
    cases findFMClose t with
    | none => rfl
    | some p => rfl
  | cons c cs ih =>
    rw [charFree_cons, Bool.and_eq_true] at hl
    have hc : c ≠ Char.ofNat 10 := of_decide_eq_true hl.1
    show findFMClose (c :: (cs ++ (Char.ofNat 10) :: t)) = _
    rw [findFMClose_cons, if_neg ?hnp2]
    case hnp2 =>
      rw [show (S ("\n---")) = (Char.ofNat 10) :: (S ("---")) from rfl,
        startsWith_cons]
      intro hcon
      rw [Bool.and_eq_true, beq_iff_eq] at hcon
      exact hc hcon.1.symm
    rw [ih hl.2]
    cases findFMClose t with
    | none => rfl
    | some p => rfl

theorem startsWith_line_dashes (l2 : Str) (h : startsWith l2 (S ("---")) = false)
    (W : Str) : startsWith (l2 ++ (Char.ofNat 10) :: W) (S ("---")) = false := by
  match l2 with
  | [] =>
    show startsWith ((Char.ofNat 10) :: W) (S ("---")) = false
    rfl
  | [a] =>
    show startsWith (a :: (Char.ofNat 10) :: W) (S ("---")) = false
    rw [show (S ("---")) = (Char.ofNat 45) :: (Char.ofNat 45) :: [Char.ofNat 45] from rfl,
      startsWith_cons, startsWith_cons]
    simp
  | [a, b] =>
    show startsWith (a :: b :: (Char.ofNat 10) :: W) (S ("---")) = false
    rw [show (S ("---")) = (Char.ofNat 45) :: (Char.ofNat 45) :: [Char.ofNat 45] from rfl,
      startsWith_cons, startsWith_cons, startsWith_cons]
    simp
  | a :: b :: d :: r =>
    show startsWith (a :: b :: d :: (r ++ (Char.ofNat 10) :: W)) (S ("---")) = false
    simp only [startsWith,
      show (S ("---")) = (Char.ofNat 45) :: (Char.ofNat 45) :: [Char.ofNat 45] from rfl,
      List.isPrefixOf] at h ⊢
    simpa using h

theorem findFMClose_joined (ls : List Str) (hne : ls ≠ [])
    (hl : ∀ x ∈ ls, charFree (Char.ofNat 10) x = true ∧ startsWith x (S ("---")) = false)
    (after : Str) :
    findFMClose (joinLines ls ++ (S ("\n---")) ++ after) = some (joinLines ls, after) := by
  induction ls with
  | nil => exact absurd rfl hne
  | cons l rest ih =>
    cases rest with
    | nil =>
      rw [show joinLines [l] = l from by simp [joinLines, List.intercalate]]
      exact findFMClose_line l (hl l (List.mem_cons_self l [])).1 after
    | cons l2 rest2 =>
      rw [joinLines_cons]
      have hT : startsWith (joinLines (l2 :: rest2) ++ ((S ("\n---")) ++ after))
          (S ("---")) = false := by
        have h2 := (hl l2 (List.mem_cons_of_mem l (List.mem_cons_self l2 rest2))).2
        cases rest2 with
        | nil =>
          rw [show joinLines [l2] = l2 from by simp [joinLines, List.intercalate]]
          rw [show ((S ("\n---")) ++ after) = (Char.ofNat 10) ::
            ((S ("---")) ++ after) from rfl]
          exact startsWith_line_dashes l2 h2 _
        | cons l3 rest3 =>
          rw [joinLines_cons, List.append_assoc]
          exact startsWith_line_dashes l2 h2 _
      rw [List.append_assoc, List.append_assoc]
      rw [show ((Char.ofNat 10) :: joinLines (l2 :: rest2)) ++ ((S ("\n---")) ++ after) =
        (Char.ofNat 10) :: (joinLines (l2 :: rest2) ++ ((S ("\n---")) ++ after)) from rfl]
      rw [findFMClose_skipLine l (hl l (List.mem_cons_self l _)).1 _ hT]
      have hih := ih (by simp) (fun x hx => hl x (List.mem_cons_of_mem l hx))
      rw [List.append_assoc] at hih
      rw [hih]
      rfl

/-- An unrelated top-level header line: nonblank, unindented, and its key is
none of the four managed keys. -/
def keepLine (st : LapseSettings) (x : Str) : Bool :=
  decide (trim x ≠ []) && decide (indentOf x = 0) &&
  !(startsWith (trim x) (st.entriesKey ++ (S (":")))) &&
  !(startsWith (trim x) (st.startTimeKey ++ (S (":")))) &&
  !(startsWith (trim x) (st.endTimeKey ++ (S (":")))) &&
  !(startsWith (trim x) (st.totalTimeKey ++ (S (":"))))

/-- The stateful Lapse-line filter never touches unrelated top-level lines:
restricted to them it is the identity, whatever the array state. -/
theorem filterLapseAux_keep (st : LapseSettings) :
    ∀ (lines : List Str) (b : Bool),
      (filterLapseAux st b lines).filter (keepLine st) = lines.filter (keepLine st) := by
  intro lines
  induction lines with
  | nil => intro b; rfl
  | cons l ls ih =>
    intro b
    unfold filterLapseAux
    by_cases c1 : startsWith (trim l) (st.entriesKey ++ (S (":"))) = true
    · rw [if_pos c1, ih true, List.filter_cons]
      rw [show keepLine st l = false from by
        unfold keepLine
        rw [c1]
        simp]
      simp
    · rw [if_neg ?hc1]
      case hc1 => simpa using c1
      by_cases c2 : b = true ∧ (trim l = [] ∨ indentOf l > 0)
      · rw [if_pos c2, ih b, List.filter_cons]
        rw [show keepLine st l = false from by
          unfold keepLine
          rcases c2.2 with h | h
          · rw [h]
            simp
          · rw [show decide (indentOf l = 0) = false from by
              rw [decide_eq_false_iff_not]
              omega]
            simp]
        simp
      · rw [if_neg c2]
        by_cases c3 : startsWith (trim l) (st.startTimeKey ++ (S (":"))) = true ∨
            startsWith (trim l) (st.endTimeKey ++ (S (":"))) = true ∨
            startsWith (trim l) (st.totalTimeKey ++ (S (":"))) = true
        · rw [if_pos c3, ih false, List.filter_cons]
          rw [show keepLine st l = false from by
            unfold keepLine
            rcases c3 with h | h | h <;> rw [h] <;> simp]
          simp
        · rw [if_neg c3, List.filter_cons, List.filter_cons, ih false]

/-- Every line the filter keeps came from the input. -/
theorem filterLapseAux_subset (st : LapseSettings) :
    ∀ (lines : List Str) (b : Bool) (x : Str),
      x ∈ filterLapseAux st b lines → x ∈ lines := by
  intro lines
  induction lines with
  | nil => intro b x hx; exact absurd hx (by simp [filterLapseAux])
  | cons l ls ih =>
    intro b x hx
    unfold filterLapseAux at hx
    by_cases c1 : startsWith (trim l) (st.entriesKey ++ (S (":"))) = true
    · rw [if_pos c1] at hx
      exact List.mem_cons_of_mem l (ih true x hx)
    · rw [if_neg (by simpa using c1)] at hx
      by_cases c2 : b = true ∧ (trim l = [] ∨ indentOf l > 0)
      · rw [if_pos c2] at hx
        exact List.mem_cons_of_mem l (ih b x hx)
      · rw [if_neg c2] at hx
        by_cases c3 : startsWith (trim l) (st.startTimeKey ++ (S (":"))) = true ∨
            startsWith (trim l) (st.endTimeKey ++ (S (":"))) = true ∨
            startsWith (trim l) (st.totalTimeKey ++ (S (":"))) = true
        · rw [if_pos c3] at hx
          exact List.mem_cons_of_mem l (ih false x hx)
        · rw [if_neg c3] at hx
          rcases List.mem_cons.mp hx with hx2 | hx2
          · exact hx2 ▸ List.mem_cons_self l ls
          · exact List.mem_cons_of_mem l (ih false x hx2)

/-- Newline-terminate each line and concatenate. -/
def nlTerm (ls : List Str) : Str := (ls.map (fun l => l ++ [Char.ofNat 10])).flatten

/-- One optional value line of an entry block. -/
def optValLineL (pre : Str) (ov : Option Str) : List Str :=
  match ov with
  | some v => if v ≠ [] then [pre ++ v] else []
  | none => []

/-- The lines of one entry's rendered YAML block. -/
def entryLinesL (e : TimeEntry) : List Str :=
  [(S ("  - label: \"")) ++ escapeLabel e.label ++ [Char.ofNat 34]] ++
  optValLineL (S ("    start: ")) (formatTimestampForFrontmatter e.startTime) ++
  optValLineL (S ("    end: ")) (formatTimestampForFrontmatter e.endTime) ++
  [(S ("    duration: ")) ++ intRepr (e.duration / 1000)] ++
  (if e.tags ≠ [] then [(S ("    tags: ")) ++ renderTags e.tags] else [])

/-- The line-list form of one optional `key: value` line. -/
def optKeyLineL (key : Str) (ov : Option Str) : List Str :=
  match ov with
  | some v => if v ≠ [] then [key ++ (S (": ")) ++ v] else []
  | none => []

/-- The lines of the whole rendered Lapse block. -/
def blockLines (st : LapseSettings) (pd : PageTimeData) : List Str :=
  let startedEntries := pd.entries.filter fun e => e.startTime ≠ none
  let startTime : Option Int :=
    if startedEntries.length > 0 then
      some (listMin (startedEntries.map fun e => e.startTime.getD 0))
    else none
  let completedEntries := pd.entries.filter fun e => e.endTime ≠ none
  let endTime : Option Int :=
    if completedEntries.length > 0 then
      some (listMax (completedEntries.map fun e => e.endTime.getD 0))
    else none
  let totalTimeTracked :=
    (pd.entries.filter fun e => e.endTime ≠ none).foldl (fun sum e => sum + e.duration) 0
  optKeyLineL st.startTimeKey (formatTimestampForFrontmatter startTime) ++
  optKeyLineL st.endTimeKey (formatTimestampForFrontmatter endTime) ++
  (if pd.entries.length > 0 then
      (st.entriesKey ++ (S (":"))) :: (pd.entries.map entryLinesL).flatten
    else [st.entriesKey ++ (S (": []"))]) ++
  [st.totalTimeKey ++ (S (": \"")) ++ formatTimeAsHHMMSS totalTimeTracked ++ [Char.ofNat 34]]

theorem nlTerm_append (a b : List Str) : nlTerm (a ++ b) = nlTerm a ++ nlTerm b := by
  simp [nlTerm]

theorem nlTerm_cons (l : Str) (ls : List Str) :
    nlTerm (l :: ls) = l ++ (Char.ofNat 10) :: nlTerm ls := by
  simp [nlTerm]

theorem renderEntryLines_nlTerm (e : TimeEntry) :
    renderEntryLines e = nlTerm (entryLinesL e) := by
  unfold renderEntryLines entryLinesL optValLineL
  rcases formatTimestampForFrontmatter e.startTime with _ | v1 <;>
    rcases formatTimestampForFrontmatter e.endTime with _ | v2 <;>
    simp only [nlTerm_append, nlTerm_cons, nlTerm] <;>
    [skip; by_cases h2 : v2 ≠ []; by_cases h1 : v1 ≠ [];
      (by_cases h1 : v1 ≠ [] <;> by_cases h2 : v2 ≠ [])] <;>
    by_cases ht : e.tags ≠ [] <;>
    simp [*] <;>
    simp [show (S ("\"\n")) = (Char.ofNat 34) :: [Char.ofNat 10] from rfl,
      show (S ("\n")) = [Char.ofNat 10] from rfl]

theorem nlTerm_flatten_entries (es : List TimeEntry) :
    (es.map renderEntryLines).flatten = nlTerm ((es.map entryLinesL).flatten) := by
  induction es with
  | nil => rfl
  | cons e tl ih =>
    simp only [List.map_cons, List.flatten_cons, nlTerm_append, ih,
      renderEntryLines_nlTerm]

theorem optKeyLine_nlTerm (key : Str) (ov : Option Str) :
    optKeyLine key ov = nlTerm (optKeyLineL key ov) := by
  unfold optKeyLine optKeyLineL
  rcases ov with _ | v
  · rfl
  · by_cases hv : v ≠ [] <;>
      simp [*, nlTerm, show (S ("\n")) = [Char.ofNat 10] from rfl]

theorem buildLapseFM_nlTerm (st : LapseSettings) (pd : PageTimeData) :
    buildLapseFM st pd = nlTerm (blockLines st pd) := by
  simp only [buildLapseFM, blockLines]
  rw [optKeyLine_nlTerm, optKeyLine_nlTerm]
  by_cases he : pd.entries.length > 0 <;>
    simp [*, nlTerm_append, nlTerm_cons, nlTerm_flatten_entries,
      show (S ("\"\n")) = (Char.ofNat 34) :: [Char.ofNat 10] from rfl,
      show (S (": []\n")) = (S (": []")) ++ [Char.ofNat 10] from rfl,
      show (S (":\n")) = (S (":")) ++ [Char.ofNat 10] from rfl,
      show (S ("\n")) = [Char.ofNat 10] from rfl, nlTerm]

/-- Characters a formatted timestamp or duration can contain. -/
def safeValChar (c : Char) : Bool :=
  isDigitChar c || c = (Char.ofNat 45) || c = (Char.ofNat 58) || c = (Char.ofNat 84)

theorem digitChar_isDigit (n : Nat) (h : n < 10) : isDigitChar (digitChar n) = true := by
  interval_cases n <;> decide

theorem natReprAux_digits (fuel : Nat) :
    ∀ (n : Nat) (c : Char), c ∈ natReprAux fuel n → isDigitChar c = true := by
  induction fuel with
  | zero => intro n c hc; exact absurd hc (by simp [natReprAux])
  | succ m ih =>
    intro n c hc
    unfold natReprAux at hc
    by_cases hn : n < 10
    · rw [if_pos hn] at hc
      rw [List.mem_singleton] at hc
      exact hc ▸ digitChar_isDigit n hn
    · rw [if_neg hn] at hc
      rcases List.mem_append.mp hc with h1 | h1
      · exact ih (n / 10) c h1
      · rw [List.mem_singleton] at h1
        exact h1 ▸ digitChar_isDigit (n % 10) (Nat.mod_lt n (by norm_num))

theorem natRepr_digits (n : Nat) (c : Char) (hc : c ∈ natRepr n) : isDigitChar c = true :=
  natReprAux_digits (n + 1) n c hc

theorem natRepr_ne_nil (n : Nat) : natRepr n ≠ [] := by
  unfold natRepr natReprAux
  by_cases hn : n < 10
  · rw [if_pos hn]; simp
  · rw [if_neg hn]; simp

theorem intRepr_chars (i : Int) (c : Char) (hc : c ∈ intRepr i) :
    isDigitChar c = true ∨ c = Char.ofNat 45 := by
  unfold intRepr at hc
  by_cases hi : i < 0
  · rw [if_pos hi] at hc
    rcases List.mem_cons.mp hc with h | h
    · exact Or.inr h
    · exact Or.inl (natRepr_digits _ c h)
  · rw [if_neg hi] at hc
    exact Or.inl (natRepr_digits _ c hc)

theorem intRepr_ne_nil (i : Int) : intRepr i ≠ [] := by
  unfold intRepr
  by_cases hi : i < 0
  · rw [if_pos hi]; simp
  · rw [if_neg hi]; exact natRepr_ne_nil _

theorem pad2_chars (n : Int) (c : Char) (hc : c ∈ pad2 n) :
    isDigitChar c = true ∨ c = Char.ofNat 45 := by
  unfold pad2 padStart at hc
  rcases List.mem_append.mp hc with h | h
  · rw [List.eq_of_mem_replicate h]
    exact Or.inl (by decide)
  · exact intRepr_chars n c h

theorem safeVal_of_digit (c : Char) (h : isDigitChar c = true) : safeValChar c = true := by
  unfold safeValChar
  rw [h]
  rfl

theorem safeVal_of_intRepr (c : Char) (i : Int) (h : c ∈ intRepr i) :
    safeValChar c = true := by
  rcases intRepr_chars i c h with h2 | h2
  · exact safeVal_of_digit c h2
  · rw [h2]; decide

theorem safeVal_of_pad2 (c : Char) (n : Int) (h : c ∈ pad2 n) : safeValChar c = true := by
  rcases pad2_chars n c h with h2 | h2
  · exact safeVal_of_digit c h2
  · rw [h2]; decide

theorem formatFDL_chars (t : Int) (c : Char) (hc : c ∈ formatForDatetimeLocal t) :
    safeValChar c = true := by
  unfold formatForDatetimeLocal at hc
  simp only [List.append_assoc, List.mem_append, List.mem_singleton] at hc
  rcases hc with h | h | h | h | h | h | h | h | h | h | h
  · exact safeVal_of_intRepr c _ h
  · rw [h]; decide
  · exact safeVal_of_pad2 c _ h
  · rw [h]; decide
  · exact safeVal_of_pad2 c _ h
  · rw [h]; decide
  · exact safeVal_of_pad2 c _ h
  · rw [h]; decide
  · exact safeVal_of_pad2 c _ h
  · rw [h]; decide
  · exact safeVal_of_pad2 c _ h

theorem hhmmss_chars (ms : Int) (c : Char) (hc : c ∈ formatTimeAsHHMMSS ms) :
    safeValChar c = true := by
  unfold formatTimeAsHHMMSS at hc
  simp only [List.append_assoc, List.mem_append, List.mem_singleton] at hc
  rcases hc with h | h | h | h | h
  · exact safeVal_of_pad2 c _ h
  · rw [h]; decide
  · exact safeVal_of_pad2 c _ h
  · rw [h]; decide
  · exact safeVal_of_pad2 c _ h

theorem formatFDL_ne_nil (t : Int) : formatForDatetimeLocal t ≠ [] := by
  intro h
  simp [formatForDatetimeLocal] at h

theorem hhmmss_ne_nil (ms : Int) : formatTimeAsHHMMSS ms ≠ [] := by
  unfold formatTimeAsHHMMSS
  intro h
  have := congrArg List.length h
  simp [pad2, padStart] at this

theorem ws_enum (c : Char) (h : isWSChar c = true) :
    c = (' ') ∨ c = Char.ofNat 9 ∨ c = Char.ofNat 10 ∨ c = Char.ofNat 11 ∨
      c = Char.ofNat 12 ∨ c = Char.ofNat 13 := by
  unfold isWSChar at h
  simp only [Bool.or_eq_true, decide_eq_true_eq] at h
  tauto

theorem safeVal_not_ws (c : Char) (h : safeValChar c = true) : isWSChar c = false := by
  rcases Bool.eq_false_or_eq_true (isWSChar c) with hw | hw
  · rcases ws_enum c hw with h2 | h2 | h2 | h2 | h2 | h2 <;>
      rw [h2] at h <;> exact absurd h (by decide)
  · exact hw

theorem safeVal_ne (c : Char) (h : safeValChar c = true) :
    c ≠ Char.ofNat 10 ∧ c ≠ Char.ofNat 36 := by
  constructor <;> intro heq <;> rw [heq] at h <;> exact absurd h (by decide)

theorem charFree_flatten (c0 : Char) (L : List Str)
    (h : ∀ x ∈ L, charFree c0 x = true) : charFree c0 L.flatten = true := by
  induction L with
  | nil => rfl
  | cons x xs ih =>
    rw [List.flatten_cons, charFree_append, Bool.and_eq_true]
    exact ⟨h x (List.mem_cons_self x xs),
      ih (fun y hy => h y (List.mem_cons_of_mem x hy))⟩

theorem escapeLabel_charFree (c0 : Char) (h92 : c0 ≠ Char.ofNat 92)
    (h34 : c0 ≠ Char.ofNat 34) (s : Str) (hs : charFree c0 s = true) :
    charFree c0 (escapeLabel s) = true := by
  unfold escapeLabel
  apply charFree_flatten
  intro x hx
  rcases List.mem_map.mp hx with ⟨a, ha, hax⟩
  have ha0 : a ≠ c0 := by
    rcases List.mem_flatten.mp ha with ⟨piece, hp, hap⟩
    rcases List.mem_map.mp hp with ⟨b, hb, hbp⟩
    have hbc := (charFree_iff c0 s).mp hs b hb
    by_cases hbq : b = Char.ofNat 92
    · rw [← hbp, hbq] at hap
      simp at hap
      rw [hap]
      exact fun hcon => h92 hcon.symm
    · rw [← hbp, if_neg hbq] at hap
      rw [List.mem_singleton] at hap
      exact hap ▸ hbc
  rw [← hax]
  by_cases haq : a = Char.ofNat 34
  · rw [if_pos haq]
    rw [charFree_iff]
    intro c hc
    rcases List.mem_cons.mp hc with h1 | h1
    · exact h1 ▸ fun hcon => h92 hcon.symm
    · rw [List.mem_singleton] at h1
      exact h1 ▸ fun hcon => h34 hcon.symm
  · rw [if_neg haq]
    rw [charFree_iff]
    intro c hc
    rw [List.mem_singleton] at hc
    exact hc ▸ ha0

theorem charFree_intercalate (c0 : Char) (sep : Str) (hsep : charFree c0 sep = true) :
    ∀ ls : List Str, (∀ x ∈ ls, charFree c0 x = true) →
      charFree c0 (List.intercalate sep ls) = true := by
  intro ls
  induction ls with
  | nil => intro _; rfl
  | cons x xs ih =>
    intro h
    cases xs with
    | nil =>
      rw [show List.intercalate sep [x] = x from by
        simp [List.intercalate, List.intersperse_singleton]]
      exact h x (List.mem_cons_self x [])
    | cons y ys =>
      rw [show List.intercalate sep (x :: y :: ys) =
          x ++ sep ++ List.intercalate sep (y :: ys) from by
        simp [List.intercalate, List.intersperse_cons_cons]]
      rw [charFree_append, charFree_append, Bool.and_eq_true, Bool.and_eq_true]
      exact ⟨⟨h x (List.mem_cons_self x _), hsep⟩,
        ih (fun z hz => h z (List.mem_cons_of_mem x hz))⟩

theorem renderTags_charFree (c0 : Char)
    (hlit : c0 ≠ Char.ofNat 34 ∧ c0 ≠ Char.ofNat 44 ∧ c0 ≠ Char.ofNat 32 ∧
      c0 ≠ Char.ofNat 91 ∧ c0 ≠ Char.ofNat 93)
    (ts : List Str) (ht : ∀ t ∈ ts, charFree c0 t = true) :
    charFree c0 (renderTags ts) = true := by
  unfold renderTags
  rw [charFree_append, charFree_append, Bool.and_eq_true, Bool.and_eq_true]
  refine ⟨⟨?_, ?_⟩, ?_⟩
  · rw [charFree_iff]
    intro c hc
    rw [List.mem_singleton] at hc
    exact hc ▸ fun hcon => hlit.2.2.2.1 hcon.symm
  · apply charFree_intercalate
    · rw [charFree_iff]
      intro c hc
      rcases List.mem_cons.mp hc with h1 | h1
      · exact h1 ▸ fun hcon => hlit.2.1 hcon.symm
      · rw [List.mem_singleton] at h1
        exact h1 ▸ fun hcon => hlit.2.2.1 hcon.symm
    · intro x hx
      rcases List.mem_map.mp hx with ⟨t, htm, htx⟩
      rw [← htx, charFree_append, charFree_append, Bool.and_eq_true, Bool.and_eq_true]
      refine ⟨⟨?_, ht t htm⟩, ?_⟩ <;>
        · rw [charFree_iff]
          intro c hc
          rw [List.mem_singleton] at hc
          exact hc ▸ fun hcon => hlit.1 hcon.symm
  · rw [charFree_iff]
    intro c hc
    rw [List.mem_singleton] at hc
    exact hc ▸ fun hcon => hlit.2.2.2.2 hcon.symm

/-- A tame header line: no newline, no dollar, and it does not begin with
the frontmatter fence `---`. -/
def lineTame (x : Str) : Bool :=
  charFree (Char.ofNat 10) x && charFree (Char.ofNat 36) x &&
    !(startsWith x (S ("---")))

/-- A tame frontmatter key: nonempty, no whitespace, no dollar, and not
beginning with `---`. -/
def keyTame (k : Str) : Bool :=
  decide (k ≠ []) && k.all (fun c => !(isWSChar c) && decide (c ≠ Char.ofNat 36)) &&
    !(startsWith k (S ("---")))

/-- All four configured keys are tame. -/
def keysTame (st : LapseSettings) : Bool :=
  keyTame st.startTimeKey && keyTame st.endTimeKey && keyTame st.entriesKey &&
    keyTame st.totalTimeKey

/-- A tame entry: label and tags contain no newline and no dollar. -/
def entryTame (e : TimeEntry) : Bool :=
  charFree (Char.ofNat 10) e.label && charFree (Char.ofNat 36) e.label &&
    e.tags.all (fun t => charFree (Char.ofNat 10) t && charFree (Char.ofNat 36) t)

theorem headNot_of_all (p : Char → Bool) (s : Str) (h : ∀ c ∈ s, p c = false) :
    headNot p s = true := by
  cases s with
  | nil => rfl
  | cons c cs =>
    show (!(p c)) = true
    rw [h c (List.mem_cons_self c cs)]
    rfl

theorem headNot_append (p : Char → Bool) (a b : Str) (ha : a ≠ [])
    (h : headNot p a = true) : headNot p (a ++ b) = true := by
  cases a with
  | nil => exact absurd rfl ha
  | cons c cs => exact h

theorem trim_id_of_ws (s : Str) (h1 : headNot isWSChar s = true)
    (h2 : headNot isWSChar s.reverse = true) : trim s = s := by
  show trimEnd (trimStart s) = s
  rw [show trimStart s = s from dropWhile_id_of_headNot isWSChar s h1]
  show (trimStart s.reverse).reverse = s
  rw [show trimStart s.reverse = s.reverse from
    dropWhile_id_of_headNot isWSChar s.reverse h2]
  exact List.reverse_reverse s

theorem startsWith_dashes_sep (l2 : Str) (h : startsWith l2 (S ("---")) = false)
    (c : Char) (hc : c ≠ Char.ofNat 45) (W : Str) :
    startsWith (l2 ++ c :: W) (S ("---")) = false := by
  match l2 with
  | [] =>
    show startsWith (c :: W) (S ("---")) = false
    rw [show (S ("---")) = (Char.ofNat 45) :: (S ("--")) from rfl, startsWith_cons]
    simp only [Bool.and_eq_false_iff]
    exact Or.inl (by
      rw [beq_eq_false_iff_ne]
      exact fun hq => hc hq.symm)
  | [a] =>
    show startsWith (a :: c :: W) (S ("---")) = false
    rw [show (S ("---")) = (Char.ofNat 45) :: (Char.ofNat 45) :: [Char.ofNat 45] from rfl,
      startsWith_cons, startsWith_cons]
    simp only [Bool.and_eq_false_iff]
    by_cases hq : (Char.ofNat 45 == a) = false
    · exact Or.inl hq
    · refine Or.inr (Or.inl ?_)
      rw [beq_eq_false_iff_ne]
      exact fun hq2 => hc hq2.symm
  | [a, b] =>
    show startsWith (a :: b :: c :: W) (S ("---")) = false
    rw [show (S ("---")) = (Char.ofNat 45) :: (Char.ofNat 45) :: [Char.ofNat 45] from rfl,
      startsWith_cons, startsWith_cons, startsWith_cons]
    simp only [Bool.and_eq_false_iff]
    by_cases hq : (Char.ofNat 45 == a) = false
    · exact Or.inl hq
    · by_cases hq2 : (Char.ofNat 45 == b) = false
      · exact Or.inr (Or.inl hq2)
      · refine Or.inr (Or.inr (Or.inl ?_))
        rw [beq_eq_false_iff_ne]
        exact fun hq3 => hc hq3.symm
  | a :: b :: d :: r =>
    show startsWith (a :: b :: d :: (r ++ c :: W)) (S ("---")) = false
    rw [show (S ("---")) = (Char.ofNat 45) :: (Char.ofNat 45) :: [Char.ofNat 45] from rfl,
      startsWith_cons, startsWith_cons, startsWith_cons] at h ⊢
    simp only [Bool.and_eq_false_iff] at h ⊢
    rcases h with h | h | h | h
    · exact Or.inl h
    · exact Or.inr (Or.inl h)
    · exact Or.inr (Or.inr (Or.inl h))
    · exact absurd (show startsWith (r : Str) [] = true from by cases r <;> rfl)
        (by rw [h]; exact fun hcon => Bool.noConfusion hcon)

theorem startsWith_space (s : Str) :
    startsWith ((Char.ofNat 32) :: s) (S ("---")) = false := rfl

theorem indentOf_space (s : Str) : indentOf ((Char.ofNat 32) :: s) ≠ 0 := by
  unfold indentOf trimStart
  rw [show List.dropWhile isWSChar ((Char.ofNat 32) :: s) =
    List.dropWhile isWSChar s from by rw [List.dropWhile_cons]; rfl]
  have := List.Sublist.length_le (List.dropWhile_sublist (p := isWSChar) (l := s))
  simp only [List.length_cons]
  omega

theorem keyTame_parts (k : Str) (h : keyTame k = true) :
    k ≠ [] ∧ (∀ c ∈ k, isWSChar c = false ∧ c ≠ Char.ofNat 36) ∧
      startsWith k (S ("---")) = false := by
  unfold keyTame at h
  rw [Bool.and_eq_true, Bool.and_eq_true] at h
  refine ⟨of_decide_eq_true h.1.1, ?_, by simpa using h.2⟩
  intro c hc
  have := List.all_eq_true.mp h.1.2 c hc
  rw [Bool.and_eq_true] at this
  exact ⟨by simpa using this.1, of_decide_eq_true this.2⟩

theorem key_charFree (k : Str) (h : keyTame k = true) :
    charFree (Char.ofNat 10) k = true ∧ charFree (Char.ofNat 36) k = true := by
  obtain ⟨-, hall, -⟩ := keyTame_parts k h
  constructor <;> rw [charFree_iff] <;> intro c hc
  · intro heq
    have := (hall c hc).1
    rw [heq] at this
    exact absurd this (by decide)
  · exact (hall c hc).2

theorem keyLine_facts (k r : Str) (hk : keyTame k = true)
    (h10 : charFree (Char.ofNat 10) r = true) (h36 : charFree (Char.ofNat 36) r = true)
    (hlast : headNot isWSChar (r.reverse ++ [Char.ofNat 58]) = true) :
    lineTame (k ++ (Char.ofNat 58) :: r) = true ∧
    trim (k ++ (Char.ofNat 58) :: r) = k ++ (Char.ofNat 58) :: r := by
  obtain ⟨hne, hall, hdash⟩ := keyTame_parts k hk
  obtain ⟨hk10, hk36⟩ := key_charFree k hk
  constructor
  · unfold lineTame
    rw [charFree_append, charFree_append, charFree_cons, charFree_cons, hk10, hk36,
      h10, h36]
    rw [startsWith_dashes_sep k hdash (Char.ofNat 58) (by decide) r]
    rfl
  · apply trim_id_of_ws
    · exact headNot_append isWSChar k _ hne
        (headNot_of_all isWSChar k (fun c hc => (hall c hc).1))
    · rw [List.reverse_append, List.reverse_cons]
      exact headNot_append isWSChar _ _ (by simp) hlast

theorem keepLine_false_keyLine (st : LapseSettings) (k r : Str)
    (hmem : k = st.startTimeKey ∨ k = st.endTimeKey ∨ k = st.entriesKey ∨
      k = st.totalTimeKey)
    (htrim : trim (k ++ (Char.ofNat 58) :: r) = k ++ (Char.ofNat 58) :: r) :
    keepLine st (k ++ (Char.ofNat 58) :: r) = false := by
  have hsw : startsWith (k ++ (Char.ofNat 58) :: r) (k ++ (S (":"))) = true := by
    rw [show k ++ (Char.ofNat 58) :: r = (k ++ (S (":"))) ++ r from by
      rw [show (S (":")) = [Char.ofNat 58] from rfl]
      simp]
    exact startsWith_append_self _ r
  unfold keepLine
  rw [htrim]
  rcases hmem with hm | hm | hm | hm <;> rw [← hm, hsw] <;> simp

/-- Every line of `optKeyLineL` is a `key: value` line with a nonempty
formatted value. -/
theorem optKeyLineL_mem (k : Str) (ov : Option Str) (x : Str)
    (hx : x ∈ optKeyLineL k ov) :
    ∃ v, ov = some v ∧ v ≠ [] ∧ x = k ++ (S (": ")) ++ v := by
  rcases ov with _ | v
  · exact absurd hx (by simp [optKeyLineL])
  · simp only [optKeyLineL] at hx
    by_cases hv : v ≠ []
    · rw [if_pos hv] at hx
      rw [List.mem_singleton] at hx
      exact ⟨v, rfl, hv, hx⟩
    · rw [if_neg hv] at hx
      exact absurd hx (by simp)

theorem fmtFM_some (ot : Option Int) (v : Str)
    (h : formatTimestampForFrontmatter ot = some v) :
    ∃ t, v = formatForDatetimeLocal t := by
  unfold formatTimestampForFrontmatter at h
  rcases ot with _ | t
  · exact absurd h (by simp)
  · exact ⟨t, by simpa using h.symm⟩

theorem safeVal_line_facts (k v : Str) (hk : keyTame k = true)
    (hv : ∀ c ∈ v, safeValChar c = true) (hvne : v ≠ []) :
    lineTame (k ++ (S (": ")) ++ v) = true ∧
    trim (k ++ (S (": ")) ++ v) = k ++ (S (": ")) ++ v := by
  have hshape : k ++ (S (": ")) ++ v = k ++ (Char.ofNat 58) :: ((Char.ofNat 32) :: v) := by
    rw [show (S (": ")) = [Char.ofNat 58, Char.ofNat 32] from rfl]
    simp
  rw [hshape]
  apply keyLine_facts k _ hk
  · rw [charFree_cons, Bool.and_eq_true]
    refine ⟨by decide, ?_⟩
    rw [charFree_iff]
    exact fun c hc => (safeVal_ne c (hv c hc)).1
  · rw [charFree_cons, Bool.and_eq_true]
    refine ⟨by decide, ?_⟩
    rw [charFree_iff]
    exact fun c hc => (safeVal_ne c (hv c hc)).2
  · rw [List.reverse_cons, List.append_assoc]
    apply headNot_append isWSChar v.reverse _ (by simpa using hvne)
    apply headNot_of_all
    intro c hc
    rw [List.mem_reverse] at hc
    exact safeVal_not_ws c (hv c hc)

theorem keysTame_parts (st : LapseSettings) (h : keysTame st = true) :
    keyTame st.startTimeKey = true ∧ keyTame st.endTimeKey = true ∧
      keyTame st.entriesKey = true ∧ keyTame st.totalTimeKey = true := by
  unfold keysTame at h
  rw [Bool.and_eq_true, Bool.and_eq_true, Bool.and_eq_true] at h
  exact ⟨h.1.1.1, h.1.1.2, h.1.2, h.2⟩

theorem intRepr_charFree (i : Int) :
    charFree (Char.ofNat 10) (intRepr i) = true ∧
      charFree (Char.ofNat 36) (intRepr i) = true := by
  constructor <;> rw [charFree_iff] <;> intro c hc <;>
    rcases intRepr_chars i c hc with h2 | h2
  · exact (safeVal_ne c (safeVal_of_digit c h2)).1
  · rw [h2]; decide
  · exact (safeVal_ne c (safeVal_of_digit c h2)).2
  · rw [h2]; decide

theorem fdl_charFree (t : Int) :
    charFree (Char.ofNat 10) (formatForDatetimeLocal t) = true ∧
      charFree (Char.ofNat 36) (formatForDatetimeLocal t) = true := by
  constructor <;> rw [charFree_iff] <;> intro c hc
  · exact (safeVal_ne c (formatFDL_chars t c hc)).1
  · exact (safeVal_ne c (formatFDL_chars t c hc)).2

theorem spaceLine_facts (st : LapseSettings) (s : Str)
    (h10 : charFree (Char.ofNat 10) s = true) (h36 : charFree (Char.ofNat 36) s = true) :
    lineTame ((Char.ofNat 32) :: s) = true ∧
      keepLine st ((Char.ofNat 32) :: s) = false := by
  constructor
  · unfold lineTame
    rw [charFree_cons, charFree_cons, h10, h36, startsWith_space]
    rfl
  · unfold keepLine
    rw [show decide (indentOf ((Char.ofNat 32) :: s) = 0) = false from by
      rw [decide_eq_false_iff_not]
      exact indentOf_space s]
    simp

theorem entryTame_parts (e : TimeEntry) (he : entryTame e = true) :
    charFree (Char.ofNat 10) e.label = true ∧ charFree (Char.ofNat 36) e.label = true ∧
      ∀ t ∈ e.tags, charFree (Char.ofNat 10) t = true ∧
        charFree (Char.ofNat 36) t = true := by
  unfold entryTame at he
  rw [Bool.and_eq_true, Bool.and_eq_true] at he
  refine ⟨he.1.1, he.1.2, ?_⟩
  intro t ht
  have := List.all_eq_true.mp he.2 t ht
  rw [Bool.and_eq_true] at this
  exact this

theorem optValLineL_mem (pre : Str) (ov : Option Str) (x : Str)
    (hx : x ∈ optValLineL pre ov) : ∃ v, ov = some v ∧ v ≠ [] ∧ x = pre ++ v := by
  rcases ov with _ | v
  · exact absurd hx (by simp [optValLineL])
  · simp only [optValLineL] at hx
    by_cases hv : v ≠ []
    · rw [if_pos hv] at hx
      rw [List.mem_singleton] at hx
      exact ⟨v, rfl, hv, hx⟩
    · rw [if_neg hv] at hx
      exact absurd hx (by simp)

theorem mem_ite_singleton {c : Prop} [Decidable c] (a x : Str)
    (hx : x ∈ (if c then [a] else [])) : x = a := by
  by_cases hc : c
  · rw [if_pos hc] at hx
    exact List.mem_singleton.mp hx
  · rw [if_neg hc] at hx
    exact absurd hx (by simp)

theorem entryLine_facts (st : LapseSettings) (e : TimeEntry) (he : entryTame e = true) :
    ∀ x ∈ entryLinesL e, lineTame x = true ∧ keepLine st x = false := by
  obtain ⟨h10l, h36l, htags⟩ := entryTame_parts e he
  intro x hx
  unfold entryLinesL at hx
  simp only [List.mem_append, List.mem_singleton] at hx
  rcases hx with (((hx | hx) | hx) | hx) | hx
  · rw [hx, show (S ("  - label: \"")) ++ escapeLabel e.label ++ [Char.ofNat 34] =
      (Char.ofNat 32) :: ((S (" - label: \"")) ++ escapeLabel e.label ++ [Char.ofNat 34])
      from by
        rw [show (S ("  - label: \"")) = (Char.ofNat 32) :: (S (" - label: \"")) from rfl]
        simp]
    apply spaceLine_facts <;>
      rw [charFree_append, charFree_append, Bool.and_eq_true, Bool.and_eq_true]
    · exact ⟨⟨by decide, escapeLabel_charFree _ (by decide) (by decide) _ h10l⟩, by decide⟩
    · exact ⟨⟨by decide, escapeLabel_charFree _ (by decide) (by decide) _ h36l⟩, by decide⟩
  · obtain ⟨v, hv, hvne, hxe⟩ := optValLineL_mem _ _ x hx
    obtain ⟨t, hvt⟩ := fmtFM_some _ v hv
    rw [hxe, hvt, show (S ("    start: ")) ++ formatForDatetimeLocal t =
      (Char.ofNat 32) :: ((S ("   start: ")) ++ formatForDatetimeLocal t) from by
        rw [show (S ("    start: ")) = (Char.ofNat 32) :: (S ("   start: ")) from rfl]
        simp]
    apply spaceLine_facts <;> rw [charFree_append, Bool.and_eq_true]
    · exact ⟨by decide, (fdl_charFree t).1⟩
    · exact ⟨by decide, (fdl_charFree t).2⟩
  · obtain ⟨v, hv, hvne, hxe⟩ := optValLineL_mem _ _ x hx
    obtain ⟨t, hvt⟩ := fmtFM_some _ v hv
    rw [hxe, hvt, show (S ("    end: ")) ++ formatForDatetimeLocal t =
      (Char.ofNat 32) :: ((S ("   end: ")) ++ formatForDatetimeLocal t) from by
        rw [show (S ("    end: ")) = (Char.ofNat 32) :: (S ("   end: ")) from rfl]
        simp]
    apply spaceLine_facts <;> rw [charFree_append, Bool.and_eq_true]
    · exact ⟨by decide, (fdl_charFree t).1⟩
    · exact ⟨by decide, (fdl_charFree t).2⟩
  · rw [hx, show (S ("    duration: ")) ++ intRepr (e.duration / 1000) =
      (Char.ofNat 32) :: ((S ("   duration: ")) ++ intRepr (e.duration / 1000)) from by
        rw [show (S ("    duration: ")) = (Char.ofNat 32) :: (S ("   duration: ")) from rfl]
        simp]
    apply spaceLine_facts <;> rw [charFree_append, Bool.and_eq_true]
    · exact ⟨by decide, (intRepr_charFree _).1⟩
    · exact ⟨by decide, (intRepr_charFree _).2⟩
  · rw [mem_ite_singleton _ x hx, show (S ("    tags: ")) ++ renderTags e.tags =
      (Char.ofNat 32) :: ((S ("   tags: ")) ++ renderTags e.tags) from by
        rw [show (S ("    tags: ")) = (Char.ofNat 32) :: (S ("   tags: ")) from rfl]
        simp]
    apply spaceLine_facts <;> rw [charFree_append, Bool.and_eq_true]
    · exact ⟨by decide, renderTags_charFree _ (by decide) _
        (fun t ht => (htags t ht).1)⟩
    · exact ⟨by decide, renderTags_charFree _ (by decide) _
        (fun t ht => (htags t ht).2)⟩

theorem hhmmss_charFree (ms : Int) :
    charFree (Char.ofNat 10) (formatTimeAsHHMMSS ms) = true ∧
      charFree (Char.ofNat 36) (formatTimeAsHHMMSS ms) = true := by
  constructor <;> rw [charFree_iff] <;> intro c hc
  · exact (safeVal_ne c (hhmmss_chars ms c hc)).1
  · exact (safeVal_ne c (hhmmss_chars ms c hc)).2

theorem keyValLine_all (st : LapseSettings) (k v : Str)
    (hmem : k = st.startTimeKey ∨ k = st.endTimeKey ∨ k = st.entriesKey ∨
      k = st.totalTimeKey)
    (hk : keyTame k = true) (hv : ∀ c ∈ v, safeValChar c = true) (hvne : v ≠ []) :
    lineTame (k ++ (S (": ")) ++ v) = true ∧
      keepLine st (k ++ (S (": ")) ++ v) = false := by
  have hfacts := safeVal_line_facts k v hk hv hvne
  refine ⟨hfacts.1, ?_⟩
  have hshape : k ++ (S (": ")) ++ v =
      k ++ (Char.ofNat 58) :: ((Char.ofNat 32) :: v) := by
    rw [show (S (": ")) = [Char.ofNat 58, Char.ofNat 32] from rfl]
    simp
  have htrim := hfacts.2
  rw [hshape] at htrim ⊢
  exact keepLine_false_keyLine st k _ hmem htrim

theorem quotedValLine_all (st : LapseSettings) (k w : Str)
    (hmem : k = st.startTimeKey ∨ k = st.endTimeKey ∨ k = st.entriesKey ∨
      k = st.totalTimeKey)
    (hk : keyTame k = true)
    (h10 : charFree (Char.ofNat 10) w = true)
    (h36 : charFree (Char.ofNat 36) w = true) :
    lineTame (k ++ (S (": \"")) ++ w ++ [Char.ofNat 34]) = true ∧
      keepLine st (k ++ (S (": \"")) ++ w ++ [Char.ofNat 34]) = false := by
  have hshape : k ++ (S (": \"")) ++ w ++ [Char.ofNat 34] =
      k ++ (Char.ofNat 58) :: ((Char.ofNat 32) :: (Char.ofNat 34) ::
        (w ++ [Char.ofNat 34])) := by
    rw [show (S (": \"")) = [Char.ofNat 58, Char.ofNat 32, Char.ofNat 34] from rfl]
    simp
  rw [hshape]
  have hfacts := keyLine_facts k ((Char.ofNat 32) :: (Char.ofNat 34) ::
    (w ++ [Char.ofNat 34])) hk ?h10a ?h36a ?hlasta
  case h10a =>
    rw [charFree_cons, charFree_cons, charFree_append, h10]
    decide
  case h36a =>
    rw [charFree_cons, charFree_cons, charFree_append, h36]
    decide
  case hlasta =>
    rw [List.reverse_cons, List.reverse_cons, List.reverse_append]
    simp only [List.reverse_cons, List.reverse_nil, List.nil_append,
      List.cons_append, List.append_assoc]
    rfl
  exact ⟨hfacts.1, keepLine_false_keyLine st k _ hmem hfacts.2⟩

theorem blockLines_facts (st : LapseSettings) (pd : PageTimeData)
    (hk : keysTame st = true) (hpd : ∀ e ∈ pd.entries, entryTame e = true) :
    ∀ x ∈ blockLines st pd, lineTame x = true ∧ keepLine st x = false := by
  obtain ⟨hk1, hk2, hk3, hk4⟩ := keysTame_parts st hk
  intro x hx
  simp only [blockLines] at hx
  rcases List.mem_append.mp hx with hx | hx
  · rcases List.mem_append.mp hx with hx | hx
    · rcases List.mem_append.mp hx with hx | hx
      · obtain ⟨v, hv, hvne, hxe⟩ := optKeyLineL_mem _ _ x hx
        obtain ⟨t, hvt⟩ := fmtFM_some _ v hv
        rw [hxe, hvt]
        exact keyValLine_all st _ _ (Or.inl rfl) hk1
          (fun c hc => formatFDL_chars t c hc) (formatFDL_ne_nil t)
      · obtain ⟨v, hv, hvne, hxe⟩ := optKeyLineL_mem _ _ x hx
        obtain ⟨t, hvt⟩ := fmtFM_some _ v hv
        rw [hxe, hvt]
        exact keyValLine_all st _ _ (Or.inr (Or.inl rfl)) hk2
          (fun c hc => formatFDL_chars t c hc) (formatFDL_ne_nil t)
    · by_cases hlen : pd.entries.length > 0
      · rw [if_pos hlen] at hx
        rcases List.mem_cons.mp hx with hx | hx
        · rw [hx, show st.entriesKey ++ (S (":")) =
            st.entriesKey ++ (Char.ofNat 58) :: [] from by
              rw [show (S (":")) = [Char.ofNat 58] from rfl]]
          have hfacts := keyLine_facts st.entriesKey [] hk3 rfl rfl (by decide)
          exact ⟨hfacts.1, keepLine_false_keyLine st _ _
            (Or.inr (Or.inr (Or.inl rfl))) hfacts.2⟩
        · rcases List.mem_flatten.mp hx with ⟨lx, hlx, hxlx⟩
          rcases List.mem_map.mp hlx with ⟨e, hee, hle⟩
          rw [← hle] at hxlx
          exact entryLine_facts st e (hpd e hee) x hxlx
      · rw [if_neg hlen] at hx
        rw [List.mem_singleton] at hx
        rw [hx, show st.entriesKey ++ (S (": []")) =
          st.entriesKey ++ (Char.ofNat 58) :: (S (" []")) from by
            rw [show (S (": []")) = (Char.ofNat 58) :: (S (" []")) from rfl]]
        have hfacts := keyLine_facts st.entriesKey (S (" []")) hk3 (by decide)
          (by decide) (by decide)
        exact ⟨hfacts.1, keepLine_false_keyLine st _ _
          (Or.inr (Or.inr (Or.inl rfl))) hfacts.2⟩
  · rw [List.mem_singleton] at hx
    rw [hx]
    exact quotedValLine_all st st.totalTimeKey _ (Or.inr (Or.inr (Or.inr rfl))) hk4
      (hhmmss_charFree _).1 (hhmmss_charFree _).2

theorem charFree_joinLines (c0 : Char) (hc0 : c0 ≠ Char.ofNat 10) :
    ∀ ls : List Str, (∀ x ∈ ls, charFree c0 x = true) →
      charFree c0 (joinLines ls) = true := by
  intro ls
  induction ls with
  | nil => intro _; rfl
  | cons l rest ih =>
    intro h
    cases rest with
    | nil =>
      rw [show joinLines [l] = l from by simp [joinLines, List.intercalate]]
      exact h l (List.mem_cons_self l [])
    | cons l2 rest2 =>
      rw [joinLines_cons, charFree_append, charFree_cons, Bool.and_eq_true,
        Bool.and_eq_true]
      refine ⟨h l (List.mem_cons_self l _), decide_eq_true (Ne.symm hc0), ?_⟩
      exact ih (fun x hx => h x (List.mem_cons_of_mem l hx))

theorem nlTerm_eq_join (ls : List Str) (hne : ls ≠ []) :
    nlTerm ls = joinLines ls ++ [Char.ofNat 10] := by
  induction ls with
  | nil => exact absurd rfl hne
  | cons l rest ih =>
    cases rest with
    | nil =>
      rw [show joinLines [l] = l from by simp [joinLines, List.intercalate]]
      simp [nlTerm]
    | cons l2 rest2 =>
      rw [nlTerm_cons, joinLines_cons, ih (by simp)]
      simp

theorem joinLines_append_ne (a b : List Str) (ha : a ≠ []) (hb : b ≠ []) :
    joinLines (a ++ b) = joinLines a ++ (Char.ofNat 10) :: joinLines b := by
  induction a with
  | nil => exact absurd rfl ha
  | cons x xs ih =>
    cases xs with
    | nil =>
      rw [show joinLines [x] = x from by simp [joinLines, List.intercalate]]
      cases b with
      | nil => exact absurd rfl hb
      | cons y ys =>
        rw [show ([x] ++ y :: ys) = x :: y :: ys from rfl, joinLines_cons]
    | cons x2 xs2 =>
      have hih := ih (by simp)
      rw [show ((x :: x2 :: xs2) ++ b) = x :: ((x2 :: xs2) ++ b) from rfl]
      rw [show ((x2 :: xs2) ++ b) = x2 :: (xs2 ++ b) from rfl]
      rw [joinLines_cons]
      rw [show (x2 :: (xs2 ++ b)) = ((x2 :: xs2) ++ b) from rfl, hih]
      rw [joinLines_cons]
      simp

theorem blockLines_ne_nil (st : LapseSettings) (pd : PageTimeData) :
    blockLines st pd ≠ [] := by
  simp only [blockLines]
  intro h
  rw [List.append_eq_nil] at h
  exact absurd h.2 (by simp)

theorem matchFrontmatter_prefix (rest : Str) :
    matchFrontmatter ((S ("---\n")) ++ rest) = findFMClose rest := by
  unfold matchFrontmatter
  rw [if_pos (startsWith_append_self (S ("---\n")) rest)]
  rw [show (4 : Nat) = (S ("---\n")).length from rfl, List.drop_left]

theorem serialize_cycle (st : LapseSettings) (pd : PageTimeData)
    (hk : keysTame st = true) (hpd : ∀ e ∈ pd.entries, entryTame e = true)
    (content fm after : Str)
    (hm : matchFrontmatter content = some (fm, after))
    (hfm : ∀ x ∈ splitLines fm, lineTame x = true)
    (hne : (splitLines fm).filter (keepLine st) ≠ []) :
    matchFrontmatter (updateFrontmatter st pd content) =
      some (joinLines (filterLapseAux st false (splitLines fm) ++ blockLines st pd),
        after) ∧
    splitLines (joinLines (filterLapseAux st false (splitLines fm) ++
        blockLines st pd)) =
      filterLapseAux st false (splitLines fm) ++ blockLines st pd := by
  have hbfacts := blockLines_facts st pd hk hpd
  have hFne : filterLapseAux st false (splitLines fm) ≠ [] := by
    intro hq
    rw [← filterLapseAux_keep st (splitLines fm) false, hq] at hne
    exact hne rfl
  have hBne := blockLines_ne_nil st pd
  have hFtame : ∀ x ∈ filterLapseAux st false (splitLines fm), lineTame x = true :=
    fun x hx => hfm x (filterLapseAux_subset st (splitLines fm) false x hx)
  have hFBtame : ∀ x ∈ filterLapseAux st false (splitLines fm) ++ blockLines st pd,
      lineTame x = true := by
    intro x hx
    rcases List.mem_append.mp hx with hx | hx
    · exact hFtame x hx
    · exact (hbfacts x hx).1
  have htame2 : ∀ x ∈ filterLapseAux st false (splitLines fm) ++ blockLines st pd,
      charFree (Char.ofNat 10) x = true ∧ startsWith x (S ("---")) = false := by
    intro x hx
    have := hFBtame x hx
    unfold lineTame at this
    rw [Bool.and_eq_true, Bool.and_eq_true] at this
    exact ⟨this.1.1, by simpa using this.2⟩
  have hout : updateFrontmatter st pd content =
      (S ("---\n")) ++ (joinLines (filterLapseAux st false (splitLines fm) ++
        blockLines st pd) ++ (S ("\n---")) ++ after) := by
    simp only [updateFrontmatter, hm]
    rw [dollarExpand_id _ _ _ _ ?hdollar]
    case hdollar =>
      rw [charFree_append, charFree_append, Bool.and_eq_true, Bool.and_eq_true]
      refine ⟨⟨by decide, ?_⟩, by decide⟩
      rw [charFree_append, charFree_append, Bool.and_eq_true, Bool.and_eq_true]
      refine ⟨⟨?_, by decide⟩, ?_⟩
      · apply charFree_joinLines _ (by decide)
        intro x hx
        have := hFtame x hx
        unfold lineTame at this
        rw [Bool.and_eq_true, Bool.and_eq_true] at this
        exact this.1.2
      · rw [buildLapseFM_nlTerm]
        rw [nlTerm_eq_join _ hBne, charFree_append, Bool.and_eq_true]
        refine ⟨?_, by decide⟩
        apply charFree_joinLines _ (by decide)
        intro x hx
        have := (hbfacts x hx).1
        unfold lineTame at this
        rw [Bool.and_eq_true, Bool.and_eq_true] at this
        exact this.1.2
    rw [buildLapseFM_nlTerm, nlTerm_eq_join _ hBne]
    rw [joinLines_append_ne _ _ hFne hBne]
    simp [show (S ("\n")) = [Char.ofNat 10] from rfl,
      show (S ("\n---")) = (Char.ofNat 10) :: (S ("---")) from rfl]
  constructor
  · rw [hout, matchFrontmatter_prefix]
    exact findFMClose_joined _ (by
      intro hq
      rw [List.append_eq_nil] at hq
      exact hBne hq.2) htame2 after
  · apply splitLines_joinLines
    · intro hq
      rw [List.append_eq_nil] at hq
      exact hBne hq.2
    · intro x hx
      exact (htame2 x hx).1

/-- `n` serialize cycles. -/
def serIter (st : LapseSettings) (pd : PageTimeData) : Nat → Str → Str
  | 0, c => c
  | n + 1, c => serIter st pd n (updateFrontmatter st pd c)

theorem serIter_preserves (st : LapseSettings) (pd : PageTimeData)
    (hk : keysTame st = true) (hpd : ∀ e ∈ pd.entries, entryTame e = true) :
    ∀ (n : Nat) (content fm after : Str),
      matchFrontmatter content = some (fm, after) →
      (∀ x ∈ splitLines fm, lineTame x = true) →
      (splitLines fm).filter (keepLine st) ≠ [] →
      ∃ fm2, matchFrontmatter (serIter st pd n content) = some (fm2, after) ∧
        (splitLines fm2).filter (keepLine st) =
          (splitLines fm).filter (keepLine st) ∧
        (∀ x ∈ splitLines fm2, lineTame x = true) := by
  intro n
  induction n with
  | zero =>
    intro content fm after hm hfm hne
    exact ⟨fm, hm, rfl, hfm⟩
  | succ m ih =>
    intro content fm after hm hfm hne
    obtain ⟨h1, h2⟩ := serialize_cycle st pd hk hpd content fm after hm hfm hne
    have hbfacts := blockLines_facts st pd hk hpd
    have hkeepNew : (splitLines (joinLines (filterLapseAux st false (splitLines fm) ++
        blockLines st pd))).filter (keepLine st) =
        (splitLines fm).filter (keepLine st) := by
      rw [h2, List.filter_append]
      rw [show (blockLines st pd).filter (keepLine st) = [] from by
        rw [List.filter_eq_nil_iff]
        intro a ha
        rw [(hbfacts a ha).2]
        exact Bool.false_ne_true]
      rw [filterLapseAux_keep st (splitLines fm) false]
      simp
    have htameNew : ∀ x ∈ splitLines (joinLines (filterLapseAux st false
        (splitLines fm) ++ blockLines st pd)), lineTame x = true := by
      rw [h2]
      intro x hx
      rcases List.mem_append.mp hx with hx | hx
      · exact hfm x (filterLapseAux_subset st (splitLines fm) false x hx)
      · exact (hbfacts x hx).1
    have hneNew : (splitLines (joinLines (filterLapseAux st false (splitLines fm) ++
        blockLines st pd))).filter (keepLine st) ≠ [] := by
      rw [hkeepNew]
      exact hne
    obtain ⟨fm2, hmm, hkeq, htm⟩ := ih (updateFrontmatter st pd content) _ after h1
      htameNew hneNew
    exact ⟨fm2, hmm, by rw [hkeq, hkeepNew], htm⟩

/-- C3 (amended): with tame keys, tame entries, a tame header and a `$`-free
document, every unrelated top-level header line survives every number of
serialize cycles byte-identically, and the unrelated top-level lines keep
their relative order (their sublist is unchanged); without the `$`-freeness
the `String.replace` dollar expansion can rewrite such a line (see the
counterexample). -/
theorem c3_header_preservation_amended (st : LapseSettings) (pd : PageTimeData)
    (n : Nat) (content fm after l : Str)
    (hk : keysTame st = true) (hpd : ∀ e ∈ pd.entries, entryTame e = true)
    (hm : matchFrontmatter content = some (fm, after))
    (hfm : ∀ x ∈ splitLines fm, lineTame x = true)
    (hl : l ∈ splitLines fm) (hkeep : keepLine st l = true) :
    ∃ fm2, matchFrontmatter (serIter st pd n content) = some (fm2, after) ∧
      (splitLines fm2).filter (keepLine st) =
        (splitLines fm).filter (keepLine st) ∧
      l ∈ splitLines fm2 := by
  have hne : (splitLines fm).filter (keepLine st) ≠ [] := by
    intro hq
    have hmem : l ∈ (splitLines fm).filter (keepLine st) :=
      List.mem_filter.mpr ⟨hl, hkeep⟩
    rw [hq] at hmem
    exact absurd hmem (by simp)
  obtain ⟨fm2, h1, h2, h3⟩ := serIter_preserves st pd hk hpd n content fm after hm
    hfm hne
  refine ⟨fm2, h1, h2, ?_⟩
  have hmem2 : l ∈ (splitLines fm2).filter (keepLine st) := by
    rw [h2]
    exact List.mem_filter.mpr ⟨hl, hkeep⟩
  exact (List.mem_filter.mp hmem2).1

theorem c3_header_preservation_amended_witness :
    ∃ fm2, matchFrontmatter (serIter DEFAULT_SETTINGS
        { entries := [], totalTimeTracked := 0 } 2 (S ("---\nfoo: bar\n---\nbody"))) =
      some (fm2, S ("\nbody")) ∧
      (splitLines fm2).filter (keepLine DEFAULT_SETTINGS) =
        (splitLines (S ("foo: bar"))).filter (keepLine DEFAULT_SETTINGS) ∧
      (S ("foo: bar")) ∈ splitLines fm2 :=
  c3_header_preservation_amended DEFAULT_SETTINGS
    { entries := [], totalTimeTracked := 0 } 2 (S ("---\nfoo: bar\n---\nbody"))
    (S ("foo: bar")) (S ("\nbody")) (S ("foo: bar")) (by decide) (by simp)
    (by decide) (by decide) (by decide) (by decide)

/-- The document of the C3 counterexample: an unrelated header field whose
value holds the replacement-string sequence that JavaScript's
`String.replace` expands. -/
def c3CounterDoc : Str := S ("---\nfoo: x$`y\n---\n")

set_option maxRecDepth 8000 in
/-- C3 counterexample: the unrelated header line `foo: x$`y` is present
before one serialize cycle and on no line of the document afterwards — the
dollar sequence in its value was expanded by the replacement. -/
theorem c3_header_counterexample :
    (splitLines c3CounterDoc).contains (S ("foo: x$`y")) = true ∧
    (splitLines (updateFrontmatter DEFAULT_SETTINGS
        { entries := [], totalTimeTracked := 0 } c3CounterDoc)).contains
      (S ("foo: x$`y")) = false := by
  constructor
  · decide
  · decide

/-! ## C1: the codec round-trip -/

/-- Value of a digit string, most significant first. -/
def natOfDigits (s : Str) : Nat := s.foldl (fun a c => 10 * a + digitVal c) 0

theorem natOfDigits_aux (s : Str) :
    ∀ a : Nat, s.foldl (fun a c => 10 * a + digitVal c) a =
      a * 10 ^ s.length + natOfDigits s := by
  induction s with
  | nil => intro a; simp [natOfDigits]
  | cons c cs ih =>
    intro a
    rw [List.foldl_cons]
    rw [ih (10 * a + digitVal c)]
    rw [show natOfDigits (c :: cs) = (c :: cs).foldl (fun a c => 10 * a + digitVal c) 0
      from rfl]
    rw [List.foldl_cons, ih (10 * 0 + digitVal c)]
    simp [List.length_cons, pow_succ]
    ring

theorem natOfDigits_cons (c : Char) (cs : Str) :
    natOfDigits (c :: cs) = digitVal c * 10 ^ cs.length + natOfDigits cs := by
  rw [show natOfDigits (c :: cs) = (c :: cs).foldl (fun a c => 10 * a + digitVal c) 0
    from rfl, List.foldl_cons, natOfDigits_aux]
  simp

theorem natOfDigits_append (a b : Str) :
    natOfDigits (a ++ b) = natOfDigits a * 10 ^ b.length + natOfDigits b := by
  rw [show natOfDigits (a ++ b) = (a ++ b).foldl (fun a c => 10 * a + digitVal c) 0
    from rfl, List.foldl_append, natOfDigits_aux]
  rfl

theorem readNDigits_exact :
    ∀ (ds : Str) (rest : Str), (∀ c ∈ ds, isDigitChar c = true) →
      readNDigits ds.length (ds ++ rest) = some (natOfDigits ds, rest) := by
  intro ds
  induction ds with
  | nil => intro rest _; rfl
  | cons c cs ih =>
    intro rest h
    show readNDigits (cs.length + 1) (c :: (cs ++ rest)) = _
    unfold readNDigits
    rw [h c (List.mem_cons_self c cs)]
    rw [show (if true = true then
        match readNDigits cs.length (cs ++ rest) with
        | some (v, rest) => some (digitVal c * 10 ^ cs.length + v, rest)
        | none => none
      else none) =
        match readNDigits cs.length (cs ++ rest) with
        | some (v, rest) => some (digitVal c * 10 ^ cs.length + v, rest)
        | none => none from rfl]
    rw [ih rest (fun x hx => h x (List.mem_cons_of_mem c hx))]
    rw [natOfDigits_cons]

theorem digitVal_digitChar (n : Nat) (h : n < 10) : digitVal (digitChar n) = n := by
  interval_cases n <;> decide

theorem natRepr_small (n : Nat) (h : n < 10) : natRepr n = [digitChar n] := by
  unfold natRepr natReprAux
  rw [if_pos h]

theorem natReprAux_congr : ∀ (f : Nat) (n : Nat), n < f → natReprAux f n = natRepr n := by
  intro f
  induction f using Nat.strong_induction_on with
  | _ f ihf =>
    intro n h
    cases f with
    | zero => omega
    | succ m =>
      by_cases hn : n < 10
      · unfold natReprAux
        rw [if_pos hn, natRepr_small n hn]
      · have hdiv : n / 10 < n := Nat.div_lt_self (by omega) (by norm_num)
        unfold natReprAux
        rw [if_neg hn]
        rw [ihf m (by omega) (n / 10) (by omega)]
        rw [show natRepr n = natReprAux (n + 1) n from rfl]
        unfold natReprAux
        rw [if_neg hn]
        rw [ihf n (by omega) (n / 10) (by omega)]

theorem natRepr_step (n : Nat) (h : 10 ≤ n) :
    natRepr n = natRepr (n / 10) ++ [digitChar (n % 10)] := by
  rw [show natRepr n = natReprAux (n + 1) n from rfl]
  unfold natReprAux
  rw [if_neg (by omega)]
  rw [natReprAux_congr n (n / 10) (by
    have := Nat.div_lt_self (show 0 < n by omega) (show 1 < 10 by norm_num)
    omega)]

theorem natOfDigits_natRepr (n : Nat) : natOfDigits (natRepr n) = n := by
  induction n using Nat.strong_induction_on with
  | _ n ih =>
    by_cases hn : n < 10
    · rw [natRepr_small n hn]
      rw [show natOfDigits [digitChar n] = digitVal (digitChar n) from by
        simp [natOfDigits]]
      exact digitVal_digitChar n hn
    · rw [natRepr_step n (by omega), natOfDigits_append]
      rw [ih (n / 10) (Nat.div_lt_self (by omega) (by norm_num))]
      rw [show natOfDigits [digitChar (n % 10)] = digitVal (digitChar (n % 10)) from by
        simp [natOfDigits]]
      rw [digitVal_digitChar (n % 10) (Nat.mod_lt n (by norm_num))]
      simp
      omega

theorem natRepr_length4 (n : Nat) (h1 : 1000 ≤ n) (h2 : n ≤ 9999) :
    (natRepr n).length = 4 := by
  rw [natRepr_step n (by omega), natRepr_step (n / 10) (by omega),
    natRepr_step (n / 10 / 10) (by omega),
    natRepr_small (n / 10 / 10 / 10) (by omega)]
  simp

theorem natRepr_length_le2 (n : Nat) (h2 : n ≤ 99) : (natRepr n).length ≤ 2 := by
  by_cases hn : n < 10
  · rw [natRepr_small n hn]
    simp
  · rw [natRepr_step n (by omega), natRepr_small (n / 10) (by omega)]
    simp

theorem pad2_eq (m : Int) (h0 : 0 ≤ m) (h99 : m ≤ 99) :
    pad2 m = List.replicate (2 - (natRepr m.toNat).length) (Char.ofNat 48) ++
      natRepr m.toNat := by
  unfold pad2 padStart intRepr
  rw [if_neg (by omega), show m.natAbs = m.toNat from by omega]

theorem natOfDigits_zeros (k : Nat) (s : Str) :
    natOfDigits (List.replicate k (Char.ofNat 48) ++ s) = natOfDigits s := by
  rw [natOfDigits_append]
  rw [show natOfDigits (List.replicate k (Char.ofNat 48)) = 0 from by
    induction k with
    | zero => rfl
    | succ j ihj =>
      rw [List.replicate_succ, natOfDigits_cons, ihj]
      simp
      decide]
  simp

theorem pad2_length (m : Int) (h0 : 0 ≤ m) (h99 : m ≤ 99) : (pad2 m).length = 2 := by
  rw [pad2_eq m h0 h99]
  have hle := natRepr_length_le2 m.toNat (by omega)
  have hne : natRepr m.toNat ≠ [] := natRepr_ne_nil _
  have hpos : 1 ≤ (natRepr m.toNat).length := by
    cases hq : natRepr m.toNat with
    | nil => exact absurd hq hne
    | cons a b => simp
  simp
  omega

theorem readNDigits_pad2 (m : Int) (h0 : 0 ≤ m) (h99 : m ≤ 99) (rest : Str) :
    readNDigits 2 (pad2 m ++ rest) = some (m.toNat, rest) := by
  have hlen := pad2_length m h0 h99
  have hdig : ∀ c ∈ pad2 m, isDigitChar c = true := by
    intro c hc
    rw [pad2_eq m h0 h99] at hc
    rcases List.mem_append.mp hc with h | h
    · rw [List.eq_of_mem_replicate h]
      decide
    · exact natRepr_digits _ c h
  have := readNDigits_exact (pad2 m) rest hdig
  rw [hlen] at this
  rw [this]
  rw [pad2_eq m h0 h99, natOfDigits_zeros, natOfDigits_natRepr]

theorem readNDigits_year (n : Nat) (h1 : 1000 ≤ n) (h2 : n ≤ 9999) (rest : Str) :
    readNDigits 4 (natRepr n ++ rest) = some (n, rest) := by
  have := readNDigits_exact (natRepr n) rest (natRepr_digits n)
  rw [natRepr_length4 n h1 h2] at this
  rw [this, natOfDigits_natRepr]

theorem daysFromCivil_day (y : Int) (m d : Nat) (hd : 1 ≤ d) :
    daysFromCivil y m 1 + ((d : Int) - 1) = daysFromCivil y m d := by
  unfold daysFromCivil dfcDoy
  omega

theorem codec_roundtrip (fb : Str → Option Int) (t : Int) (hms : t % 1000 = 0)
    (hy1 : 1000 ≤ getFullYear t) (hy2 : getFullYear t ≤ 9999) :
    parseDatetimeLocal fb (formatForDatetimeLocal t) = some t := by
  obtain ⟨hround, hmo1, hmo2, hd1, hd2⟩ := daysFromCivil_civilFromDays (dayOf t)
  have hgm : getMonth0 t = ((cfdMonth (dayOf t) : Int)) - 1 := rfl
  have hgd : getDate t = ((cfdDay (dayOf t) : Int)) := rfl
  have hgy : getFullYear t = cfdYear (dayOf t) := rfl
  have hhour : 0 ≤ hourOf t ∧ hourOf t ≤ 23 := by
    unfold hourOf msOfDay
    omega
  have hmin : 0 ≤ minOf t ∧ minOf t ≤ 59 := by
    unfold minOf msOfDay
    omega
  have hsec : 0 ≤ secOf t ∧ secOf t ≤ 59 := by
    unfold secOf msOfDay
    omega
  unfold parseDatetimeLocal
  rw [if_neg (formatFDL_ne_nil t)]
  rw [show trim (formatForDatetimeLocal t) = formatForDatetimeLocal t from
    trim_id_of_ws _ ?th1 ?th2]
  case th1 =>
    exact headNot_of_all _ _ (fun c hc => safeVal_not_ws c (formatFDL_chars t c hc))
  case th2 =>
    apply headNot_of_all
    intro c hc
    rw [List.mem_reverse] at hc
    exact safeVal_not_ws c (formatFDL_chars t c hc)
  have hval : formatForDatetimeLocal t = natRepr (getFullYear t).toNat ++
      ((Char.ofNat 45) :: (pad2 (getMonth0 t + 1) ++ ((Char.ofNat 45) ::
        (pad2 (getDate t) ++ ((Char.ofNat 84) :: (pad2 (hourOf t) ++
          ((Char.ofNat 58) :: (pad2 (minOf t) ++
            ((Char.ofNat 58) :: pad2 (secOf t)))))))))) := by
    unfold formatForDatetimeLocal intRepr
    rw [if_neg (by omega), show (getFullYear t).natAbs = (getFullYear t).toNat from by
      omega]
    simp
  rw [hval]
  have he1 := readNDigits_year (getFullYear t).toNat (by omega) (by omega)
  have he2 := readNDigits_pad2 (getMonth0 t + 1) (by omega) (by omega)
  have he3 := readNDigits_pad2 (getDate t) (by omega) (by omega)
  have he4 := readNDigits_pad2 (hourOf t) (by omega) (by omega)
  have he5 := readNDigits_pad2 (minOf t) (by omega) (by omega)
  have he6 : readNDigits 2 (pad2 (secOf t)) = some ((secOf t).toNat, []) := by
    have := readNDigits_pad2 (secOf t) (by omega) (by omega) []
    simpa using this
  simp only [dtRegexMatch, he1, he2, he3, he4, he5, he6, dtSeconds, dtFraction, dtZone,
    if_pos, reduceIte, decide_True, Bool.true_or]
  rw [Option.some_inj]
  rw [show ((getFullYear t).toNat : Int) = getFullYear t from by omega]
  simp only [jsMakeMs]
  rw [show ((getMonth0 t + 1).toNat : Int) - 1 = getMonth0 t from by omega]
  have hm0r : 0 ≤ getMonth0 t ∧ getMonth0 t ≤ 11 := by omega
  rw [show getFullYear t + getMonth0 t / 12 = getFullYear t from by omega]
  rw [show (getMonth0 t % 12 + 1).toNat = cfdMonth (dayOf t) from by omega]
  rw [hgy]
  rw [show ((getDate t).toNat : Int) = (cfdDay (dayOf t) : Int) from by omega]
  rw [show ((hourOf t).toNat : Int) = hourOf t from by omega,
    show ((minOf t).toNat : Int) = minOf t from by omega,
    show ((secOf t).toNat : Int) = secOf t from by omega]
  have hdc := daysFromCivil_day (cfdYear (dayOf t)) (cfdMonth (dayOf t))
    (cfdDay (dayOf t)) hd1
  rw [hround] at hdc
  unfold dayOf at hdc
  unfold hourOf minOf secOf msOfDay dayOf
  omega

theorem digitsToNat_map (s : Str) : digitsToNat (s.map digitVal) = natOfDigits s := by
  unfold digitsToNat natOfDigits
  rw [List.foldl_map]

theorem takeDigits_all (s : Str) (h : ∀ c ∈ s, isDigitChar c = true) :
    takeDigits s = (s.map digitVal, []) := by
  induction s with
  | nil => rfl
  | cons c cs ih =>
    unfold takeDigits
    rw [h c (List.mem_cons_self c cs), ih (fun x hx => h x (List.mem_cons_of_mem c hx))]
    rfl

theorem digit_ne_lit (c : Char) (h : isDigitChar c = true) (m : Nat)
    (hm : isDigitChar (Char.ofNat m) = false) : c ≠ Char.ofNat m := by
  intro heq
  rw [heq] at h
  rw [h] at hm
  exact Bool.noConfusion hm

/-- The tail of `parseIntOpt` after sign processing. -/
def parseIntTail (neg : Bool) (s2 : Str) : Option Int :=
  match s2 with
  | c0 :: cx :: cs =>
    if c0 = (Char.ofNat 48) && (cx = (Char.ofNat 120) || cx = (Char.ofNat 88)) then
      let (ds, _) := takeHexDigits cs
      if ds = [] then none
      else some (if neg then -(hexDigitsToNat ds : Int) else (hexDigitsToNat ds : Int))
    else
      let (ds, _) := takeDigits s2
      if ds = [] then none
      else some (if neg then -(digitsToNat ds : Int) else (digitsToNat ds : Int))
  | _ =>
    let (ds, _) := takeDigits s2
    if ds = [] then none
    else some (if neg then -(digitsToNat ds : Int) else (digitsToNat ds : Int))

theorem parseIntTail_digits (neg : Bool) (s : Str) (hne : s ≠ [])
    (hd : ∀ c ∈ s, isDigitChar c = true) :
    parseIntTail neg s =
      some (if neg then -(natOfDigits s : Int) else (natOfDigits s : Int)) := by
  cases s with
  | nil => exact absurd rfl hne
  | cons c cs =>
    cases cs with
    | nil =>
      show (let (ds, _) := takeDigits [c]
        if ds = [] then none
        else some (if neg then -(digitsToNat ds : Int) else (digitsToNat ds : Int))) = _
      rw [takeDigits_all [c] (fun x hx => hd x hx)]
      show (if [digitVal c] = ([] : List Nat) then none
        else some (if neg then -(digitsToNat [digitVal c] : Int)
          else (digitsToNat [digitVal c] : Int))) = _
      rw [if_neg (by simp)]
      rw [show ([digitVal c] = ([c] : Str).map digitVal) from rfl, digitsToNat_map]
    | cons cx cs2 =>
      have hcx : isDigitChar cx = true :=
        hd cx (List.mem_cons_of_mem c (List.mem_cons_self cx cs2))
      show (if c = (Char.ofNat 48) && (cx = (Char.ofNat 120) || cx = (Char.ofNat 88))
          then
          (let (ds, _) := takeHexDigits cs2
           if ds = [] then none
           else some (if neg then -(hexDigitsToNat ds : Int)
             else (hexDigitsToNat ds : Int)))
          else
          let (ds, _) := takeDigits (c :: cx :: cs2)
          if ds = [] then none
          else some (if neg then -(digitsToNat ds : Int) else (digitsToNat ds : Int))) =
        some (if neg then -(natOfDigits (c :: cx :: cs2) : Int)
          else (natOfDigits (c :: cx :: cs2) : Int))
      rw [if_neg (by
        intro hcon
        rw [Bool.and_eq_true, Bool.or_eq_true] at hcon
        rcases hcon.2 with h2 | h2
        · exact digit_ne_lit cx hcx 120 (by decide) (of_decide_eq_true h2)
        · exact digit_ne_lit cx hcx 88 (by decide) (of_decide_eq_true h2))]
      rw [takeDigits_all (c :: cx :: cs2) hd]
      show (if (c :: cx :: cs2).map digitVal = ([] : List Nat) then none
        else some (if neg then -(digitsToNat ((c :: cx :: cs2).map digitVal) : Int)
          else (digitsToNat ((c :: cx :: cs2).map digitVal) : Int))) = _
      rw [if_neg (by simp)]
      rw [digitsToNat_map]

theorem parseIntOpt_digits (s : Str) (hne : s ≠ []) (hd : ∀ c ∈ s, isDigitChar c = true) :
    parseIntOpt s = some ((natOfDigits s : Int)) := by
  have hts : trimStart s = s :=
    dropWhile_id_of_headNot isWSChar s
      (headNot_of_all _ _ (fun c hc => safeVal_not_ws c (safeVal_of_digit c (hd c hc))))
  cases s with
  | nil => exact absurd rfl hne
  | cons c cs =>
    have hc := hd c (List.mem_cons_self c cs)
    simp only [parseIntOpt, hts]
    rw [show (if c = Char.ofNat 45 then ((true : Bool), cs)
        else if c = Char.ofNat 43 then ((false : Bool), cs)
        else ((false : Bool), c :: cs)) = ((false : Bool), c :: cs) from by
      rw [if_neg (digit_ne_lit c hc 45 (by decide)),
        if_neg (digit_ne_lit c hc 43 (by decide))]]
    have := parseIntTail_digits false (c :: cs) (by simp) hd
    rw [if_neg (by simp)] at this
    exact this

theorem parseIntOpt_neg_digits (s : Str) (hne : s ≠ [])
    (hd : ∀ c ∈ s, isDigitChar c = true) :
    parseIntOpt ((Char.ofNat 45) :: s) = some (-(natOfDigits s : Int)) := by
  have hts : trimStart ((Char.ofNat 45) :: s) = (Char.ofNat 45) :: s := by
    unfold trimStart
    rw [List.dropWhile_cons, if_neg (by decide)]
  simp only [parseIntOpt, hts]
  have := parseIntTail_digits true s hne hd
  rw [if_pos rfl] at this
  exact this

theorem parseIntOpt_intRepr (i : Int) : parseIntOpt (intRepr i) = some i := by
  by_cases hi : i < 0
  · rw [show intRepr i = (Char.ofNat 45) :: natRepr i.natAbs from by
      unfold intRepr
      rw [if_pos hi]]
    rw [parseIntOpt_neg_digits _ (natRepr_ne_nil _) (natRepr_digits _),
      natOfDigits_natRepr]
    rw [Option.some_inj]
    omega
  · rw [show intRepr i = natRepr i.natAbs from by
      unfold intRepr
      rw [if_neg hi]]
    rw [parseIntOpt_digits _ (natRepr_ne_nil _) (natRepr_digits _), natOfDigits_natRepr]
    rw [Option.some_inj]
    omega

/-- A label that round-trips: nonempty, without quote, backslash, newline or
dollar, and not beginning or ending in whitespace. -/
def safeLabel (l : Str) : Bool :=
  decide (l ≠ []) && charFree (Char.ofNat 34) l && charFree (Char.ofNat 92) l &&
    charFree (Char.ofNat 10) l && charFree (Char.ofNat 36) l &&
    headNot isWSChar l && headNot isWSChar l.reverse

/-- A tag that round-trips: printable characters only, without quote,
backslash or dollar. -/
def safeTag (t : Str) : Bool :=
  t.all (fun c => decide (32 ≤ c.toNat) && decide (c ≠ Char.ofNat 34) &&
    decide (c ≠ Char.ofNat 92) && decide (c ≠ Char.ofNat 36))

theorem escapeLabel_id (s : Str) (h34 : charFree (Char.ofNat 34) s = true)
    (h92 : charFree (Char.ofNat 92) s = true) : escapeLabel s = s := by
  induction s with
  | nil => rfl
  | cons c cs ih =>
    rw [charFree_cons, Bool.and_eq_true] at h34 h92
    have ihe := ih h34.2 h92.2
    unfold escapeLabel at ihe ⊢
    simp only [List.map_cons, List.flatten_cons]
    rw [if_neg (of_decide_eq_true h92.1)]
    simp only [List.singleton_append, List.map_cons, List.flatten_cons]
    rw [if_neg (of_decide_eq_true h34.1)]
    simp only [List.singleton_append]
    rw [show (c :: cs) = c :: cs from rfl]
    exact congrArg (List.cons c) ihe

theorem takeWhile_not34 (l : Str) (h : charFree (Char.ofNat 34) l = true) (rest : Str) :
    (l ++ (Char.ofNat 34) :: rest).takeWhile (fun c => ¬ c = (Char.ofNat 34)) = l := by
  induction l with
  | nil =>
    show ((Char.ofNat 34) :: rest).takeWhile (fun c => ¬ c = (Char.ofNat 34)) = []
    rw [List.takeWhile_cons]
    simp
  | cons c cs ih =>
    rw [charFree_cons, Bool.and_eq_true] at h
    show ((c :: (cs ++ (Char.ofNat 34) :: rest)).takeWhile
      (fun c => ¬ c = (Char.ofNat 34))) = c :: cs
    rw [List.takeWhile_cons]
    rw [if_pos (by
      rw [decide_eq_true_eq]
      exact of_decide_eq_true h.1)]
    exact congrArg (List.cons c) (ih h.2)

theorem extractLabel_round (lbl : Str) (hs : safeLabel lbl = true) :
    extractLabel ((S ("- label: \"")) ++ lbl ++ [Char.ofNat 34]) = lbl := by
  unfold safeLabel at hs
  rw [Bool.and_eq_true, Bool.and_eq_true, Bool.and_eq_true, Bool.and_eq_true,
    Bool.and_eq_true, Bool.and_eq_true] at hs
  obtain ⟨⟨⟨⟨⟨⟨hne, h34⟩, h92⟩, h10⟩, h36⟩, hh⟩, hr⟩ := hs
  unfold extractLabel
  rw [show (S ("- label: \"")) ++ lbl ++ [Char.ofNat 34] =
    (S ("- label:")) ++ ((S (" \"")) ++ lbl ++ [Char.ofNat 34]) from by
      rw [show (S ("- label: \"")) = (S ("- label:")) ++ (S (" \"")) from rfl]
      simp]
  rw [show (8 : Nat) = (S ("- label:")).length from rfl]
  rw [List.drop_left]
  rw [show (S (" \"")) ++ lbl ++ [Char.ofNat 34] =
    (Char.ofNat 32) :: (Char.ofNat 34) :: (lbl ++ [Char.ofNat 34]) from by
      rw [show (S (" \"")) = [Char.ofNat 32, Char.ofNat 34] from rfl]
      simp]
  rw [show ((Char.ofNat 32) :: (Char.ofNat 34) :: (lbl ++ [Char.ofNat 34])).dropWhile
      isWSChar = (Char.ofNat 34) :: (lbl ++ [Char.ofNat 34]) from by
    rw [List.dropWhile_cons, if_pos (by decide), List.dropWhile_cons,
      if_neg (by decide)]]
  simp only [if_pos rfl, reduceIte]
  rw [show lbl ++ [Char.ofNat 34] = lbl ++ (Char.ofNat 34) :: [] from rfl]
  rw [takeWhile_not34 lbl h34]
  exact trim_id_of_ws lbl hh hr

theorem replaceKeyWs_prefix (k r : Str) (hk : k ≠ []) :
    replaceKeyWs k (k ++ r) = r.dropWhile isWSChar := by
  cases hq : k ++ r with
  | nil => exact absurd (List.append_eq_nil.mp hq).1 hk
  | cons c cs =>
    unfold replaceKeyWs
    rw [← hq]
    rw [show k.isPrefixOf (k ++ r) = true from by
      rw [List.isPrefixOf_iff_prefix]
      exact List.prefix_append k r]
    rw [show (if true = true then ((k ++ r).drop k.length).dropWhile isWSChar
      else _) = ((k ++ r).drop k.length).dropWhile isWSChar from rfl]
    rw [List.drop_left]

theorem safeTag_parts (t : Str) (h : safeTag t = true) :
    ∀ c ∈ t, 32 ≤ c.toNat ∧ c ≠ Char.ofNat 34 ∧ c ≠ Char.ofNat 92 ∧
      c ≠ Char.ofNat 36 := by
  intro c hc
  unfold safeTag at h
  have := List.all_eq_true.mp h c hc
  rw [Bool.and_eq_true, Bool.and_eq_true, Bool.and_eq_true] at this
  exact ⟨of_decide_eq_true this.1.1.1, of_decide_eq_true this.1.1.2,
    of_decide_eq_true this.1.2, of_decide_eq_true this.2⟩

theorem jsonStringBody_safe (tg : Str) (hsafe : safeTag tg = true) (rest : Str) :
    jsonStringBody (tg ++ (Char.ofNat 34) :: rest) = some (tg, rest) := by
  induction tg with
  | nil =>
    show jsonStringBody ((Char.ofNat 34) :: rest) = some ([], rest)
    unfold jsonStringBody
    rw [if_pos rfl]
  | cons c cs ih =>
    have hparts := safeTag_parts (c :: cs) hsafe c (List.mem_cons_self c cs)
    have hcs : safeTag cs = true := by
      unfold safeTag at hsafe ⊢
      rw [List.all_cons, Bool.and_eq_true] at hsafe
      exact hsafe.2
    show jsonStringBody (c :: (cs ++ (Char.ofNat 34) :: rest)) = some (c :: cs, rest)
    unfold jsonStringBody
    rw [if_neg hparts.2.1, if_neg hparts.2.2.1, if_neg (by omega)]
    rw [ih hcs]

/-- The rendered text of a tag list after the opening `["`. -/
def innerAfterQuote : List Str → Str
  | [] => [Char.ofNat 93]
  | [t] => t ++ [Char.ofNat 34] ++ [Char.ofNat 93]
  | t :: t2 :: rest =>
    t ++ [Char.ofNat 34] ++ [Char.ofNat 44, Char.ofNat 32, Char.ofNat 34] ++
      innerAfterQuote (t2 :: rest)

theorem intercalate_quotes (ts : List Str) (hne : ts ≠ []) :
    List.intercalate (S (", "))
        (ts.map fun t => [Char.ofNat 34] ++ t ++ [Char.ofNat 34]) ++ [Char.ofNat 93] =
      [Char.ofNat 34] ++ innerAfterQuote ts := by
  induction ts with
  | nil => exact absurd rfl hne
  | cons t rest ih =>
    cases rest with
    | nil =>
      rw [show List.intercalate (S (", "))
        (([t] : List Str).map fun t => [Char.ofNat 34] ++ t ++ [Char.ofNat 34]) =
        [Char.ofNat 34] ++ t ++ [Char.ofNat 34] from by
          simp [List.intercalate, List.intersperse_singleton]]
      show _ = [Char.ofNat 34] ++ (t ++ [Char.ofNat 34] ++ [Char.ofNat 93])
      simp
    | cons t2 rest2 =>
      have ih2 := ih (by simp)
      rw [show List.intercalate (S (", "))
        ((t :: t2 :: rest2).map fun t => [Char.ofNat 34] ++ t ++ [Char.ofNat 34]) =
        ([Char.ofNat 34] ++ t ++ [Char.ofNat 34]) ++ (S (", ")) ++
          List.intercalate (S (", "))
            ((t2 :: rest2).map fun t => [Char.ofNat 34] ++ t ++ [Char.ofNat 34]) from by
        simp [List.intercalate, List.intersperse_cons_cons]]
      show _ = [Char.ofNat 34] ++ (t ++ [Char.ofNat 34] ++
        [Char.ofNat 44, Char.ofNat 32, Char.ofNat 34] ++ innerAfterQuote (t2 :: rest2))
      simp only [List.append_assoc] at ih2 ⊢
      rw [ih2]
      rw [show (S (", ")) = [Char.ofNat 44, Char.ofNat 32] from rfl]
      simp

theorem renderTags_shape (ts : List Str) (hne : ts ≠ []) :
    renderTags ts = [Char.ofNat 91, Char.ofNat 34] ++ innerAfterQuote ts := by
  unfold renderTags
  rw [List.append_assoc, intercalate_quotes ts hne]
  rfl

theorem jsonArrayElems_round (ts : List Str) (hne : ts ≠ [])
    (hsafe : ∀ t ∈ ts, safeTag t = true) :
    ∀ fuel, ts.length ≤ fuel → jsonArrayElems fuel (innerAfterQuote ts) = some (ts, []) := by
  induction ts with
  | nil => exact absurd rfl hne
  | cons t rest ih =>
    intro fuel hfuel
    cases fuel with
    | zero => simp at hfuel
    | succ f =>
      cases rest with
      | nil =>
        show jsonArrayElems (f + 1) (t ++ [Char.ofNat 34] ++ [Char.ofNat 93]) = _
        rw [show t ++ [Char.ofNat 34] ++ [Char.ofNat 93] =
          t ++ (Char.ofNat 34) :: [Char.ofNat 93] from by simp]
        have hb := jsonStringBody_safe t (hsafe t (List.mem_cons_self t [])) [Char.ofNat 93]
        simp only [jsonArrayElems, hb]
        rw [show List.dropWhile isJsonWS [Char.ofNat 93] = [Char.ofNat 93] from by
          rw [List.dropWhile_cons, if_neg (by decide)]]
        simp
      | cons t2 rest2 =>
        show jsonArrayElems (f + 1) (t ++ [Char.ofNat 34] ++
          [Char.ofNat 44, Char.ofNat 32, Char.ofNat 34] ++
          innerAfterQuote (t2 :: rest2)) = _
        rw [show t ++ [Char.ofNat 34] ++
          [Char.ofNat 44, Char.ofNat 32, Char.ofNat 34] ++
          innerAfterQuote (t2 :: rest2) = t ++ (Char.ofNat 34) ::
            ((Char.ofNat 44) :: (Char.ofNat 32) :: (Char.ofNat 34) ::
              innerAfterQuote (t2 :: rest2)) from by simp]
        have hb := jsonStringBody_safe t (hsafe t (List.mem_cons_self t _))
          ((Char.ofNat 44) :: (Char.ofNat 32) :: (Char.ofNat 34) ::
            innerAfterQuote (t2 :: rest2))
        simp only [jsonArrayElems, hb]
        rw [show List.dropWhile isJsonWS ((Char.ofNat 44) :: (Char.ofNat 32) ::
          (Char.ofNat 34) :: innerAfterQuote (t2 :: rest2)) =
          (Char.ofNat 44) :: (Char.ofNat 32) :: (Char.ofNat 34) ::
            innerAfterQuote (t2 :: rest2) from by
          rw [List.dropWhile_cons, if_neg (by decide)]]
        have hrec := ih (by simp) (fun x hx => hsafe x (List.mem_cons_of_mem t hx)) f (by
          simp at hfuel ⊢
          omega)
        simp [hrec, show List.dropWhile isJsonWS ((Char.ofNat 32) :: (Char.ofNat 34) ::
          innerAfterQuote (t2 :: rest2)) =
          (Char.ofNat 34) :: innerAfterQuote (t2 :: rest2) from by
          rw [List.dropWhile_cons, if_pos (by decide), List.dropWhile_cons,
            if_neg (by decide)]]

theorem innerAfterQuote_length (ts : List Str) : ts.length ≤ (innerAfterQuote ts).length := by
  induction ts with
  | nil => simp [innerAfterQuote]
  | cons t rest ih =>
    cases rest with
    | nil => simp [innerAfterQuote]
    | cons t2 rest2 =>
      show (t :: t2 :: rest2).length ≤ (t ++ [Char.ofNat 34] ++
        [Char.ofNat 44, Char.ofNat 32, Char.ofNat 34] ++
        innerAfterQuote (t2 :: rest2)).length
      simp at ih ⊢
      omega

theorem jsonParse_renderTags (ts : List Str) (hne : ts ≠ [])
    (hsafe : ∀ t ∈ ts, safeTag t = true) :
    jsonParseStrArray (renderTags ts) = some ts := by
  rw [renderTags_shape ts hne]
  unfold jsonParseStrArray
  rw [show List.dropWhile isJsonWS ([Char.ofNat 91, Char.ofNat 34] ++
    innerAfterQuote ts) = (Char.ofNat 91) :: ((Char.ofNat 34) ::
      innerAfterQuote ts) from by
    rw [show [Char.ofNat 91, Char.ofNat 34] ++ innerAfterQuote ts =
      (Char.ofNat 91) :: ((Char.ofNat 34) :: innerAfterQuote ts) from by simp]
    rw [List.dropWhile_cons, if_neg (by decide)]]
  simp only []
  rw [if_pos trivial]
  rw [show List.dropWhile isJsonWS ((Char.ofNat 34) :: innerAfterQuote ts) =
    (Char.ofNat 34) :: innerAfterQuote ts from by
    rw [List.dropWhile_cons, if_neg (by decide)]]
  have hrt := jsonArrayElems_round ts hne hsafe ((innerAfterQuote ts).length + 1) (by
    have := innerAfterQuote_length ts
    omega)
  simp [hrt]

theorem trim_cons_ws (c : Char) (hc : isWSChar c = true) (s : Str) :
    trim (c :: s) = trim s := by
  unfold trim trimStart
  rw [List.dropWhile_cons, if_pos hc]

theorem indentOf_cons_ws (c : Char) (hc : isWSChar c = true) (s : Str) :
    indentOf (c :: s) = indentOf s + 1 := by
  unfold indentOf trimStart
  rw [List.dropWhile_cons, if_pos hc]
  have := List.Sublist.length_le (List.dropWhile_sublist (p := isWSChar) (l := s))
  simp only [List.length_cons]
  omega

theorem indentOf_cons_nonws (c : Char) (hc : isWSChar c = false) (s : Str) :
    indentOf (c :: s) = 0 := by
  unfold indentOf trimStart
  rw [List.dropWhile_cons, hc]
  simp

theorem sw_false_head (c d : Char) (s pre : Str) (h : (d == c) = false) :
    startsWith (c :: s) (d :: pre) = false := by
  rw [startsWith_cons, h]
  rfl

theorem flushCurrent_fields (fb : Str → Option Int) (fp : Str) (now : Int)
    (ps : ParseState) :
    (flushCurrent fb fp now ps).inEntries = ps.inEntries ∧
    (flushCurrent fb fp now ps).collecting = ps.collecting ∧
    (flushCurrent fb fp now ps).current =
      (match ps.current with | some _ => none | none => none) := by
  unfold flushCurrent
  rcases hq : ps.current with _ | b <;> simp [hq]

/-- One step on a top-level line that is not the entries key, outside the
entries block: no effect. -/
theorem step_inactive (fb : Str → Option Int) (fp : Str) (now : Int)
    (cur : Option EntryBuilder) (acc : List TimeEntry) (l : Str)
    (hno : startsWith (trim l) ((S ("lapseEntries")) ++ (S (":"))) = false) :
    parseStep DEFAULT_SETTINGS fb fp now
      { inEntries := false, current := cur, entries := acc, collecting := none } l =
      { inEntries := false, current := cur, entries := acc, collecting := none } := by
  unfold parseStep
  simp only []
  unfold parseStepCore
  rw [show DEFAULT_SETTINGS.entriesKey = (S ("lapseEntries")) from rfl]
  rw [if_neg (by
    rw [hno]
    exact fun hcon => Bool.noConfusion hcon)]
  rw [if_neg (by
    intro hcon
    simp at hcon)]

/-- One step on the `lapseEntries:` header line: enter the entries block. -/
theorem step_header (fb : Str → Option Int) (fp : Str) (now : Int) (b1 : Bool)
    (cur : Option EntryBuilder) (acc : List TimeEntry) (l : Str)
    (hyes : startsWith (trim l) ((S ("lapseEntries")) ++ (S (":"))) = true) :
    parseStep DEFAULT_SETTINGS fb fp now
      { inEntries := b1, current := cur, entries := acc, collecting := none } l =
      { inEntries := true, current := cur, entries := acc, collecting := none } := by
  unfold parseStep
  simp only []
  unfold parseStepCore
  rw [show DEFAULT_SETTINGS.entriesKey = (S ("lapseEntries")) from rfl]
  rw [if_pos hyes]

theorem headNot_cons_eval (p : Char → Bool) (c : Char) (hc : p c = false) (s : Str) :
    headNot p (c :: s) = true := by
  show (!(p c)) = true
  rw [hc]
  rfl

theorem headNot_snoc (p : Char → Bool) (d : Char) (hd : p d = false) (X : Str) :
    headNot p ((X ++ [d]).reverse) = true := by
  rw [List.reverse_append]
  show (!(p d)) = true
  rw [hd]
  rfl

theorem safeLabel_parts (l : Str) (h : safeLabel l = true) :
    l ≠ [] ∧ charFree (Char.ofNat 34) l = true ∧ charFree (Char.ofNat 92) l = true ∧
      charFree (Char.ofNat 10) l = true ∧ charFree (Char.ofNat 36) l = true ∧
      headNot isWSChar l = true ∧ headNot isWSChar l.reverse = true := by
  unfold safeLabel at h
  rw [Bool.and_eq_true, Bool.and_eq_true, Bool.and_eq_true, Bool.and_eq_true,
    Bool.and_eq_true, Bool.and_eq_true] at h
  exact ⟨of_decide_eq_true h.1.1.1.1.1.1, h.1.1.1.1.1.2, h.1.1.1.1.2, h.1.1.1.2,
    h.1.1.2, h.1.2, h.2⟩

theorem trim_sp2_line (rest : Str) (hh : headNot isWSChar rest = true)
    (hr : headNot isWSChar rest.reverse = true) :
    trim ((Char.ofNat 32) :: (Char.ofNat 32) :: rest) = rest := by
  rw [trim_cons_ws _ (by decide), trim_cons_ws _ (by decide)]
  exact trim_id_of_ws rest hh hr

theorem trim_sp4_line (rest : Str) (hh : headNot isWSChar rest = true)
    (hr : headNot isWSChar rest.reverse = true) :
    trim ((Char.ofNat 32) :: (Char.ofNat 32) :: (Char.ofNat 32) :: (Char.ofNat 32) ::
      rest) = rest := by
  rw [trim_cons_ws _ (by decide), trim_cons_ws _ (by decide),
    trim_cons_ws _ (by decide), trim_cons_ws _ (by decide)]
  exact trim_id_of_ws rest hh hr

theorem indentOf_sp2 (c : Char) (hc : isWSChar c = false) (s : Str) :
    indentOf ((Char.ofNat 32) :: (Char.ofNat 32) :: c :: s) = 2 := by
  rw [indentOf_cons_ws _ (by decide), indentOf_cons_ws _ (by decide),
    indentOf_cons_nonws c hc]

theorem indentOf_sp4 (c : Char) (hc : isWSChar c = false) (s : Str) :
    indentOf ((Char.ofNat 32) :: (Char.ofNat 32) :: (Char.ofNat 32) :: (Char.ofNat 32)
      :: c :: s) = 4 := by
  rw [indentOf_cons_ws _ (by decide), indentOf_cons_ws _ (by decide),
    indentOf_cons_ws _ (by decide), indentOf_cons_ws _ (by decide),
    indentOf_cons_nonws c hc]

/-- One step on an entry's `- label:` line. -/
theorem step_label (fb : Str → Option Int) (fp : Str) (now : Int)
    (cur : Option EntryBuilder) (acc : List TimeEntry) (lbl : Str)
    (hs : safeLabel lbl = true) :
    parseStep DEFAULT_SETTINGS fb fp now
      { inEntries := true, current := cur, entries := acc, collecting := none }
      ((S ("  - label: \"")) ++ lbl ++ [Char.ofNat 34]) =
    { inEntries := true,
      current := some { label := lbl, start := none, endv := none, duration := none, tags := none },
      entries := (flushCurrent fb fp now { inEntries := true, current := cur, entries := acc, collecting := none }).entries,
      collecting := none } := by
  obtain ⟨hne, h34, h92, h10, h36, hh, hrev⟩ := safeLabel_parts lbl hs
  have hline : (S ("  - label: \"")) ++ lbl ++ [Char.ofNat 34] =
      (Char.ofNat 32) :: (Char.ofNat 32) ::
        ((S ("- label: \"")) ++ lbl ++ [Char.ofNat 34]) := by
    rw [show (S ("  - label: \"")) =
      (Char.ofNat 32) :: (Char.ofNat 32) :: (S ("- label: \"")) from rfl]
    simp
  have hTcons : (S ("- label: \"")) ++ lbl ++ [Char.ofNat 34] =
      (Char.ofNat 45) :: ((S (" label: \"")) ++ lbl ++ [Char.ofNat 34]) := by
    rw [show (S ("- label: \"")) = (Char.ofNat 45) :: (S (" label: \"")) from rfl]
    simp
  have htrim : trim ((S ("  - label: \"")) ++ lbl ++ [Char.ofNat 34]) =
      (S ("- label: \"")) ++ lbl ++ [Char.ofNat 34] := by
    rw [hline]
    apply trim_sp2_line
    · rw [hTcons]
      exact headNot_cons_eval _ _ (by decide) _
    · rw [show (S ("- label: \"")) ++ lbl ++ [Char.ofNat 34] =
        ((S ("- label: \"")) ++ lbl) ++ [Char.ofNat 34] from by simp]
      exact headNot_snoc _ _ (by decide) _
  have hind : indentOf ((S ("  - label: \"")) ++ lbl ++ [Char.ofNat 34]) = 2 := by
    rw [hline, hTcons]
    exact indentOf_sp2 _ (by decide) _
  unfold parseStep
  simp only []
  unfold parseStepCore
  rw [show DEFAULT_SETTINGS.entriesKey = (S ("lapseEntries")) from rfl]
  rw [htrim, hind]
  rw [if_neg (by
    rw [hTcons, show (S ("lapseEntries")) ++ (S (":")) =
      (Char.ofNat 108) :: (S ("apseEntries:")) from rfl]
    rw [sw_false_head _ _ _ _ (by decide)]
    exact fun hcon => Bool.noConfusion hcon)]
  rw [if_pos rfl]
  rw [if_neg (by
    intro hcon
    omega)]
  rw [if_pos (by
    rw [show (S ("- label: \"")) ++ lbl ++ [Char.ofNat 34] =
      (S ("- label:")) ++ ((S (" \"")) ++ lbl ++ [Char.ofNat 34]) from by
        rw [show (S ("- label: \"")) = (S ("- label:")) ++ (S (" \"")) from rfl]
        simp]
    exact startsWith_append_self _ _)]
  rw [extractLabel_round lbl hs]
  rcases hfq : flushCurrent fb fp now { inEntries := true, current := cur, entries := acc, collecting := none } with ⟨fi, fc, fe, fcol⟩
  have h1 := (flushCurrent_fields fb fp now { inEntries := true, current := cur, entries := acc, collecting := none }).1
  have h2 := (flushCurrent_fields fb fp now { inEntries := true, current := cur, entries := acc, collecting := none }).2.1
  rw [hfq] at h1 h2
  simp only [] at h1 h2
  rw [h1, h2]

/-- One step on an entry's `start:` value line. -/
theorem step_start (fb : Str → Option Int) (fp : Str) (now : Int)
    (b : EntryBuilder) (acc : List TimeEntry) (v : Str)
    (hv : ∀ c ∈ v, safeValChar c = true) (hvne : v ≠ []) :
    parseStep DEFAULT_SETTINGS fb fp now
      { inEntries := true, current := some b, entries := acc, collecting := none }
      ((S ("    start: ")) ++ v) =
    { inEntries := true, current := some { b with start := some v }, entries := acc, collecting := none } := by
  have hvh : headNot isWSChar v = true :=
    headNot_of_all _ _ (fun c hc => safeVal_not_ws c (hv c hc))
  have hvr : headNot isWSChar v.reverse = true :=
    headNot_of_all _ _ (fun c hc => safeVal_not_ws c (hv c (List.mem_reverse.mp hc)))
  have hb1 : (S ("    start: ")) ++ v = (Char.ofNat 32) :: (Char.ofNat 32) ::
      (Char.ofNat 32) :: (Char.ofNat 32) :: ((S ("start: ")) ++ v) := by
    rw [show (S ("    start: ")) = (Char.ofNat 32) :: (Char.ofNat 32) ::
      (Char.ofNat 32) :: (Char.ofNat 32) :: (S ("start: ")) from rfl]
    simp
  have hb2 : (S ("start: ")) ++ v = (Char.ofNat 115) :: ((S ("tart: ")) ++ v) := by
    rw [show (S ("start: ")) = (Char.ofNat 115) :: (S ("tart: ")) from rfl]
    simp
  have hb3 : (S ("start: ")) ++ v = (S ("start:")) ++ ((Char.ofNat 32) :: v) := by
    rw [show (S ("start: ")) = (S ("start:")) ++ [Char.ofNat 32] from rfl]
    simp
  have hhead : headNot isWSChar ((S ("start: ")) ++ v) = true := by
    rw [hb2]
    exact headNot_cons_eval _ _ (by decide) _
  have hrev : headNot isWSChar ((S ("start: ")) ++ v).reverse = true := by
    rw [List.reverse_append]
    exact headNot_append _ _ _ (by simpa using hvne) hvr
  have htrim : trim ((S ("    start: ")) ++ v) = (S ("start: ")) ++ v := by
    rw [hb1]
    exact trim_sp4_line _ hhead hrev
  have hind : indentOf ((S ("    start: ")) ++ v) = 4 := by
    rw [hb1, hb2]
    exact indentOf_sp4 _ (by decide) _
  have hrep : trim (replaceKeyWs (S ("start:")) ((S ("start: ")) ++ v)) = v := by
    rw [hb3, replaceKeyWs_prefix _ _ (by decide)]
    rw [List.dropWhile_cons, if_pos (by decide)]
    rw [dropWhile_id_of_headNot isWSChar v hvh]
    exact trim_id_of_ws v hvh hvr
  have hsw1 : startsWith ((S ("start: ")) ++ v)
      ((S ("lapseEntries")) ++ (S (":"))) = false := by
    rw [hb2, show (S ("lapseEntries")) ++ (S (":")) =
      (Char.ofNat 108) :: (S ("apseEntries:")) from rfl]
    exact sw_false_head _ _ _ _ (by decide)
  have hsw4 : startsWith ((S ("start: ")) ++ v) (S ("- label:")) = false := by
    rw [hb2, show (S ("- label:")) = (Char.ofNat 45) :: (S (" label:")) from rfl]
    exact sw_false_head _ _ _ _ (by decide)
  unfold parseStep
  simp only []
  unfold parseStepCore
  rw [show DEFAULT_SETTINGS.entriesKey = (S ("lapseEntries")) from rfl]
  rw [htrim, hind]
  rw [if_neg (by
    rw [hsw1]
    exact fun hcon => Bool.noConfusion hcon)]
  rw [if_pos rfl]
  rw [if_neg (by
    intro hcon
    omega)]
  rw [if_neg (by
    rw [hsw4]
    exact fun hcon => Bool.noConfusion hcon)]
  rw [if_pos ⟨by
    rw [hb3]
    exact startsWith_append_self _ _, rfl⟩]
  rw [hrep]
  rfl

/-- One step on an entry's `end:` value line. -/
theorem step_end (fb : Str → Option Int) (fp : Str) (now : Int)
    (b : EntryBuilder) (acc : List TimeEntry) (v : Str)
    (hv : ∀ c ∈ v, safeValChar c = true) (hvne : v ≠ []) :
    parseStep DEFAULT_SETTINGS fb fp now
      { inEntries := true, current := some b, entries := acc, collecting := none }
      ((S ("    end: ")) ++ v) =
    { inEntries := true, current := some { b with endv := some v }, entries := acc, collecting := none } := by
  have hvh : headNot isWSChar v = true :=
    headNot_of_all _ _ (fun c hc => safeVal_not_ws c (hv c hc))
  have hvr : headNot isWSChar v.reverse = true :=
    headNot_of_all _ _ (fun c hc => safeVal_not_ws c (hv c (List.mem_reverse.mp hc)))
  have hb1 : (S ("    end: ")) ++ v = (Char.ofNat 32) :: (Char.ofNat 32) ::
      (Char.ofNat 32) :: (Char.ofNat 32) :: ((S ("end: ")) ++ v) := by
    rw [show (S ("    end: ")) = (Char.ofNat 32) :: (Char.ofNat 32) ::
      (Char.ofNat 32) :: (Char.ofNat 32) :: (S ("end: ")) from rfl]
    simp
  have hb2 : (S ("end: ")) ++ v = (Char.ofNat 101) :: ((S ("nd: ")) ++ v) := by
    rw [show (S ("end: ")) = (Char.ofNat 101) :: (S ("nd: ")) from rfl]
    simp
  have hb3 : (S ("end: ")) ++ v = (S ("end:")) ++ ((Char.ofNat 32) :: v) := by
    rw [show (S ("end: ")) = (S ("end:")) ++ [Char.ofNat 32] from rfl]
    simp
  have hhead : headNot isWSChar ((S ("end: ")) ++ v) = true := by
    rw [hb2]
    exact headNot_cons_eval _ _ (by decide) _
  have hrev : headNot isWSChar ((S ("end: ")) ++ v).reverse = true := by
    rw [List.reverse_append]
    exact headNot_append _ _ _ (by simpa using hvne) hvr
  have htrim : trim ((S ("    end: ")) ++ v) = (S ("end: ")) ++ v := by
    rw [hb1]
    exact trim_sp4_line _ hhead hrev
  have hind : indentOf ((S ("    end: ")) ++ v) = 4 := by
    rw [hb1, hb2]
    exact indentOf_sp4 _ (by decide) _
  have hrep : trim (replaceKeyWs (S ("end:")) ((S ("end: ")) ++ v)) = v := by
    rw [hb3, replaceKeyWs_prefix _ _ (by decide)]
    rw [List.dropWhile_cons, if_pos (by decide)]
    rw [dropWhile_id_of_headNot isWSChar v hvh]
    exact trim_id_of_ws v hvh hvr
  have hsw1 : startsWith ((S ("end: ")) ++ v)
      ((S ("lapseEntries")) ++ (S (":"))) = false := by
    rw [hb2, show (S ("lapseEntries")) ++ (S (":")) =
      (Char.ofNat 108) :: (S ("apseEntries:")) from rfl]
    exact sw_false_head _ _ _ _ (by decide)
  have hsw4 : startsWith ((S ("end: ")) ++ v) (S ("- label:")) = false := by
    rw [hb2, show (S ("- label:")) = (Char.ofNat 45) :: (S (" label:")) from rfl]
    exact sw_false_head _ _ _ _ (by decide)
  have hsw5 : startsWith ((S ("end: ")) ++ v) (S ("start:")) = false := by
    rw [hb2, show (S ("start:")) = (Char.ofNat 115) :: (S ("tart:")) from rfl]
    exact sw_false_head _ _ _ _ (by decide)
  unfold parseStep
  simp only []
  unfold parseStepCore
  rw [show DEFAULT_SETTINGS.entriesKey = (S ("lapseEntries")) from rfl]
  rw [htrim, hind]
  rw [if_neg (by
    rw [hsw1]
    exact fun hcon => Bool.noConfusion hcon)]
  rw [if_pos rfl]
  rw [if_neg (by
    intro hcon
    omega)]
  rw [if_neg (by
    rw [hsw4]
    exact fun hcon => Bool.noConfusion hcon)]
  rw [if_neg (fun hcon => by
    rw [hsw5] at hcon
    exact Bool.noConfusion hcon.1)]
  rw [if_pos ⟨by
    rw [hb3]
    exact startsWith_append_self _ _, rfl⟩]
  rw [hrep]
  rw [if_neg hvne]
  rfl

/-- One step on an entry's `duration:` value line. -/
theorem step_duration (fb : Str → Option Int) (fp : Str) (now : Int)
    (b : EntryBuilder) (acc : List TimeEntry) (d : Int) :
    parseStep DEFAULT_SETTINGS fb fp now
      { inEntries := true, current := some b, entries := acc, collecting := none }
      ((S ("    duration: ")) ++ intRepr d) =
    { inEntries := true, current := some { b with duration := some d }, entries := acc, collecting := none } := by
  have hv : ∀ c ∈ intRepr d, safeValChar c = true :=
    fun c hc => safeVal_of_intRepr c d hc
  have hvne : intRepr d ≠ [] := intRepr_ne_nil d
  have hvh : headNot isWSChar (intRepr d) = true :=
    headNot_of_all _ _ (fun c hc => safeVal_not_ws c (hv c hc))
  have hvr : headNot isWSChar (intRepr d).reverse = true :=
    headNot_of_all _ _ (fun c hc => safeVal_not_ws c (hv c (List.mem_reverse.mp hc)))
  have hb1 : (S ("    duration: ")) ++ intRepr d = (Char.ofNat 32) :: (Char.ofNat 32) ::
      (Char.ofNat 32) :: (Char.ofNat 32) :: ((S ("duration: ")) ++ intRepr d) := by
    rw [show (S ("    duration: ")) = (Char.ofNat 32) :: (Char.ofNat 32) ::
      (Char.ofNat 32) :: (Char.ofNat 32) :: (S ("duration: ")) from rfl]
    simp
  have hb2 : (S ("duration: ")) ++ intRepr d =
      (Char.ofNat 100) :: ((S ("uration: ")) ++ intRepr d) := by
    rw [show (S ("duration: ")) = (Char.ofNat 100) :: (S ("uration: ")) from rfl]
    simp
  have hb3 : (S ("duration: ")) ++ intRepr d =
      (S ("duration:")) ++ ((Char.ofNat 32) :: intRepr d) := by
    rw [show (S ("duration: ")) = (S ("duration:")) ++ [Char.ofNat 32] from rfl]
    simp
  have hhead : headNot isWSChar ((S ("duration: ")) ++ intRepr d) = true := by
    rw [hb2]
    exact headNot_cons_eval _ _ (by decide) _
  have hrev : headNot isWSChar ((S ("duration: ")) ++ intRepr d).reverse = true := by
    rw [List.reverse_append]
    exact headNot_append _ _ _ (by simpa using hvne) hvr
  have htrim : trim ((S ("    duration: ")) ++ intRepr d) =
      (S ("duration: ")) ++ intRepr d := by
    rw [hb1]
    exact trim_sp4_line _ hhead hrev
  have hind : indentOf ((S ("    duration: ")) ++ intRepr d) = 4 := by
    rw [hb1, hb2]
    exact indentOf_sp4 _ (by decide) _
  have hrep : trim (replaceKeyWs (S ("duration:"))
      ((S ("duration: ")) ++ intRepr d)) = intRepr d := by
    rw [hb3, replaceKeyWs_prefix _ _ (by decide)]
    rw [List.dropWhile_cons, if_pos (by decide)]
    rw [dropWhile_id_of_headNot isWSChar (intRepr d) hvh]
    exact trim_id_of_ws (intRepr d) hvh hvr
  have hsw1 : startsWith ((S ("duration: ")) ++ intRepr d)
      ((S ("lapseEntries")) ++ (S (":"))) = false := by
    rw [hb2, show (S ("lapseEntries")) ++ (S (":")) =
      (Char.ofNat 108) :: (S ("apseEntries:")) from rfl]
    exact sw_false_head _ _ _ _ (by decide)
  have hsw4 : startsWith ((S ("duration: ")) ++ intRepr d) (S ("- label:")) = false := by
    rw [hb2, show (S ("- label:")) = (Char.ofNat 45) :: (S (" label:")) from rfl]
    exact sw_false_head _ _ _ _ (by decide)
  have hsw5 : startsWith ((S ("duration: ")) ++ intRepr d) (S ("start:")) = false := by
    rw [hb2, show (S ("start:")) = (Char.ofNat 115) :: (S ("tart:")) from rfl]
    exact sw_false_head _ _ _ _ (by decide)
  have hsw6 : startsWith ((S ("duration: ")) ++ intRepr d) (S ("end:")) = false := by
    rw [hb2, show (S ("end:")) = (Char.ofNat 101) :: (S ("nd:")) from rfl]
    exact sw_false_head _ _ _ _ (by decide)
  unfold parseStep
  simp only []
  unfold parseStepCore
  rw [show DEFAULT_SETTINGS.entriesKey = (S ("lapseEntries")) from rfl]
  rw [htrim, hind]
  rw [if_neg (by
    rw [hsw1]
    exact fun hcon => Bool.noConfusion hcon)]
  rw [if_pos rfl]
  rw [if_neg (by
    intro hcon
    omega)]
  rw [if_neg (by
    rw [hsw4]
    exact fun hcon => Bool.noConfusion hcon)]
  rw [if_neg (fun hcon => by
    rw [hsw5] at hcon
    exact Bool.noConfusion hcon.1)]
  rw [if_neg (fun hcon => by
    rw [hsw6] at hcon
    exact Bool.noConfusion hcon.1)]
  rw [if_pos ⟨by
    rw [hb3]
    exact startsWith_append_self _ _, rfl⟩]
  rw [hrep]
  rw [parseIntOpt_intRepr d]
  rfl

/-- One step on an entry's inline `tags: [...]` line. -/
theorem step_tags (fb : Str → Option Int) (fp : Str) (now : Int)
    (b : EntryBuilder) (acc : List TimeEntry) (ts : List Str)
    (hne : ts ≠ []) (hsafe : ∀ t ∈ ts, safeTag t = true) :
    parseStep DEFAULT_SETTINGS fb fp now
      { inEntries := true, current := some b, entries := acc, collecting := none }
      ((S ("    tags: ")) ++ renderTags ts) =
    { inEntries := true, current := some { b with tags := some ts }, entries := acc, collecting := none } := by
  have hvne : renderTags ts ≠ [] := by
    rw [renderTags_shape ts hne]
    simp
  have hvh : headNot isWSChar (renderTags ts) = true := by
    rw [renderTags_shape ts hne]
    exact headNot_cons_eval _ _ (by decide) _
  have hvr : headNot isWSChar (renderTags ts).reverse = true := by
    rw [show renderTags ts = ([Char.ofNat 91] ++ List.intercalate (S (", "))
      (ts.map fun t => [Char.ofNat 34] ++ t ++ [Char.ofNat 34])) ++ [Char.ofNat 93]
      from rfl]
    exact headNot_snoc _ _ (by decide) _
  have hb1 : (S ("    tags: ")) ++ renderTags ts = (Char.ofNat 32) :: (Char.ofNat 32) ::
      (Char.ofNat 32) :: (Char.ofNat 32) :: ((S ("tags: ")) ++ renderTags ts) := by
    rw [show (S ("    tags: ")) = (Char.ofNat 32) :: (Char.ofNat 32) ::
      (Char.ofNat 32) :: (Char.ofNat 32) :: (S ("tags: ")) from rfl]
    simp
  have hb2 : (S ("tags: ")) ++ renderTags ts =
      (Char.ofNat 116) :: ((S ("ags: ")) ++ renderTags ts) := by
    rw [show (S ("tags: ")) = (Char.ofNat 116) :: (S ("ags: ")) from rfl]
    simp
  have hb3 : (S ("tags: ")) ++ renderTags ts =
      (S ("tags:")) ++ ((Char.ofNat 32) :: renderTags ts) := by
    rw [show (S ("tags: ")) = (S ("tags:")) ++ [Char.ofNat 32] from rfl]
    simp
  have hhead : headNot isWSChar ((S ("tags: ")) ++ renderTags ts) = true := by
    rw [hb2]
    exact headNot_cons_eval _ _ (by decide) _
  have hrev : headNot isWSChar ((S ("tags: ")) ++ renderTags ts).reverse = true := by
    rw [List.reverse_append]
    exact headNot_append _ _ _ (by simpa using hvne) hvr
  have htrim : trim ((S ("    tags: ")) ++ renderTags ts) =
      (S ("tags: ")) ++ renderTags ts := by
    rw [hb1]
    exact trim_sp4_line _ hhead hrev
  have hind : indentOf ((S ("    tags: ")) ++ renderTags ts) = 4 := by
    rw [hb1, hb2]
    exact indentOf_sp4 _ (by decide) _
  have hrep : trim (replaceKeyWs (S ("tags:"))
      ((S ("tags: ")) ++ renderTags ts)) = renderTags ts := by
    rw [hb3, replaceKeyWs_prefix _ _ (by decide)]
    rw [List.dropWhile_cons, if_pos (by decide)]
    rw [dropWhile_id_of_headNot isWSChar (renderTags ts) hvh]
    exact trim_id_of_ws (renderTags ts) hvh hvr
  have hsw1 : startsWith ((S ("tags: ")) ++ renderTags ts)
      ((S ("lapseEntries")) ++ (S (":"))) = false := by
    rw [hb2, show (S ("lapseEntries")) ++ (S (":")) =
      (Char.ofNat 108) :: (S ("apseEntries:")) from rfl]
    exact sw_false_head _ _ _ _ (by decide)
  have hsw4 : startsWith ((S ("tags: ")) ++ renderTags ts) (S ("- label:")) = false := by
    rw [hb2, show (S ("- label:")) = (Char.ofNat 45) :: (S (" label:")) from rfl]
    exact sw_false_head _ _ _ _ (by decide)
  have hsw5 : startsWith ((S ("tags: ")) ++ renderTags ts) (S ("start:")) = false := by
    rw [hb2, show (S ("start:")) = (Char.ofNat 115) :: (S ("tart:")) from rfl]
    exact sw_false_head _ _ _ _ (by decide)
  have hsw6 : startsWith ((S ("tags: ")) ++ renderTags ts) (S ("end:")) = false := by
    rw [hb2, show (S ("end:")) = (Char.ofNat 101) :: (S ("nd:")) from rfl]
    exact sw_false_head _ _ _ _ (by decide)
  have hsw7 : startsWith ((S ("tags: ")) ++ renderTags ts) (S ("duration:")) = false := by
    rw [hb2, show (S ("duration:")) = (Char.ofNat 100) :: (S ("uration:")) from rfl]
    exact sw_false_head _ _ _ _ (by decide)
  have hbr : startsWith (renderTags ts) (S ("[")) = true := by
    rw [renderTags_shape ts hne]
    rw [show ([Char.ofNat 91, Char.ofNat 34] : Str) ++ innerAfterQuote ts =
      (S ("[")) ++ ((Char.ofNat 34) :: innerAfterQuote ts) from rfl]
    exact startsWith_append_self _ _
  unfold parseStep
  simp only []
  unfold parseStepCore
  rw [show DEFAULT_SETTINGS.entriesKey = (S ("lapseEntries")) from rfl]
  rw [htrim, hind]
  rw [if_neg (by
    rw [hsw1]
    exact fun hcon => Bool.noConfusion hcon)]
  rw [if_pos rfl]
  rw [if_neg (by
    intro hcon
    omega)]
  rw [if_neg (by
    rw [hsw4]
    exact fun hcon => Bool.noConfusion hcon)]
  rw [if_neg (fun hcon => by
    rw [hsw5] at hcon
    exact Bool.noConfusion hcon.1)]
  rw [if_neg (fun hcon => by
    rw [hsw6] at hcon
    exact Bool.noConfusion hcon.1)]
  rw [if_neg (fun hcon => by
    rw [hsw7] at hcon
    exact Bool.noConfusion hcon.1)]
  rw [if_pos ⟨by
    rw [hb3]
    exact startsWith_append_self _ _, rfl⟩]
  rw [hrep]
  rw [if_pos hbr]
  rw [jsonParse_renderTags ts hne hsafe]
  rfl

/-- One step on the top-level `totalTimeTracked:` line while inside the
entries block: flush the current builder and leave the block. -/
theorem step_total (fb : Str → Option Int) (fp : Str) (now : Int)
    (cur : Option EntryBuilder) (acc : List TimeEntry) (tt : Int) :
    parseStep DEFAULT_SETTINGS fb fp now
      { inEntries := true, current := cur, entries := acc, collecting := none }
      ((S ("totalTimeTracked: \"")) ++ formatTimeAsHHMMSS tt ++ [Char.ofNat 34]) =
    { inEntries := false, current := none,
      entries := (flushCurrent fb fp now { inEntries := true, current := cur, entries := acc, collecting := none }).entries,
      collecting := none } := by
  have hb2 : (S ("totalTimeTracked: \"")) ++ formatTimeAsHHMMSS tt ++ [Char.ofNat 34] =
      (Char.ofNat 116) :: ((S ("otalTimeTracked: \"")) ++ formatTimeAsHHMMSS tt ++
        [Char.ofNat 34]) := by
    rw [show (S ("totalTimeTracked: \"")) =
      (Char.ofNat 116) :: (S ("otalTimeTracked: \"")) from rfl]
    simp
  have hhead : headNot isWSChar ((S ("totalTimeTracked: \"")) ++
      formatTimeAsHHMMSS tt ++ [Char.ofNat 34]) = true := by
    rw [hb2]
    exact headNot_cons_eval _ _ (by decide) _
  have hrev : headNot isWSChar ((S ("totalTimeTracked: \"")) ++
      formatTimeAsHHMMSS tt ++ [Char.ofNat 34]).reverse = true := by
    rw [show (S ("totalTimeTracked: \"")) ++ formatTimeAsHHMMSS tt ++ [Char.ofNat 34] =
      ((S ("totalTimeTracked: \"")) ++ formatTimeAsHHMMSS tt) ++ [Char.ofNat 34] from by
        simp]
    exact headNot_snoc _ _ (by decide) _
  have htrim : trim ((S ("totalTimeTracked: \"")) ++ formatTimeAsHHMMSS tt ++
      [Char.ofNat 34]) = (S ("totalTimeTracked: \"")) ++ formatTimeAsHHMMSS tt ++
      [Char.ofNat 34] := trim_id_of_ws _ hhead hrev
  have hind : indentOf ((S ("totalTimeTracked: \"")) ++ formatTimeAsHHMMSS tt ++
      [Char.ofNat 34]) = 0 := by
    rw [hb2]
    exact indentOf_cons_nonws _ (by decide) _
  have hsw1 : startsWith ((S ("totalTimeTracked: \"")) ++ formatTimeAsHHMMSS tt ++
      [Char.ofNat 34]) ((S ("lapseEntries")) ++ (S (":"))) = false := by
    rw [hb2, show (S ("lapseEntries")) ++ (S (":")) =
      (Char.ofNat 108) :: (S ("apseEntries:")) from rfl]
    exact sw_false_head _ _ _ _ (by decide)
  have hswd : startsWith ((S ("totalTimeTracked: \"")) ++ formatTimeAsHHMMSS tt ++
      [Char.ofNat 34]) (S ("-")) = false := by
    rw [hb2, show (S ("-")) = (Char.ofNat 45) :: ([] : Str) from rfl]
    exact sw_false_head _ _ _ _ (by decide)
  unfold parseStep
  simp only []
  unfold parseStepCore
  rw [show DEFAULT_SETTINGS.entriesKey = (S ("lapseEntries")) from rfl]
  rw [htrim, hind]
  rw [if_neg (by
    rw [hsw1]
    exact fun hcon => Bool.noConfusion hcon)]
  rw [if_pos rfl]
  rw [if_pos ⟨by simp, rfl, by
    rw [hswd]
    exact fun hcon => Bool.noConfusion hcon⟩]
  rcases hfq : flushCurrent fb fp now { inEntries := true, current := cur, entries := acc, collecting := none } with ⟨fi, fc2, fe, fcol⟩
  have h2 := (flushCurrent_fields fb fp now { inEntries := true, current := cur, entries := acc, collecting := none }).2.1
  have h3 := (flushCurrent_fields fb fp now { inEntries := true, current := cur, entries := acc, collecting := none }).2.2
  rw [hfq] at h2 h3
  simp only [] at h2 h3
  rw [h2]
  rcases cur with _ | b0 <;> simp only [] at h3 <;> rw [h3]

/-- The entry fields the round-trip claim compares (id and pause flag
excluded). -/
def projE (e : TimeEntry) : Str × Option Int × Option Int × Int × List Str :=
  (e.label, e.startTime, e.endTime, e.duration, e.tags)

/-- A timestamp the datetime-local codec reproduces exactly: whole seconds
and a four-digit year. -/
def tsSafe : Option Int → Bool
  | none => true
  | some t => decide (t % 1000 = 0) && decide (1000 ≤ getFullYear t) &&
      decide (getFullYear t ≤ 9999)

/-- An entry every field of which survives the YAML round-trip. -/
def safeEntry (e : TimeEntry) : Bool :=
  safeLabel e.label && e.tags.all safeTag && decide (e.duration % 1000 = 0) &&
    tsSafe e.startTime && tsSafe e.endTime

theorem safeEntry_parts (e : TimeEntry) (h : safeEntry e = true) :
    safeLabel e.label = true ∧ (∀ t ∈ e.tags, safeTag t = true) ∧
      e.duration % 1000 = 0 ∧ tsSafe e.startTime = true ∧ tsSafe e.endTime = true := by
  unfold safeEntry at h
  rw [Bool.and_eq_true, Bool.and_eq_true, Bool.and_eq_true, Bool.and_eq_true] at h
  exact ⟨h.1.1.1.1, fun t ht => List.all_eq_true.mp h.1.1.1.2 t ht,
    of_decide_eq_true h.1.1.2, h.1.2, h.2⟩

/-- The builder the parser accumulates from one rendered entry block. -/
def builderOf (e : TimeEntry) : EntryBuilder :=
  { label := e.label,
    start := formatTimestampForFrontmatter e.startTime,
    endv := formatTimestampForFrontmatter e.endTime,
    duration := some (e.duration / 1000),
    tags := if e.tags ≠ [] then some e.tags else none }

theorem tsRound (fb : Str → Option Int) (ot : Option Int) (hsafe : tsSafe ot = true) :
    parseTimestampValue fb (formatTimestampForFrontmatter ot) = ot := by
  rcases ot with _ | t
  · rfl
  · unfold tsSafe at hsafe
    rw [Bool.and_eq_true, Bool.and_eq_true] at hsafe
    show (if formatForDatetimeLocal t = [] then none
      else parseDatetimeLocal fb (formatForDatetimeLocal t)) = some t
    rw [if_neg (formatFDL_ne_nil t)]
    exact codec_roundtrip fb t (of_decide_eq_true hsafe.1.1)
      (of_decide_eq_true hsafe.1.2) (of_decide_eq_true hsafe.2)

theorem projE_mkEntry (fb : Str → Option Int) (fp : Str) (now : Int) (n : Nat)
    (e : TimeEntry) (hs : safeEntry e = true) :
    projE (mkEntry fb fp now n (builderOf e)) = projE e := by
  obtain ⟨hl, hts, hdur, hs1, hs2⟩ := safeEntry_parts e hs
  have hlne : e.label ≠ [] := (safeLabel_parts e.label hl).1
  have hlab : (if e.label = [] then S ("Untitled") else e.label) = e.label :=
    if_neg hlne
  have hstart := tsRound fb e.startTime hs1
  have hend := tsRound fb e.endTime hs2
  have hdur2 : e.duration / 1000 * 1000 = e.duration :=
    Int.ediv_mul_cancel (Int.dvd_of_emod_eq_zero hdur)
  have htags : (if e.tags ≠ [] then some e.tags else none).getD [] = e.tags := by
    by_cases h : e.tags ≠ []
    · rw [if_pos h]
      rfl
    · rw [if_neg h]
      push_neg at h
      rw [h]
      rfl
  simp only [projE, mkEntry, builderOf, Option.getD_some]
  rw [hlab, hstart, hend, hdur2, htags]

/-- Folding the parser over one rendered entry block: the current builder
becomes `builderOf e` and the previous builder (if any) is flushed. -/
theorem fold_entry_lines (fb : Str → Option Int) (fp : Str) (now : Int)
    (cur : Option EntryBuilder) (acc : List TimeEntry) (e : TimeEntry)
    (hl : safeLabel e.label = true) (hts : ∀ t ∈ e.tags, safeTag t = true) :
    (entryLinesL e).foldl (parseStep DEFAULT_SETTINGS fb fp now)
      { inEntries := true, current := cur, entries := acc, collecting := none } =
    { inEntries := true, current := some (builderOf e),
      entries := (flushCurrent fb fp now { inEntries := true, current := cur, entries := acc, collecting := none }).entries,
      collecting := none } := by
  obtain ⟨hne0, h34, h92, h10, h36, hhh, hhr⟩ := safeLabel_parts e.label hl
  have hesc : escapeLabel e.label = e.label := escapeLabel_id e.label h34 h92
  unfold entryLinesL builderOf
  rw [hesc]
  rcases hst : e.startTime with _ | t1 <;> rcases hen : e.endTime with _ | t2 <;>
    by_cases htg : e.tags ≠ []
  · simp only [formatTimestampForFrontmatter, Option.map_none', optValLineL, if_pos htg,
      List.nil_append, List.append_nil, List.cons_append, List.singleton_append]
    rw [List.foldl_cons, step_label fb fp now cur acc e.label hl]
    rw [List.foldl_cons, step_duration]
    rw [List.foldl_cons, step_tags fb fp now _ _ e.tags htg hts]
    rfl
  · simp only [formatTimestampForFrontmatter, Option.map_none', optValLineL, if_neg htg,
      List.nil_append, List.append_nil, List.cons_append, List.singleton_append]
    rw [List.foldl_cons, step_label fb fp now cur acc e.label hl]
    rw [List.foldl_cons, step_duration]
    rfl
  · simp only [formatTimestampForFrontmatter, Option.map_none', Option.map_some',
      optValLineL, if_pos htg, if_pos (formatFDL_ne_nil t2),
      List.nil_append, List.append_nil, List.cons_append, List.singleton_append]
    rw [List.foldl_cons, step_label fb fp now cur acc e.label hl]
    rw [List.foldl_cons, step_end fb fp now _ _ (formatForDatetimeLocal t2)
      (fun c hc => formatFDL_chars t2 c hc) (formatFDL_ne_nil t2)]
    rw [List.foldl_cons, step_duration]
    rw [List.foldl_cons, step_tags fb fp now _ _ e.tags htg hts]
    rfl
  · simp only [formatTimestampForFrontmatter, Option.map_none', Option.map_some',
      optValLineL, if_neg htg, if_pos (formatFDL_ne_nil t2),
      List.nil_append, List.append_nil, List.cons_append, List.singleton_append]
    rw [List.foldl_cons, step_label fb fp now cur acc e.label hl]
    rw [List.foldl_cons, step_end fb fp now _ _ (formatForDatetimeLocal t2)
      (fun c hc => formatFDL_chars t2 c hc) (formatFDL_ne_nil t2)]
    rw [List.foldl_cons, step_duration]
    rfl
  · simp only [formatTimestampForFrontmatter, Option.map_none', Option.map_some',
      optValLineL, if_pos htg, if_pos (formatFDL_ne_nil t1),
      List.nil_append, List.append_nil, List.cons_append, List.singleton_append]
    rw [List.foldl_cons, step_label fb fp now cur acc e.label hl]
    rw [List.foldl_cons, step_start fb fp now _ _ (formatForDatetimeLocal t1)
      (fun c hc => formatFDL_chars t1 c hc) (formatFDL_ne_nil t1)]
    rw [List.foldl_cons, step_duration]
    rw [List.foldl_cons, step_tags fb fp now _ _ e.tags htg hts]
    rfl
  · simp only [formatTimestampForFrontmatter, Option.map_none', Option.map_some',
      optValLineL, if_neg htg, if_pos (formatFDL_ne_nil t1),
      List.nil_append, List.append_nil, List.cons_append, List.singleton_append]
    rw [List.foldl_cons, step_label fb fp now cur acc e.label hl]
    rw [List.foldl_cons, step_start fb fp now _ _ (formatForDatetimeLocal t1)
      (fun c hc => formatFDL_chars t1 c hc) (formatFDL_ne_nil t1)]
    rw [List.foldl_cons, step_duration]
    rfl
  · simp only [formatTimestampForFrontmatter, Option.map_some', optValLineL,
      if_pos htg, if_pos (formatFDL_ne_nil t1), if_pos (formatFDL_ne_nil t2),
      List.nil_append, List.append_nil, List.cons_append, List.singleton_append]
    rw [List.foldl_cons, step_label fb fp now cur acc e.label hl]
    rw [List.foldl_cons, step_start fb fp now _ _ (formatForDatetimeLocal t1)
      (fun c hc => formatFDL_chars t1 c hc) (formatFDL_ne_nil t1)]
    rw [List.foldl_cons, step_end fb fp now _ _ (formatForDatetimeLocal t2)
      (fun c hc => formatFDL_chars t2 c hc) (formatFDL_ne_nil t2)]
    rw [List.foldl_cons, step_duration]
    rw [List.foldl_cons, step_tags fb fp now _ _ e.tags htg hts]
    rfl
  · simp only [formatTimestampForFrontmatter, Option.map_some', optValLineL,
      if_neg htg, if_pos (formatFDL_ne_nil t1), if_pos (formatFDL_ne_nil t2),
      List.nil_append, List.append_nil, List.cons_append, List.singleton_append]
    rw [List.foldl_cons, step_label fb fp now cur acc e.label hl]
    rw [List.foldl_cons, step_start fb fp now _ _ (formatForDatetimeLocal t1)
      (fun c hc => formatFDL_chars t1 c hc) (formatFDL_ne_nil t1)]
    rw [List.foldl_cons, step_end fb fp now _ _ (formatForDatetimeLocal t2)
      (fun c hc => formatFDL_chars t2 c hc) (formatFDL_ne_nil t2)]
    rw [List.foldl_cons, step_duration]
    rfl

theorem flushCurrent_some_entries (fb : Str → Option Int) (fp : Str) (now : Int)
    (b : EntryBuilder) (F : List TimeEntry) :
    (flushCurrent fb fp now { inEntries := true, current := some b, entries := F, collecting := none }).entries =
      F ++ [mkEntry fb fp now F.length b] := rfl

theorem flushCurrent_none_id (fb : Str → Option Int) (fp : Str) (now : Int)
    (i : Bool) (F : List TimeEntry) (col : Option Nat) :
    flushCurrent fb fp now { inEntries := i, current := none, entries := F, collecting := col } =
      { inEntries := i, current := none, entries := F, collecting := col } := rfl

/-- Folding the parser over the rendered blocks of a whole entry list. -/
theorem fold_entries_walk (fb : Str → Option Int) (fp : Str) (now : Int)
    (es : List TimeEntry) (hsafe : ∀ e ∈ es, safeEntry e = true) :
    ∀ (cur : Option EntryBuilder) (acc : List TimeEntry),
      ∃ pc pa,
        ((es.map entryLinesL).flatten).foldl (parseStep DEFAULT_SETTINGS fb fp now)
            { inEntries := true, current := cur, entries := acc, collecting := none } =
          { inEntries := true, current := pc, entries := pa, collecting := none } ∧
        (flushCurrent fb fp now { inEntries := true, current := pc, entries := pa, collecting := none }).entries.map projE =
          (flushCurrent fb fp now { inEntries := true, current := cur, entries := acc, collecting := none }).entries.map projE
            ++ es.map projE := by
  induction es with
  | nil =>
    intro cur acc
    exact ⟨cur, acc, rfl, by simp⟩
  | cons e rest ih =>
    intro cur acc
    have hse := hsafe e (List.mem_cons_self e rest)
    obtain ⟨hl, hts, hd0, hts1, hts2⟩ := safeEntry_parts e hse
    rw [List.map_cons, List.flatten_cons, List.foldl_append]
    rw [fold_entry_lines fb fp now cur acc e hl hts]
    obtain ⟨pc, pa, heq, hmap⟩ :=
      ih (fun e2 he2 => hsafe e2 (List.mem_cons_of_mem e he2)) (some (builderOf e))
        ((flushCurrent fb fp now { inEntries := true, current := cur, entries := acc, collecting := none }).entries)
    refine ⟨pc, pa, heq, ?_⟩
    rw [hmap, flushCurrent_some_entries]
    rw [List.map_append, List.map_cons]
    rw [projE_mkEntry fb fp now _ e hse]
    simp

theorem step_keyval_inactive (fb : Str → Option Int) (fp : Str) (now : Int)
    (cur : Option EntryBuilder) (acc : List TimeEntry) (k v : Str)
    (hk : keyTame k = true) (hv : ∀ c ∈ v, safeValChar c = true) (hvne : v ≠ [])
    (hno : startsWith (k ++ (S (": ")) ++ v) ((S ("lapseEntries")) ++ (S (":"))) = false) :
    parseStep DEFAULT_SETTINGS fb fp now
      { inEntries := false, current := cur, entries := acc, collecting := none }
      (k ++ (S (": ")) ++ v) =
    { inEntries := false, current := cur, entries := acc, collecting := none } := by
  have htr := (safeVal_line_facts k v hk hv hvne).2
  apply step_inactive
  rw [htr]
  exact hno

theorem hno_startTime (v : Str) :
    startsWith ((S ("startTime")) ++ (S (": ")) ++ v)
      ((S ("lapseEntries")) ++ (S (":"))) = false := by
  rw [show (S ("startTime")) ++ (S (": ")) ++ v =
    (Char.ofNat 115) :: ((S ("tartTime")) ++ (S (": ")) ++ v) from by
      rw [show (S ("startTime")) = (Char.ofNat 115) :: (S ("tartTime")) from rfl]
      simp]
  rw [show (S ("lapseEntries")) ++ (S (":")) =
    (Char.ofNat 108) :: (S ("apseEntries:")) from rfl]
  exact sw_false_head _ _ _ _ (by decide)

theorem hno_endTime (v : Str) :
    startsWith ((S ("endTime")) ++ (S (": ")) ++ v)
      ((S ("lapseEntries")) ++ (S (":"))) = false := by
  rw [show (S ("endTime")) ++ (S (": ")) ++ v =
    (Char.ofNat 101) :: ((S ("ndTime")) ++ (S (": ")) ++ v) from by
      rw [show (S ("endTime")) = (Char.ofNat 101) :: (S ("ndTime")) from rfl]
      simp]
  rw [show (S ("lapseEntries")) ++ (S (":")) =
    (Char.ofNat 108) :: (S ("apseEntries:")) from rfl]
  exact sw_false_head _ _ _ _ (by decide)

/-- Folding an optional top-level timestamp line from outside the entries
block leaves the state unchanged. -/
theorem fold_optKey_start (fb : Str → Option Int) (fp : Str) (now : Int)
    (cur : Option EntryBuilder) (acc : List TimeEntry) (ov : Option Int) :
    (optKeyLineL (S ("startTime")) (formatTimestampForFrontmatter ov)).foldl
        (parseStep DEFAULT_SETTINGS fb fp now)
        { inEntries := false, current := cur, entries := acc, collecting := none } =
      { inEntries := false, current := cur, entries := acc, collecting := none } := by
  rcases ov with _ | t
  · rfl
  · simp only [formatTimestampForFrontmatter, Option.map_some', optKeyLineL,
      if_pos (formatFDL_ne_nil t)]
    rw [List.foldl_cons]
    rw [step_keyval_inactive fb fp now cur acc _ _ (by decide)
      (fun c hc => formatFDL_chars t c hc) (formatFDL_ne_nil t) (hno_startTime _)]
    rfl

theorem fold_optKey_end (fb : Str → Option Int) (fp : Str) (now : Int)
    (cur : Option EntryBuilder) (acc : List TimeEntry) (ov : Option Int) :
    (optKeyLineL (S ("endTime")) (formatTimestampForFrontmatter ov)).foldl
        (parseStep DEFAULT_SETTINGS fb fp now)
        { inEntries := false, current := cur, entries := acc, collecting := none } =
      { inEntries := false, current := cur, entries := acc, collecting := none } := by
  rcases ov with _ | t
  · rfl
  · simp only [formatTimestampForFrontmatter, Option.map_some', optKeyLineL,
      if_pos (formatFDL_ne_nil t)]
    rw [List.foldl_cons]
    rw [step_keyval_inactive fb fp now cur acc _ _ (by decide)
      (fun c hc => formatFDL_chars t c hc) (formatFDL_ne_nil t) (hno_endTime _)]
    rfl

/-- Folding the parser over the whole rendered Lapse block, for a nonempty
entry list: the final state is closed and its flushed entries project to the
original list. -/
theorem fold_blockLines (fb : Str → Option Int) (fp : Str) (now : Int)
    (pd : PageTimeData) (hne : pd.entries ≠ [])
    (hsafe : ∀ e ∈ pd.entries, safeEntry e = true) :
    ∃ fin : ParseState,
      (blockLines DEFAULT_SETTINGS pd).foldl (parseStep DEFAULT_SETTINGS fb fp now)
          { inEntries := false, current := none, entries := [], collecting := none } = fin ∧
      fin.current = none ∧ fin.collecting = none ∧
      fin.entries.map projE = pd.entries.map projE := by
  have hlen : pd.entries.length > 0 := by
    cases hq : pd.entries with
    | nil => exact absurd hq hne
    | cons a l => simp [hq]
  simp only [blockLines]
  rw [if_pos hlen]
  rw [show DEFAULT_SETTINGS.startTimeKey = (S ("startTime")) from rfl,
    show DEFAULT_SETTINGS.endTimeKey = (S ("endTime")) from rfl,
    show DEFAULT_SETTINGS.entriesKey = (S ("lapseEntries")) from rfl,
    show DEFAULT_SETTINGS.totalTimeKey = (S ("totalTimeTracked")) from rfl]
  rw [List.foldl_append, List.foldl_append, List.foldl_append]
  rw [fold_optKey_start]
  rw [fold_optKey_end]
  rw [List.foldl_cons]
  rw [List.foldl_cons]
  rw [step_header fb fp now false none [] _ (by decide)]
  obtain ⟨pc, pa, heq, hmap⟩ := fold_entries_walk fb fp now pd.entries hsafe none []
  rw [heq]
  rw [show (S ("totalTimeTracked")) ++ (S (": \"")) ++
      formatTimeAsHHMMSS ((pd.entries.filter fun e => e.endTime ≠ none).foldl
        (fun sum e => sum + e.duration) 0) ++ [Char.ofNat 34] =
    (S ("totalTimeTracked: \"")) ++ formatTimeAsHHMMSS
      ((pd.entries.filter fun e => e.endTime ≠ none).foldl
        (fun sum e => sum + e.duration) 0) ++ [Char.ofNat 34] from by
      rw [show (S ("totalTimeTracked: \"")) =
        (S ("totalTimeTracked")) ++ (S (": \"")) from rfl]]
  rw [step_total]
  refine ⟨_, rfl, rfl, rfl, ?_⟩
  simp only [List.foldl_nil]
  rw [hmap]
  rw [show (flushCurrent fb fp now { inEntries := true, current := none, entries := ([] : List TimeEntry), collecting := none }).entries = [] from rfl]
  simp

theorem safeEntry_tame (e : TimeEntry) (h : safeEntry e = true) : entryTame e = true := by
  obtain ⟨hl, hts, _, _, _⟩ := safeEntry_parts e h
  obtain ⟨_, h34, h92, h10, h36, _, _⟩ := safeLabel_parts e.label hl
  unfold entryTame
  rw [h10, h36]
  rw [show (true && true : Bool) = true from rfl]
  rw [Bool.true_and]
  rw [List.all_eq_true]
  intro t ht
  have hp := safeTag_parts t (hts t ht)
  rw [Bool.and_eq_true]
  constructor <;> rw [charFree_iff] <;> intro c hc
  · intro hc10
    have h32 := (hp c hc).1
    rw [hc10] at h32
    exact absurd h32 (by decide)
  · exact (hp c hc).2.2.2

theorem updateFM_empty (pd : PageTimeData) :
    updateFrontmatter DEFAULT_SETTINGS pd (S ("")) =
      (S ("---\n")) ++ (joinLines (blockLines DEFAULT_SETTINGS pd) ++
        ((S ("\n---")) ++ (S ("\n\n")))) := by
  show (S ("---\n")) ++ buildLapseFM DEFAULT_SETTINGS pd ++ (S ("---\n\n")) ++ (S ("")) = _
  rw [buildLapseFM_nlTerm, nlTerm_eq_join _ (blockLines_ne_nil _ _)]
  simp only [show (S ("")) = ([] : Str) from rfl, List.append_nil, List.append_assoc,
    List.cons_append, List.nil_append]
  rw [show (Char.ofNat 10) :: (S ("---\n\n")) = (S ("\n---")) ++ (S ("\n\n")) from rfl]

theorem matchFM_serialized_empty (pd : PageTimeData)
    (htame : ∀ e ∈ pd.entries, entryTame e = true) :
    matchFrontmatter (updateFrontmatter DEFAULT_SETTINGS pd (S (""))) =
      some (joinLines (blockLines DEFAULT_SETTINGS pd), (S ("\n\n"))) := by
  rw [updateFM_empty]
  rw [show joinLines (blockLines DEFAULT_SETTINGS pd) ++ ((S ("\n---")) ++ (S ("\n\n"))) =
    joinLines (blockLines DEFAULT_SETTINGS pd) ++ (S ("\n---")) ++ (S ("\n\n")) from by
      simp]
  rw [ matchFrontmatter_prefix]
  apply findFMClose_joined _ (blockLines_ne_nil _ _)
  intro x hx
  have hf := (blockLines_facts DEFAULT_SETTINGS pd (by decide) htame x hx).1
  unfold lineTame at hf
  rw [Bool.and_eq_true, Bool.and_eq_true] at hf
  exact ⟨hf.1.1, by simpa using hf.2⟩

set_option maxRecDepth 40000 in
set_option maxHeartbeats 3200000 in
/-- C1 (amended): serializing onto an empty document and re-parsing
reproduces every entry's label, start, end, duration and tags, in order,
provided each entry is safe: nonempty quote-, backslash-, newline- and
dollar-free label without edge whitespace, printable quote-, backslash- and
dollar-free tags, duration a whole number of seconds, and timestamps on
whole seconds with four-digit years. -/
theorem c1_entry_roundtrip_amended (fb : Str → Option Int) (fp bn : Str) (now : Int)
    (pd : PageTimeData) (hsafe : ∀ e ∈ pd.entries, safeEntry e = true) :
    ∃ pd2, loadEntriesFromFrontmatter DEFAULT_SETTINGS fb fp bn now
        (updateFrontmatter DEFAULT_SETTINGS pd (S (""))) = some pd2 ∧
      pd2.entries.map projE = pd.entries.map projE := by
  obtain ⟨es, tt⟩ := pd
  rcases es with _ | ⟨e0, rest⟩
  · exact ⟨{ entries := [], totalTimeTracked := 0 }, rfl, rfl⟩
  · have hne : ({ entries := e0 :: rest, totalTimeTracked := tt } :
        PageTimeData).entries ≠ [] := by simp
    have htame : ∀ e ∈ ({ entries := e0 :: rest, totalTimeTracked := tt } :
        PageTimeData).entries, entryTame e = true :=
      fun e he => safeEntry_tame e (hsafe e he)
    have hmatch := matchFM_serialized_empty _ htame
    have hfacts := blockLines_facts DEFAULT_SETTINGS
      { entries := e0 :: rest, totalTimeTracked := tt } (by decide) htame
    have hsplit : splitLines (joinLines (blockLines DEFAULT_SETTINGS
        { entries := e0 :: rest, totalTimeTracked := tt })) =
        blockLines DEFAULT_SETTINGS { entries := e0 :: rest, totalTimeTracked := tt } := by
      apply splitLines_joinLines _ (blockLines_ne_nil _ _)
      intro x hx
      have hf := (hfacts x hx).1
      unfold lineTame at hf
      rw [Bool.and_eq_true, Bool.and_eq_true] at hf
      exact hf.1.1
    obtain ⟨fin, hfold, hcur, hcol, hmapE⟩ := fold_blockLines fb fp now _ hne hsafe
    rcases fin with ⟨fi, fc, fe, fcol⟩
    simp only [] at hcur hcol
    subst hcur
    subst hcol
    simp only [loadEntriesFromFrontmatter, hmatch]
    rw [hsplit, hfold]
    rw [flushCurrent_none_id]
    simp only []
    have hlen : fe.length = (e0 :: rest).length := by
      have hc := congrArg List.length hmapE
      simpa using hc
    rw [if_neg (by
      rw [hlen]
      simp)]
    refine ⟨_, rfl, ?_⟩
    simpa using hmapE

/-- Number of unfinished (active) entries of a document record. -/
def activeCount (pd : PageTimeData) : Nat :=
  (pd.entries.filter fun e => e.startTime.isSome && e.endTime.isNone).length

/-- A document whose single (inactive) entry has a sub-second duration. -/
def c1CounterPd : PageTimeData :=
  { entries := [{ id := S ("x"), label := S ("a"), startTime := none, endTime := none, duration := 500, isPaused := false, tags := [] }],
    totalTimeTracked := 500 }

set_option maxRecDepth 40000 in
/-- A sub-second duration does not survive the round-trip: the serializer
writes `duration: 0` (integer seconds) and the parser reads back 0 ms. -/
theorem c1_roundtrip_counterexample :
    activeCount c1CounterPd ≤ 1 ∧
    (loadEntriesFromFrontmatter DEFAULT_SETTINGS fbNone (S ("f")) (S ("f")) 0
        (updateFrontmatter DEFAULT_SETTINGS c1CounterPd (S ("")))).map
        (fun pd2 => pd2.entries.map fun e => e.duration) = some [0] ∧
    c1CounterPd.entries.map (fun e => e.duration) = [500] := by
  refine ⟨by decide, ?_, by decide⟩
  decide

/-- A safe one-entry document for instantiating the round-trip theorem. -/
def c1WitnessPd : PageTimeData :=
  { entries := [{ id := S ("x"), label := S ("a"), startTime := some 0, endTime := some 1000, duration := 1000, isPaused := false, tags := [S ("t")] }],
    totalTimeTracked := 1000 }

set_option maxRecDepth 40000 in
theorem c1_entry_roundtrip_amended_witness :
    ∃ pd2, loadEntriesFromFrontmatter DEFAULT_SETTINGS fbNone (S ("f")) (S ("f")) 0
        (updateFrontmatter DEFAULT_SETTINGS c1WitnessPd (S (""))) = some pd2 ∧
      pd2.entries.map projE = c1WitnessPd.entries.map projE :=
  c1_entry_roundtrip_amended fbNone (S ("f")) (S ("f")) 0 c1WitnessPd (by decide)

end Lapse
